import Mathlib

/-!
RAG gateway: document listing, retrieval narrowing, the query pipeline, document upload
and access tokens.

A shallow embedding of the gateway's data layer (`app/gateway/internal/data`) and
business layer (`app/gateway/internal/biz`), followed by the properties proved about it.

Conventions of the embedding

* A Go `string` is a Lean `String`; `len` and slice indices count the units of `String.data`
  (Go counts bytes; for the UTF-8 text the protocol carries, equality of strings and
  containment of one string in another are the same at either granularity).
* A Go `int32` / `int64` is an `Int`; every arithmetic result and conversion is wrapped
  explicitly with `Go.toInt32` / `Go.toInt64`.
* A Go pointer that the code tests against `nil` is an `Option`.
* A Go `(value, error)` result is a pair whose second component is `none` for a `nil` error.
* A run-time panic (slice bounds out of range) is the result `none`.
* Logging is not modelled; clock readings and generated identifiers are parameters.
* A slice of pointers whose targets the code writes to (`RerankDocuments`) is a list of
  addresses together with a heap; elsewhere a slice of pointers is the list of the values.
* A `float32` is `Go.Float32`; comparisons are exact, the rounded operations are a
  parameter (`Go.Float32Arith`), with `Go.ieeeArith` as the round-to-nearest-even instance.
* The wall clock is a parameter: a `Go.CivilTime` for a formatted time, an `Int` of Unix
  seconds for `time.Now().Unix()`, and a function from the number of the reading to its value
  where a function reads the clock several times.
* The token library (`golang-jwt/jwt/v4`) is outside the repository and is modelled
  symbolically: a token is its header method, its claims and its authentication code, and
  two codes are equal only when method, key, header and claims are. The text of a token is
  given by a `jwt.Library`, whose only law is that decoding inverts encoding;
  `jwt.textLibrary` is one such serialization, on which the token functions can be run.
-/

set_option autoImplicit false

/-! ## Go run-time model -/

namespace Go

/-- Go error values; only their identity matters here. -/
abbrev Error := String

/-- Wrap-around of 32-bit signed arithmetic: the value of `int32(x)`. -/
def toInt32 (x : Int) : Int := (x + 2147483648) % 4294967296 - 2147483648

/-- Wrap-around of 64-bit signed arithmetic: the value of `int64(x)`. -/
def toInt64 (x : Int) : Int :=
  (x + 9223372036854775808) % 18446744073709551616 - 9223372036854775808

/-- The values an `int32` variable can hold. -/
def IsInt32 (x : Int) : Prop := -2147483648 ≤ x ∧ x < 2147483648

instance (x : Int) : Decidable (IsInt32 x) := by
  unfold IsInt32; infer_instance

/-- The slice expression `s[lo:hi]`; `none` is the panic "slice bounds out of range".
The upper bound checked is the length (for the slices built here the capacity is never
what saves an index: every `hi` used is clamped to the length beforehand). -/
def slice {α : Type} (s : List α) (lo hi : Int) : Option (List α) :=
  if 0 ≤ lo ∧ lo ≤ hi ∧ hi ≤ (s.length : Int) then
    some ((s.drop lo.toNat).take (hi - lo).toNat)
  else
    none

/-- The loop `for _, x := range xs { if keep(x) { acc = append(acc, x) } }`. -/
def appendIf {α : Type} (keep : α → Bool) : List α → List α → List α
  | acc, [] => acc
  | acc, x :: xs => if keep x then appendIf keep (acc ++ [x]) xs else appendIf keep acc xs

/-- A Go `map[string]V` as an association list; the first binding of a key is the live one. -/
abbrev Map (V : Type) := List (String × V)

/-- The assignment `m[k] = v`. -/
def Map.set {V : Type} (m : Map V) (k : String) (v : V) : Map V := (k, v) :: m

/-- The two-result lookup `v, exists := m[k]`. -/
def Map.get? {V : Type} : Map V → String → Option V
  | [], _ => none
  | (k', v) :: rest, k => if k = k' then some v else Map.get? rest k

/-- The one-result lookup `m[k]` on a `map[string]bool`: the zero value `false` when absent. -/
def Map.getBool (m : Map Bool) (k : String) : Bool :=
  match Map.get? m k with
  | some b => b
  | none => false

/-- The loop `for _, k := range keys { m[k] = true }`. -/
def Map.markAll : Map Bool → List String → Map Bool
  | m, [] => m
  | m, k :: ks => Map.markAll (Map.set m k true) ks

/-- The values of a Go `float32` as comparisons see them: not-a-number, the two infinities,
and the finite values `m * 2 ^ e`. -/
inductive Float32 where
  | nan
  | inf (negative : Bool)
  | fin (m : Int) (e : Int)
deriving DecidableEq

/-- IEEE comparison; `none` when the operands are unordered. -/
def Float32.cmp : Float32 → Float32 → Option Ordering
  | .nan, _ => none
  | _, .nan => none
  | .inf s, .inf t => some (if s = t then .eq else if s then .lt else .gt)
  | .inf s, .fin _ _ => some (if s then .lt else .gt)
  | .fin _ _, .inf t => some (if t then .gt else .lt)
  | .fin m e, .fin n f =>
    some (compare (m * 2 ^ (e - min e f).toNat) (n * 2 ^ (f - min e f).toNat))

/-- The operator `a >= b`. -/
def Float32.ge (a b : Float32) : Bool :=
  match Float32.cmp a b with
  | some .gt => true
  | some .eq => true
  | _ => false

/-- The operator `a > b`. -/
def Float32.gt (a b : Float32) : Bool :=
  match Float32.cmp a b with
  | some .gt => true
  | _ => false

/-- The constant `0`. -/
def Float32.zero : Float32 := .fin 0 0

end Go

/-! ## Protocol types (`api/common/v1`, `api/gateway/v1`), as far as the code reads them -/

namespace commonv1

/-- The message `Metadata`; only its `Data` map is read. A nil map is `none`. -/
structure Metadata where
  Data : Option (Go.Map String)
deriving DecidableEq

/-- The message `Filter`. -/
structure Filter where
  Field : String
  Operator : String
  Values : List String
deriving DecidableEq

/-- The message `PaginationRequest`; both fields are `int32`. -/
structure PaginationRequest where
  Page : Int
  PageSize : Int
deriving DecidableEq

/-- The message `PaginationResponse`; `Total` is `int64`, the others `int32`. -/
structure PaginationResponse where
  Page : Int
  PageSize : Int
  Total : Int
  TotalPages : Int
deriving DecidableEq

/-- The message `ChunkInfo`. -/
structure ChunkInfo where
  ChunkId : String
  DocumentId : String
  Content : String
  ChunkIndex : Int
deriving DecidableEq

/-- The message `DocumentInfo`, as far as `ListDocuments` fills it. -/
structure DocumentInfo where
  DocumentId : String
  Title : String
  FileType : String
  FileSize : Int
  TotalChunks : Int
  Metadata : Option Metadata
deriving DecidableEq

end commonv1

namespace v1

/-- The message `ListDocumentsRequest`. -/
structure ListDocumentsRequest where
  Pagination : Option commonv1.PaginationRequest
  Filters : List commonv1.Filter
deriving DecidableEq

/-- The message `DocumentListStats`, as far as `ListDocuments` fills it. -/
structure DocumentListStats where
  TotalDocuments : Int
deriving DecidableEq

/-- The message `ListDocumentsResponse`. -/
structure ListDocumentsResponse where
  Documents : List commonv1.DocumentInfo
  Pagination : commonv1.PaginationResponse
  Stats : DocumentListStats
deriving DecidableEq

/-- The message `QueryParameters`. -/
structure QueryParameters where
  MaxResults : Int
  SimilarityThreshold : Go.Float32
  DocumentTypes : List String
  DocumentIds : List String
  EnableReranking : Bool
  EnableContextAssembly : Bool
deriving DecidableEq

/-- The message `QueryRequest`. -/
structure QueryRequest where
  Query : String
  UserId : String
  Parameters : Option QueryParameters
deriving DecidableEq

/-- The message `RelatedDocument`. -/
structure RelatedDocument where
  DocumentId : String
  Title : String
  Snippet : String
  RelevanceScore : Go.Float32
  DocumentType : String
  Chunks : List commonv1.ChunkInfo
deriving DecidableEq

/-- The message `QueryMetadata`. -/
structure QueryMetadata where
  ProcessingTimeMs : Int
  TotalDocumentsSearched : Int
  DocumentsReturned : Int
  ModelUsed : String
  DebugInfo : Go.Map String
deriving DecidableEq

/-- The message `QueryResponse`. -/
structure QueryResponse where
  QueryId : String
  Answer : String
  RelatedDocuments : List RelatedDocument
  Metadata : QueryMetadata
  Suggestions : List String
deriving DecidableEq

end v1

/-! ## Business-layer types (`biz`) -/

namespace biz

/-- The struct `biz.Document`; timestamps are opaque instants. -/
structure Document where
  DocumentID : String
  Title : String
  FileType : String
  FileSize : Int
  TotalChunks : Int
  Content : String
  Metadata : Option commonv1.Metadata
  CreatedAt : Int
  UpdatedAt : Int
deriving DecidableEq

/-- The struct `biz.RelatedDocument`. -/
structure RelatedDocument where
  DocumentID : String
  Title : String
  Snippet : String
  RelevanceScore : Go.Float32
  DocumentType : String
  Chunks : List commonv1.ChunkInfo
deriving DecidableEq

/-- The struct `biz.QueryMetadata`. -/
structure QueryMetadata where
  QueryTime : Int
  ProcessingTimeMs : Int
  TotalDocumentsSearched : Int
  DocumentsReturned : Int
  ModelUsed : String
  DebugInfo : Go.Map String
deriving DecidableEq

/-- The interface `biz.QueryRepo`: each method is the outcome the collaborator gives for
its arguments. -/
structure QueryRepo where
  RetrieveDocuments : String → Option v1.QueryParameters → List RelatedDocument × Option Go.Error
  RerankDocuments : String → List RelatedDocument → List RelatedDocument × Option Go.Error
  AssembleAnswer : String → List RelatedDocument → String × Option Go.Error
  SaveQueryHistory : String → String → String → QueryMetadata → Option Go.Error
  GetQuerySuggestions : String → List String × Option Go.Error

end biz

/-! ## Data layer: document listing (`data/document.go`) -/

namespace data

open commonv1 biz

/-- The `eq` case of `matchStringFilter`: the loop returns `true` at the first equal value. -/
def eqLoop (value : String) : List String → Bool
  | [] => false
  | filterValue :: rest => if value = filterValue then true else eqLoop value rest

/-- The `ne` case of `matchStringFilter`: the loop returns `false` at the first equal value. -/
def neLoop (value : String) : List String → Bool
  | [] => true
  | filterValue :: rest => if value = filterValue then false else neLoop value rest

/-- The `in` case of `matchStringFilter`. -/
def inLoop (value : String) : List String → Bool
  | [] => false
  | filterValue :: rest => if value = filterValue then true else inLoop value rest

/-- The inner loop of the `like` case,
`for i := ...; i <= len(value)-len(filterValue); i++`, with `steps` iterations left to run
from index `i`. The slice `value[i:i+len(filterValue)]` is read as drop-then-take. -/
def likeScan (value filterValue : String) : Nat → Int → Bool
  | 0, _ => false
  | steps + 1, i =>
    if (value.data.drop i.toNat).take ((i + filterValue.length) - i).toNat = filterValue.data then
      true
    else
      likeScan value filterValue steps (i + 1)

/-- The same inner loop with the slice expression bounds-checked: `none` is a panic. -/
def likeScanChecked (value filterValue : String) : Nat → Int → Option Bool
  | 0, _ => some false
  | steps + 1, i =>
    match Go.slice value.data i (i + filterValue.length) with
    | none => none
    | some s =>
      if s = filterValue.data then some true
      else likeScanChecked value filterValue steps (i + 1)

/-- Number of iterations of `for i := 0; i <= len(value)-len(filterValue); i++`. -/
def likeSteps (value filterValue : String) : Nat :=
  (((value.length : Int) - (filterValue.length : Int)) + 1).toNat

/-- The `like` case of `matchStringFilter`: the loop over the filter's values. -/
def likeLoop (value : String) : List String → Bool
  | [] => false
  | filterValue :: rest =>
    if filterValue.length > 0 ∧ value.length > 0 then
      if likeScan value filterValue (likeSteps value filterValue) 0 then true
      else likeLoop value rest
    else
      likeLoop value rest

/-- The `like` loop over the filter's values with the bounds-checked scan. -/
def likeLoopChecked (value : String) : List String → Option Bool
  | [] => some false
  | filterValue :: rest =>
    if filterValue.length > 0 ∧ value.length > 0 then
      match likeScanChecked value filterValue (likeSteps value filterValue) 0 with
      | none => none
      | some true => some true
      | some false => likeLoopChecked value rest
    else
      likeLoopChecked value rest

/-- The method `documentRepo.matchStringFilter`. -/
def matchStringFilter (value : String) (filter : Filter) : Bool :=
  if filter.Values.length = 0 then true
  else if filter.Operator = "eq" then eqLoop value filter.Values
  else if filter.Operator = "ne" then neLoop value filter.Values
  else if filter.Operator = "like" then likeLoop value filter.Values
  else if filter.Operator = "in" then inLoop value filter.Values
  else true

/-- The guarded metadata read of `applyFilter`:
`doc.Metadata != nil && doc.Metadata.Data != nil` and then `v, exists := Data[key]`. -/
def metadataValue (doc : Document) (key : String) : Option String :=
  match doc.Metadata with
  | none => none
  | some md =>
    match md.Data with
    | none => none
    | some m => Go.Map.get? m key

/-- The method `documentRepo.applyFilter`. -/
def applyFilter (doc : Document) (filter : Filter) : Bool :=
  if filter.Field = "title" then matchStringFilter doc.Title filter
  else if filter.Field = "file_type" then matchStringFilter doc.FileType filter
  else if filter.Field = "author" then
    match metadataValue doc "author" with
    | some author => matchStringFilter author filter
    | none => false
  else if filter.Field = "category" then
    match metadataValue doc "category" with
    | some category => matchStringFilter category filter
    | none => false
  else true

/-- The inner loop of the filtering step of `ListDocuments`: `passAllFilters` after the loop,
which breaks at the first filter the document fails. -/
def passAllFilters (doc : Document) : List Filter → Bool
  | [] => true
  | filter :: rest => if !applyFilter doc filter then false else passAllFilters doc rest

/-- The filtering step of `ListDocuments` (the block under `len(filters) > 0`):
the list the pagination works on. -/
def listFiltered (stored : List Document) (filters : List Filter) : List Document :=
  if filters.length > 0 then
    Go.appendIf (fun doc => passAllFilters doc filters) [] stored
  else
    stored

/-- The variable `page` of `ListDocuments` after the defaulting block. -/
def listPage (pagination : Option PaginationRequest) : Int :=
  match pagination with
  | none => 1
  | some p => if p.Page > 0 then p.Page else 1

/-- The variable `pageSize` of `ListDocuments` after the defaulting block. -/
def listPageSize (pagination : Option PaginationRequest) : Int :=
  match pagination with
  | none => 10
  | some p => if p.PageSize > 0 then p.PageSize else 10

/-- The variable `total` of `ListDocuments`: `int64(len(docs))`. -/
def listTotal (docs : List Document) : Int := Go.toInt64 docs.length

/-- The variable `totalPages` of `ListDocuments`:
`int32((total + int64(pageSize) - 1) / int64(pageSize))`. -/
def listTotalPages (docs : List Document) (pageSize : Int) : Int :=
  Go.toInt32 (Go.toInt64 (Int.tdiv
    (Go.toInt64 (Go.toInt64 (listTotal docs + Go.toInt64 pageSize) - 1))
    (Go.toInt64 pageSize)))

/-- The variables `start` and `end` of `ListDocuments` just before `docs[start:end]`. -/
def listWindow (docs : List Document) (page pageSize : Int) : Int × Int :=
  let start := Go.toInt32 (Go.toInt32 (page - 1) * pageSize)
  let end0 := Go.toInt32 (start + pageSize)
  let end1 := if end0 > Go.toInt32 docs.length then Go.toInt32 docs.length else end0
  let start1 := if start > Go.toInt32 docs.length then Go.toInt32 docs.length else start
  (start1, end1)

/-- The method `documentRepo.ListDocuments`, on the document list `stored` that the store
holds (the source fills it with the two documents of `mockDocuments`). The result is `none`
when `docs[start:end]` panics. -/
def ListDocuments (stored : List Document) (pagination : Option PaginationRequest)
    (filters : List Filter) : Option (List Document × PaginationResponse × Option Go.Error) :=
  let docs := listFiltered stored filters
  let page := listPage pagination
  let pageSize := listPageSize pagination
  let total := listTotal docs
  let totalPages := listTotalPages docs pageSize
  let window := listWindow docs page pageSize
  match Go.slice docs window.1 window.2 with
  | none => none
  | some pagedDocs =>
    some (pagedDocs,
      { Page := page, PageSize := pageSize, Total := total, TotalPages := totalPages },
      none)

/-- The two documents the source's `ListDocuments` lists, with their four time stamps. -/
def mockDocuments (c1 u1 c2 u2 : Int) : List Document :=
  [ { DocumentID := "doc-1", Title := "机器学习基础", FileType := "pdf", FileSize := 2048000,
      TotalChunks := 15, Content := "",
      Metadata := some { Data := some [("author", "张三"), ("category", "AI")] },
      CreatedAt := c1, UpdatedAt := u1 },
    { DocumentID := "doc-2", Title := "深度学习实践", FileType := "pdf", FileSize := 3072000,
      TotalChunks := 20, Content := "",
      Metadata := some { Data := some [("author", "李四"), ("category", "AI")] },
      CreatedAt := c2, UpdatedAt := u2 } ]

end data

/-! ## Data layer: retrieval narrowing (`data/query.go`) -/

namespace data

open biz

/-- The method `queryRepo.RetrieveDocuments`, on the list `retrieved` that the retrieval
yields (the source fills it with the two documents of `mockRetrieved`); lines 69-121 are the
in-process narrowing by the query parameters. -/
def RetrieveDocuments (retrieved : List RelatedDocument) (_query : String)
    (params : Option v1.QueryParameters) : List RelatedDocument × Option Go.Error :=
  match params with
  | none => (retrieved, none)
  | some p =>
    let documents := retrieved
    let documents :=
      if p.MaxResults > 0 ∧ Go.toInt32 documents.length > p.MaxResults then
        documents.take p.MaxResults.toNat
      else documents
    let documents :=
      if Go.Float32.gt p.SimilarityThreshold Go.Float32.zero then
        Go.appendIf (fun doc => Go.Float32.ge doc.RelevanceScore p.SimilarityThreshold)
          [] documents
      else documents
    let documents :=
      if p.DocumentTypes.length > 0 then
        let typeMap := Go.Map.markAll [] p.DocumentTypes
        Go.appendIf (fun doc => Go.Map.getBool typeMap doc.DocumentType) [] documents
      else documents
    let documents :=
      if p.DocumentIds.length > 0 then
        let idMap := Go.Map.markAll [] p.DocumentIds
        Go.appendIf (fun doc => Go.Map.getBool idMap doc.DocumentID) [] documents
      else documents
    (documents, none)

/-- The two documents the source's `RetrieveDocuments` starts from; the scores are the
`float32` values of the literals `0.95` and `0.88`. -/
def mockRetrieved : List RelatedDocument :=
  [ { DocumentID := "doc-1", Title := "机器学习基础",
      Snippet := "机器学习是人工智能的一个重要分支...",
      RelevanceScore := .fin 15938355 (-24), DocumentType := "pdf",
      Chunks := [ { ChunkId := "chunk-1-1", DocumentId := "doc-1",
                    Content := "机器学习基础知识介绍...", ChunkIndex := 1 } ] },
    { DocumentID := "doc-2", Title := "深度学习实践",
      Snippet := "深度学习是机器学习的一个子领域...",
      RelevanceScore := .fin 14763950 (-24), DocumentType := "pdf",
      Chunks := [ { ChunkId := "chunk-2-1", DocumentId := "doc-2",
                    Content := "深度学习网络结构...", ChunkIndex := 1 } ] } ]

end data

/-! ## Business layer: the query pipeline (`biz/query.go`) -/

namespace biz

/-- The conversion loop at the end of `ProcessQuery`: one `v1.RelatedDocument` per document. -/
def toProto (doc : RelatedDocument) : v1.RelatedDocument :=
  { DocumentId := doc.DocumentID, Title := doc.Title, Snippet := doc.Snippet,
    RelevanceScore := doc.RelevanceScore, DocumentType := doc.DocumentType,
    Chunks := doc.Chunks }

/-- The method `QueryUsecase.ProcessQuery`. `startTime` and `processingTime` are the two clock
readings, `queryID` the value of `generateQueryID()`. -/
def ProcessQuery (repo : QueryRepo) (startTime processingTime : Int) (queryID : String)
    (req : v1.QueryRequest) : Option v1.QueryResponse × Option Go.Error :=
  match repo.RetrieveDocuments req.Query req.Parameters with
  | (_, some err) => (none, some err)
  | (retrieved, none) =>
    let documents :=
      match req.Parameters with
      | none => retrieved
      | some p =>
        if p.EnableReranking then
          match repo.RerankDocuments req.Query retrieved with
          | (_, some _) => retrieved
          | (rerankedDocs, none) => rerankedDocs
        else retrieved
    let answer :=
      match req.Parameters with
      | none => "请查看相关文档获取信息。"
      | some p =>
        if p.EnableContextAssembly then
          match repo.AssembleAnswer req.Query documents with
          | (_, some _) => "抱歉，无法生成答案，请查看相关文档。"
          | (generatedAnswer, none) => generatedAnswer
        else "请查看相关文档获取信息。"
    let suggestions :=
      match repo.GetQuerySuggestions req.Query with
      | (_, some _) => []
      | (suggestions, none) => suggestions
    let metadata : QueryMetadata :=
      { QueryTime := startTime, ProcessingTimeMs := processingTime,
        TotalDocumentsSearched := Go.toInt32 documents.length,
        DocumentsReturned := Go.toInt32 documents.length,
        ModelUsed := "default", DebugInfo := [] }
    let _saved := repo.SaveQueryHistory req.UserId req.Query answer metadata
    let relatedDocs := documents.map toProto
    (some { QueryId := queryID, Answer := answer, RelatedDocuments := relatedDocs,
            Metadata := { ProcessingTimeMs := metadata.ProcessingTimeMs,
                          TotalDocumentsSearched := metadata.TotalDocumentsSearched,
                          DocumentsReturned := metadata.DocumentsReturned,
                          ModelUsed := metadata.ModelUsed,
                          DebugInfo := metadata.DebugInfo },
            Suggestions := suggestions },
     none)

end biz

/-! ## Specification-side definitions

These follow the wording of the specification; the theorems compare them with the
definitions above, which follow the source. -/

namespace Spec

open biz commonv1

/-- Narrowing step 1 in the specification's words: keep the first `maxResults` documents,
only if `maxResults` is positive and smaller than the count. -/
def truncateStep (maxResults : Int) (docs : List RelatedDocument) : List RelatedDocument :=
  if 0 < maxResults ∧ maxResults < (docs.length : Int) then docs.take maxResults.toNat else docs

/-- Narrowing step 2: keep the documents with score `>=` the threshold, only if the
threshold is positive. -/
def thresholdStep (threshold : Go.Float32) (docs : List RelatedDocument) :
    List RelatedDocument :=
  if Go.Float32.gt threshold Go.Float32.zero then
    docs.filter (fun d => Go.Float32.ge d.RelevanceScore threshold)
  else docs

/-- Narrowing step 3: keep the documents whose type is in the allow-list, only if the
allow-list is non-empty. -/
def typeStep (types : List String) (docs : List RelatedDocument) : List RelatedDocument :=
  if types ≠ [] then docs.filter (fun d => decide (d.DocumentType ∈ types)) else docs

/-- Narrowing step 4: keep the documents whose id is in the allow-list, only if the
allow-list is non-empty. -/
def idStep (ids : List String) (docs : List RelatedDocument) : List RelatedDocument :=
  if ids ≠ [] then docs.filter (fun d => decide (d.DocumentID ∈ ids)) else docs

/-- The value a document has for a known filter field, if it has one. -/
def fieldValue (field : String) (doc : Document) : Option String :=
  if field = "title" then some doc.Title
  else if field = "file_type" then some doc.FileType
  else if field = "author" then
    (doc.Metadata.bind (fun md => md.Data)).bind (fun m => Go.Map.get? m "author")
  else if field = "category" then
    (doc.Metadata.bind (fun md => md.Data)).bind (fun m => Go.Map.get? m "category")
  else none

/-- The effective page in the specification's words: the requested page, or `1` when the
request is absent or the requested page is not positive. -/
def effectivePage (pagination : Option PaginationRequest) : Int :=
  match pagination with
  | some p => if p.Page ≤ 0 then 1 else p.Page
  | none => 1

/-- The effective page size in the specification's words: the requested size, or `10` when
the request is absent or the requested size is not positive. -/
def effectivePageSize (pagination : Option PaginationRequest) : Int :=
  match pagination with
  | some p => if p.PageSize ≤ 0 then 10 else p.PageSize
  | none => 10

/-- A document passes every filter of the list. -/
def passesAll (filters : List Filter) (doc : Document) : Bool :=
  filters.all (fun f => data.applyFilter doc f)

/-- The known filter fields. -/
def knownField (field : String) : Prop :=
  field = "title" ∨ field = "file_type" ∨ field = "author" ∨ field = "category"

instance (field : String) : Decidable (knownField field) := by
  unfold knownField; infer_instance

end Spec

/-! ## Business layer: document listing (`biz/document.go`) -/

namespace biz

/-- The method `DocumentUsecase.ListDocuments`; `repoList` is `uc.repo.ListDocuments`, whose
panic (`none`) propagates. -/
def ListDocuments
    (repoList : Option commonv1.PaginationRequest → List commonv1.Filter →
      Option (List Document × commonv1.PaginationResponse × Option Go.Error))
    (req : v1.ListDocumentsRequest) :
    Option (Option v1.ListDocumentsResponse × Option Go.Error) :=
  match repoList req.Pagination req.Filters with
  | none => none
  | some (_, _, some err) => some (none, some err)
  | some (docs, pagination, none) =>
    let docInfos := docs.map (fun doc =>
      ({ DocumentId := doc.DocumentID, Title := doc.Title, FileType := doc.FileType,
         FileSize := doc.FileSize, TotalChunks := doc.TotalChunks,
         Metadata := doc.Metadata } : commonv1.DocumentInfo))
    some (some { Documents := docInfos, Pagination := pagination,
                 Stats := { TotalDocuments := pagination.Total } }, none)

end biz

/-! ## Collaborators used to exercise the pipeline -/

namespace biz

/-- A collaborator whose retrieval fails with `err`; every other call fails too. -/
def downRepo (err : Go.Error) : QueryRepo :=
  { RetrieveDocuments := fun _ _ => ([], some err),
    RerankDocuments := fun _ _ => ([], some "rerank unavailable"),
    AssembleAnswer := fun _ _ => ("", some "assembler unavailable"),
    SaveQueryHistory := fun _ _ _ _ => some "history unavailable",
    GetQuerySuggestions := fun _ => ([], some "suggestions unavailable") }

/-- A collaborator whose retrieval returns `docs` and whose every other call fails. -/
def degradedRepo (docs : List RelatedDocument) : QueryRepo :=
  { RetrieveDocuments := fun _ _ => (docs, none),
    RerankDocuments := fun _ _ => ([], some "rerank unavailable"),
    AssembleAnswer := fun _ _ => ("", some "assembler unavailable"),
    SaveQueryHistory := fun _ _ _ _ => some "history unavailable",
    GetQuerySuggestions := fun _ => ([], some "suggestions unavailable") }

/-- A document that carries no metadata at all. -/
def bareDocument : Document :=
  { DocumentID := "doc-3", Title := "notes", FileType := "txt", FileSize := 12,
    TotalChunks := 1, Content := "", Metadata := none, CreatedAt := 0, UpdatedAt := 0 }

/-- A request with reranking and answer assembly both switched on. -/
def fullRequest : v1.QueryRequest :=
  { Query := "machine learning", UserId := "u-1",
    Parameters := some { MaxResults := 0, SimilarityThreshold := Go.Float32.zero,
                         DocumentTypes := [], DocumentIds := [],
                         EnableReranking := true, EnableContextAssembly := true } }

end biz

/-! ## Data layer: reranking (`data/query.go`) -/

namespace Go

/-- The operator `a < b`. -/
def Float32.lt (a b : Float32) : Bool :=
  match Float32.cmp a b with
  | some .lt => true
  | _ => false

/-- The `float32` operations whose results depend on rounding, taken as given: product,
difference and the conversion `float32(i)` of an `int`. -/
structure Float32Arith where
  mul : Float32 → Float32 → Float32
  sub : Float32 → Float32 → Float32
  ofInt : Int → Float32

/-- The constant `1.0`. -/
def Float32.one : Float32 := .fin 1 0

/-- The `float32` value of the constant `0.01`. -/
def Float32.hundredth : Float32 := .fin 10737418 (-30)

/-- A non-nil pointer: an address in a heap. -/
abbrev Ptr := Nat

/-- The assignment `*p = v` in a heap of `V` values. -/
def store {V : Type} (heap : Ptr → V) (p : Ptr) (v : V) : Ptr → V :=
  fun q => if q = p then v else heap q

end Go

namespace data

open biz

/-- One run of the inner loop of the bubble sort,
`for j := 0; j < k; j++ { if a[j] < a[j+1] { swap } }`, walking the slice from the front with
`k` comparisons left; `less x y` is the test `x.RelevanceScore < y.RelevanceScore`. The
bound `k = len-i-1` keeps `j+1` inside the slice, so the last case is never reached. -/
def bubblePass {β : Type} (less : β → β → Bool) : Nat → List β → List β
  | 0, l => l
  | k + 1, x :: y :: rest =>
    if less x y then y :: bubblePass less k (x :: rest)
    else x :: bubblePass less k (y :: rest)
  | _ + 1, l => l

/-- The outer loop of the bubble sort, `for i := ...; i < n-1; i++`, with `passes` iterations
left to run from `i`; iteration `i` runs the inner loop with bound `n-i-1`. -/
def bubbleLoop {β : Type} (less : β → β → Bool) (n : Nat) : Nat → Nat → List β → List β
  | 0, _, l => l
  | passes + 1, i, l => bubbleLoop less n passes (i + 1) (bubblePass less (n - i - 1) l)

/-- The bubble sort of `RerankDocuments` on a slice of length `len(rerankedDocs)`. -/
def bubbleSort {β : Type} (less : β → β → Bool) (l : List β) : List β :=
  bubbleLoop less l.length (l.length - 1) 0 l

/-- The loop `for i, doc := range rerankedDocs` that rescales the score of each document
through its pointer, `doc.RelevanceScore * (1.0 - float32(i)*0.01)`, from index `i` on. -/
def decayLoop (arith : Go.Float32Arith) :
    Nat → List Go.Ptr → (Go.Ptr → RelatedDocument) → (Go.Ptr → RelatedDocument)
  | _, [], heap => heap
  | i, doc :: rest, heap =>
    decayLoop arith (i + 1) rest
      (Go.store heap doc
        { heap doc with
          RelevanceScore :=
            arith.mul (heap doc).RelevanceScore
              (arith.sub Go.Float32.one (arith.mul (arith.ofInt i) Go.Float32.hundredth)) })

/-- The method `queryRepo.RerankDocuments`. The documents are pointers into `heap`; the
result is the reordered pointer slice, the heap after the scores were rescaled, and the
error. -/
def RerankDocuments (arith : Go.Float32Arith) (heap : Go.Ptr → RelatedDocument)
    (_query : String) (documents : List Go.Ptr) :
    List Go.Ptr × (Go.Ptr → RelatedDocument) × Option Go.Error :=
  let rerankedDocs :=
    bubbleSort (fun x y => Go.Float32.lt (heap x).RelevanceScore (heap y).RelevanceScore)
      documents
  (rerankedDocs, decayLoop arith 0 rerankedDocs heap, none)

end data

/-! ## Business layer: login (`biz/auth.go`) -/

namespace v1

/-- The message `LoginRequest`. -/
structure LoginRequest where
  Username : String
  Password : String
deriving DecidableEq

/-- The message `UserInfo`. -/
structure UserInfo where
  UserId : String
  Username : String
  Email : String
  Roles : List String
  Attributes : Go.Map String
deriving DecidableEq

/-- The message `LoginResponse`. -/
structure LoginResponse where
  AccessToken : String
  RefreshToken : String
  TokenType : String
  ExpiresIn : Int
  Scope : String
  UserInfo : UserInfo
deriving DecidableEq

end v1

namespace biz

/-- The struct `biz.User`. -/
structure User where
  UserID : String
  Username : String
  Email : String
  Roles : List String
  Attributes : Go.Map String
  CreatedAt : Int
  LastLoginAt : Int
deriving DecidableEq

/-- The struct `biz.AuthToken`. -/
structure AuthToken where
  AccessToken : String
  RefreshToken : String
  TokenType : String
  ExpiresIn : Int
  Scope : String
deriving DecidableEq

/-- The interface `biz.AuthRepo`: each method is the outcome the collaborator gives for its
arguments; a nil `*User` or `*AuthToken` is `none`. -/
structure AuthRepo where
  ValidateCredentials : String → String → Option User × Option Go.Error
  GenerateAccessToken : Option User → Option AuthToken × Option Go.Error
  ValidateAccessToken : String → Option User × Option Go.Error
  RefreshAccessToken : String → Option AuthToken × Option Go.Error
  RevokeToken : String → Option Go.Error
  UpdateLastLogin : String → Option Go.Error

/-- The error `errors.New(400, ERROR_CODE_BAD_GATEWAY, "")` that `Login` builds. -/
def errLogin : Go.Error := "error: code = 400 reason = ERROR_CODE_BAD_GATEWAY message = "

/-- The method `AuthUsecase.Login`: its second statement is an unconditional
`return nil, errors.New(400, ...)`, so nothing after it runs. -/
def Login (_repo : AuthRepo) (_req : v1.LoginRequest) :
    Option v1.LoginResponse × Option Go.Error :=
  (none, some errLogin)

/-- The statements of `Login` after its unconditional return (validate, issue the token,
update the last login, build the response): what `Login` would do were the return not
there. The result is `none` when a nil user or token is dereferenced. -/
def loginBody (repo : AuthRepo) (req : v1.LoginRequest) :
    Option (Option v1.LoginResponse × Option Go.Error) :=
  match repo.ValidateCredentials req.Username req.Password with
  | (_, some err) => some (none, some err)
  | (user, none) =>
    match repo.GenerateAccessToken user with
    | (_, some err) => some (none, some err)
    | (token, none) =>
      match user, token with
      | some user, some token =>
        let _updated := repo.UpdateLastLogin user.UserID
        some (some { AccessToken := token.AccessToken, RefreshToken := token.RefreshToken,
                     TokenType := token.TokenType, ExpiresIn := token.ExpiresIn,
                     Scope := token.Scope,
                     UserInfo := { UserId := user.UserID, Username := user.Username,
                                   Email := user.Email, Roles := user.Roles,
                                   Attributes := user.Attributes } }, none)
      | _, _ => none

end biz

/-! ## Specification-side definitions for the pipeline stages -/

namespace Spec

open biz

/-- Reranking is requested: the parameters are present and the flag is set. -/
def rerankEnabled (req : v1.QueryRequest) : Bool :=
  match req.Parameters with
  | some p => p.EnableReranking
  | none => false

/-- Answer assembly is requested: the parameters are present and the flag is set. -/
def assemblyEnabled (req : v1.QueryRequest) : Bool :=
  match req.Parameters with
  | some p => p.EnableContextAssembly
  | none => false

/-- Stage 3 in the specification's words: when reranking is requested the reranker is called
and its output used, unless it fails, in which case the pre-rerank list is kept; when
reranking is not requested the retrieved list is used as is. -/
def rerankStage (repo : QueryRepo) (req : v1.QueryRequest) (retrieved : List RelatedDocument) :
    List RelatedDocument :=
  if rerankEnabled req then
    if (repo.RerankDocuments req.Query retrieved).2 = none then
      (repo.RerankDocuments req.Query retrieved).1
    else retrieved
  else retrieved

/-- Stage 4 in the specification's words: the fixed fallback when assembly is not requested,
the generated answer when the assembler succeeds, the fixed apology when it fails. -/
def answerStage (repo : QueryRepo) (req : v1.QueryRequest) (docs : List RelatedDocument) :
    String :=
  if assemblyEnabled req then
    if (repo.AssembleAnswer req.Query docs).2 = none then
      (repo.AssembleAnswer req.Query docs).1
    else "抱歉，无法生成答案，请查看相关文档。"
  else "请查看相关文档获取信息。"

end Spec

/-! ## Collaborators used to exercise reranking and login -/

namespace biz

/-- A collaborator whose retrieval returns `docs`, whose reranker reverses the list, whose
assembler answers with the query, and whose suggestion and history calls fail. -/
def reversingRepo (docs : List RelatedDocument) : QueryRepo :=
  { RetrieveDocuments := fun _ _ => (docs, none),
    RerankDocuments := fun _ ds => (ds.reverse, none),
    AssembleAnswer := fun q _ => (q, none),
    SaveQueryHistory := fun _ _ _ _ => some "history unavailable",
    GetQuerySuggestions := fun _ => ([], some "suggestions unavailable") }

/-- The user the credential store holds under the name `admin`. -/
def adminUser : User :=
  { UserID := "user-1", Username := "admin", Email := "", Roles := ["admin", "user"],
    Attributes := [("department", "IT"), ("level", "senior")], CreatedAt := 0,
    LastLoginAt := 0 }

/-- A token pair as `GenerateAccessToken` shapes it. -/
def adminToken : AuthToken :=
  { AccessToken := "access", RefreshToken := "refresh", TokenType := "Bearer",
    ExpiresIn := 3600, Scope := "read write" }

/-- A collaborator that accepts `admin`, issues `adminToken`, and fails to record the
login time. -/
def acceptingAuthRepo : AuthRepo :=
  { ValidateCredentials := fun username _ =>
      if username = "admin" then (some adminUser, none) else (none, some "user not found"),
    GenerateAccessToken := fun _ => (some adminToken, none),
    ValidateAccessToken := fun _ => (none, some "invalid token"),
    RefreshAccessToken := fun _ => (none, some "invalid refresh token"),
    RevokeToken := fun _ => none,
    UpdateLastLogin := fun _ => some "store unavailable" }

end biz

/-! ## Order of `float32` values and fixtures for reranking -/

namespace Go

/-- The test `x != x`: the value is not-a-number. -/
def Float32.isNaN : Float32 → Bool
  | .nan => true
  | _ => false

/-- The place of a value that is not NaN on the extended rational line (NaN is sent to the
bottom, where it is never looked at). -/
def Float32.key : Float32 → WithBot (WithTop ℚ)
  | .nan => ⊥
  | .inf true => ⊥
  | .inf false => ((⊤ : WithTop ℚ) : WithBot (WithTop ℚ))
  | .fin m e => ((((m : ℚ) * (2 : ℚ) ^ e : ℚ) : WithTop ℚ) : WithBot (WithTop ℚ))

/-- Arithmetic on the finite values without rounding to 24 bits; it stands in for the
machine arithmetic where a result does not depend on the rounding. -/
def unroundedArith : Float32Arith :=
  { mul := fun a b =>
      match a, b with
      | .fin m e, .fin n f => .fin (m * n) (e + f)
      | .nan, _ => .nan
      | _, .nan => .nan
      | .inf s, .inf t => .inf (s != t)
      | .inf s, .fin n _ => if n = 0 then .nan else .inf (s != decide (n < 0))
      | .fin m _, .inf t => if m = 0 then .nan else .inf (t != decide (m < 0)),
    sub := fun a b =>
      match a, b with
      | .fin m e, .fin n f =>
        .fin (m * 2 ^ (e - min e f).toNat - n * 2 ^ (f - min e f).toNat) (min e f)
      | .nan, _ => .nan
      | _, .nan => .nan
      | .inf s, .inf t => if s = t then .nan else .inf s
      | .inf s, .fin _ _ => .inf s
      | .fin _ _, .inf t => .inf (!t),
    ofInt := fun i => .fin i 0 }

end Go

namespace data

open biz

/-- A heap holding at address `p` the document `doc-p` with the `p`-th score of the list
(score 0 beyond the list). -/
def heapOfScores (scores : List Go.Float32) : Go.Ptr → RelatedDocument :=
  fun p =>
    { DocumentID := "doc-" ++ toString p, Title := "", Snippet := "",
      RelevanceScore := scores.getD p Go.Float32.zero, DocumentType := "pdf", Chunks := [] }

end data

/-! ## Rounded `float32` arithmetic -/

namespace Go

/-- Number of binary digits of `a`, counted with `fuel` halvings. -/
def bitLength : Nat → Nat → Nat
  | 0, _ => 0
  | fuel + 1, a => if a = 0 then 0 else bitLength fuel (a / 2) + 1

/-- The magnitude `a * 2 ^ e` rounded to a multiple of `2 ^ q`, ties to the even multiple;
the result is the multiplier. -/
def roundMantissa (a : Nat) (e q : Int) : Nat :=
  if q ≤ e then a * 2 ^ (e - q).toNat
  else
    let s := (q - e).toNat
    let kept := a / 2 ^ s
    let dropped := a % 2 ^ s
    if dropped > 2 ^ (s - 1) ∨ (dropped = 2 ^ (s - 1) ∧ kept % 2 = 1) then kept + 1 else kept

/-- The `float32` nearest to `m * 2 ^ e` (round to nearest, ties to even): 24 significant
bits, exponent of the last bit between -149 and 104, infinity beyond. The sign of a zero
result is not kept. -/
def Float32.round (m e : Int) : Float32 :=
  if m = 0 then .fin 0 0
  else
    let a := m.natAbs
    let q : Int := max ((bitLength a a : Int) - 24 + e) (-149)
    let rounded := roundMantissa a e q
    let mant := if rounded ≥ 2 ^ 24 then rounded / 2 else rounded
    let last : Int := if rounded ≥ 2 ^ 24 then q + 1 else q
    if last > 104 then .inf (decide (m < 0))
    else .fin (if m < 0 then -(mant : Int) else (mant : Int)) last

/-- The `float32` operations of the machine, each rounded on its own. -/
def ieeeArith : Float32Arith :=
  { mul := fun a b =>
      match a, b with
      | .fin m e, .fin n f => Float32.round (m * n) (e + f)
      | .nan, _ => .nan
      | _, .nan => .nan
      | .inf s, .inf t => .inf (s != t)
      | .inf s, .fin n _ => if n = 0 then .nan else .inf (s != decide (n < 0))
      | .fin m _, .inf t => if m = 0 then .nan else .inf (t != decide (m < 0)),
    sub := fun a b =>
      match a, b with
      | .fin m e, .fin n f =>
        Float32.round (m * 2 ^ (e - min e f).toNat - n * 2 ^ (f - min e f).toNat) (min e f)
      | .nan, _ => .nan
      | _, .nan => .nan
      | .inf s, .inf t => if s = t then .nan else .inf s
      | .inf s, .fin _ _ => .inf s
      | .fin _ _, .inf t => .inf (!t),
    ofInt := fun i => Float32.round i 0 }

end Go

/-! ## Business layer: upload, get and delete (`biz/document.go`) -/

namespace v1

/-- The message `DocumentProcessingOptions`; the gateway passes it on without reading it. -/
structure DocumentProcessingOptions where
  raw : String
deriving DecidableEq

/-- The message `UploadDocumentRequest`; `FileContent` is a byte slice. -/
structure UploadDocumentRequest where
  Title : String
  FileType : String
  FileContent : List Nat
  Metadata : Option commonv1.Metadata
  ProcessingOptions : Option DocumentProcessingOptions
deriving DecidableEq

/-- The message `DocumentProcessingProgress`, as far as `UploadDocument` fills it. -/
structure DocumentProcessingProgress where
  ProgressPercentage : Go.Float32
  CurrentStage : String
  StatusMessage : String
deriving DecidableEq

/-- The message `UploadDocumentResponse`. -/
structure UploadDocumentResponse where
  DocumentId : String
  UploadStatus : String
  Progress : Option DocumentProcessingProgress
  DocumentInfo : Option commonv1.DocumentInfo
deriving DecidableEq

/-- The message `GetDocumentRequest`. -/
structure GetDocumentRequest where
  DocumentId : String
  IncludeFields : List String
deriving DecidableEq

/-- The message `DocumentStats`. -/
structure DocumentStats where
  TotalChunks : Int
  TotalTokens : Int
  AverageChunkSize : Int
  QueryCount : Int
deriving DecidableEq

/-- The message `GetDocumentResponse`. -/
structure GetDocumentResponse where
  DocumentInfo : commonv1.DocumentInfo
  Content : String
  Stats : DocumentStats
deriving DecidableEq

/-- The message `DeleteOptions`. -/
structure DeleteOptions where
  DeleteRelatedChunks : Bool
  DeleteEmbeddings : Bool
deriving DecidableEq

/-- The message `DeleteDocumentRequest`. -/
structure DeleteDocumentRequest where
  DocumentId : String
  Options : Option DeleteOptions
deriving DecidableEq

/-- The message `CleanupInfo`; its one field is left nil. -/
structure CleanupInfo where
  DeletionCompletedAt : Option Int
deriving DecidableEq

/-- The message `DeleteDocumentResponse`. -/
structure DeleteDocumentResponse where
  Status : String
  CleanupInfo : Option CleanupInfo
deriving DecidableEq

end v1

namespace biz

/-- The struct `biz.DocumentProcessingProgress`. -/
structure DocumentProcessingProgress where
  ProgressPercentage : Go.Float32
  CurrentStage : String
  StatusMessage : String
  StartedAt : Int
  EstimatedCompletion : Int
deriving DecidableEq

/-- The struct `biz.DocumentStats`. -/
structure DocumentStats where
  TotalChunks : Int
  TotalTokens : Int
  AverageChunkSize : Int
  QueryCount : Int
  LastAccessed : Int
deriving DecidableEq

/-- The methods of the interface `biz.DocumentRepo` that upload, get and delete call: each
is the outcome the collaborator gives for its arguments; a nil pointer result is `none`. -/
structure DocumentRepo where
  SaveDocument : Document → Option Go.Error
  GetDocument : String → List String → Option Document × Option Go.Error
  DeleteDocument : String → Option v1.DeleteOptions → Option Go.Error
  GetDocumentStats : String → Option DocumentStats × Option Go.Error
  CallPreprocessorService :
    List Nat → Option v1.DocumentProcessingOptions →
      Option DocumentProcessingProgress × Option Go.Error

/-- The `DocumentInfo` that `UploadDocument` builds in both of its responses. -/
def uploadInfo (documentID : String) (req : v1.UploadDocumentRequest) : commonv1.DocumentInfo :=
  { DocumentId := documentID, Title := req.Title, FileType := req.FileType,
    FileSize := Go.toInt64 req.FileContent.length, TotalChunks := 0,
    Metadata := req.Metadata }

/-- The `Document` record that `UploadDocument` builds and saves. -/
def uploadRecord (documentID : String) (createdAt updatedAt : Int)
    (req : v1.UploadDocumentRequest) : Document :=
  { DocumentID := documentID, Title := req.Title, FileType := req.FileType,
    FileSize := Go.toInt64 req.FileContent.length, TotalChunks := 0, Content := "",
    Metadata := req.Metadata, CreatedAt := createdAt, UpdatedAt := updatedAt }

/-- The method `DocumentUsecase.UploadDocument`. `documentID` is the value of
`generateDocumentID()`, `createdAt` and `updatedAt` the two clock readings. The result is
`none` when a nil progress is dereferenced. -/
def UploadDocument (repo : DocumentRepo) (documentID : String) (createdAt updatedAt : Int)
    (req : v1.UploadDocumentRequest) :
    Option (Option v1.UploadDocumentResponse × Option Go.Error) :=
  let doc := uploadRecord documentID createdAt updatedAt req
  match repo.SaveDocument doc with
  | some err => some (none, some err)
  | none =>
    match repo.CallPreprocessorService req.FileContent req.ProcessingOptions with
    | (_, some err) =>
      some (some { DocumentId := documentID, UploadStatus := "failed", Progress := none,
                   DocumentInfo := some (uploadInfo documentID req) }, some err)
    | (none, none) => none
    | (some progress, none) =>
      some (some { DocumentId := documentID, UploadStatus := "processing",
                   Progress := some { ProgressPercentage := progress.ProgressPercentage,
                                      CurrentStage := progress.CurrentStage,
                                      StatusMessage := progress.StatusMessage },
                   DocumentInfo := some (uploadInfo documentID req) }, none)

/-- The method `DocumentUsecase.GetDocument`. The result is `none` when a nil document or
nil statistics are dereferenced. -/
def GetDocument (repo : DocumentRepo) (req : v1.GetDocumentRequest) :
    Option (Option v1.GetDocumentResponse × Option Go.Error) :=
  match repo.GetDocument req.DocumentId req.IncludeFields with
  | (_, some err) => some (none, some err)
  | (doc, none) =>
    let stats : Option DocumentStats :=
      match repo.GetDocumentStats req.DocumentId with
      | (_, some _) =>
        some { TotalChunks := 0, TotalTokens := 0, AverageChunkSize := 0, QueryCount := 0,
               LastAccessed := 0 }
      | (stats, none) => stats
    match doc, stats with
    | some doc, some stats =>
      some (some { DocumentInfo := { DocumentId := doc.DocumentID, Title := doc.Title,
                                     FileType := doc.FileType, FileSize := doc.FileSize,
                                     TotalChunks := doc.TotalChunks, Metadata := doc.Metadata },
                   Content := doc.Content,
                   Stats := { TotalChunks := stats.TotalChunks, TotalTokens := stats.TotalTokens,
                              AverageChunkSize := stats.AverageChunkSize,
                              QueryCount := stats.QueryCount } }, none)
    | _, _ => none

/-- The method `DocumentUsecase.DeleteDocument`. -/
def DeleteDocument (repo : DocumentRepo) (req : v1.DeleteDocumentRequest) :
    Option v1.DeleteDocumentResponse × Option Go.Error :=
  match repo.DeleteDocument req.DocumentId req.Options with
  | some err => (some { Status := "failed", CleanupInfo := none }, some err)
  | none =>
    (some { Status := "deleted", CleanupInfo := some { DeletionCompletedAt := none } }, none)

/-- A document store in which saving, deleting and the statistics fail with `err`, while
lookup returns `doc` and preprocessing reports `progress`. -/
def failingStore (err : Go.Error) (doc : Document) (progress : DocumentProcessingProgress) :
    DocumentRepo :=
  { SaveDocument := fun _ => some err,
    GetDocument := fun _ _ => (some doc, none),
    DeleteDocument := fun _ _ => some err,
    GetDocumentStats := fun _ => (none, some err),
    CallPreprocessorService := fun _ _ => (some progress, none) }

/-- A document store in which every call succeeds except preprocessing, which succeeds only
when `preprocessError` is `none`. -/
def workingStore (doc : Document) (stats : DocumentStats)
    (progress : DocumentProcessingProgress) (preprocessError : Option Go.Error) :
    DocumentRepo :=
  { SaveDocument := fun _ => none,
    GetDocument := fun _ _ => (some doc, none),
    DeleteDocument := fun _ _ => none,
    GetDocumentStats := fun _ => (some stats, none),
    CallPreprocessorService := fun _ _ =>
      match preprocessError with
      | some e => (none, some e)
      | none => (some progress, none) }

/-- The progress snapshot the source's preprocessor stub reports. -/
def parsingProgress : DocumentProcessingProgress :=
  { ProgressPercentage := .fin 25 0, CurrentStage := "parsing",
    StatusMessage := "文档解析中...", StartedAt := 0, EstimatedCompletion := 300 }

/-- An upload request with an empty title. -/
def untitledUpload : v1.UploadDocumentRequest :=
  { Title := "", FileType := "txt", FileContent := [104, 105], Metadata := none,
    ProcessingOptions := none }

end biz

/-! ## Identifier generation (`biz/document.go`, `biz/query.go`) -/

namespace Go

/-- The calendar fields of a `time.Time` reading, in the zone it is formatted in. -/
structure CivilTime where
  Year : Int
  Month : Nat
  Day : Nat
  Hour : Nat
  Minute : Nat
  Second : Nat
deriving DecidableEq

/-- The fields are those of a date and time of day. -/
def CivilTime.valid (t : CivilTime) : Prop :=
  1 ≤ t.Month ∧ t.Month ≤ 12 ∧ 1 ≤ t.Day ∧ t.Day ≤ 31 ∧ t.Hour < 24 ∧ t.Minute < 60 ∧
    t.Second < 60

instance (t : CivilTime) : Decidable t.valid := by
  unfold CivilTime.valid; infer_instance

/-- The decimal digit `d` as a character. -/
def digitChar (d : Nat) : Char := Char.ofNat (48 + d)

/-- The last `width` decimal digits of `n`, most significant first. -/
def fixedDigits : Nat → Nat → List Char
  | 0, _ => []
  | width + 1, n => fixedDigits width (n / 10) ++ [digitChar (n % 10)]

/-- A non-negative number printed in decimal with at least `width` digits, zero-padded, as
the layouts `01`, `02`, `15`, `04`, `05` and `2006` of `time.Format` print their field. -/
def zeroPad (width n : Nat) : List Char :=
  if n < 10 ^ width then fixedDigits width n else (Nat.repr n).data

/-- The value of `t.Format("20060102150405")`; a negative year is printed with its sign. -/
def format20060102150405 (t : CivilTime) : String :=
  ⟨(if t.Year < 0 then '-' :: zeroPad 4 t.Year.natAbs else zeroPad 4 t.Year.toNat) ++
    zeroPad 2 t.Month ++ zeroPad 2 t.Day ++ zeroPad 2 t.Hour ++ zeroPad 2 t.Minute ++
    zeroPad 2 t.Second⟩

end Go

namespace biz

/-- The constant `charset` of `randomString`. -/
def charset : String := "abcdefghijklmnopqrstuvwxyzABCDEFGHIJKLMNOPQRSTUVWXYZ0123456789"

/-- The loop of `randomString`, `b[i] = charset[time.Now().UnixNano() % int64(len(charset))]`,
with `remaining` bytes left to fill from index `i`; `nanos i` is the clock reading of
iteration `i`. The result is `none` when the index expression panics. -/
def randomStringLoop (nanos : Nat → Int) : Nat → Nat → Option (List Char)
  | 0, _ => some []
  | remaining + 1, i =>
    let idx := Int.tmod (nanos i) (Go.toInt64 charset.length)
    match (if 0 ≤ idx then charset.data[idx.toNat]? else none) with
    | none => none
    | some c =>
      match randomStringLoop nanos remaining (i + 1) with
      | none => none
      | some rest => some (c :: rest)

/-- The function `randomString`. -/
def randomString (nanos : Nat → Int) (length : Nat) : Option String :=
  match randomStringLoop nanos length 0 with
  | none => none
  | some b => some ⟨b⟩

/-- The function `generateDocumentID`; `now` is the clock reading that is formatted. -/
def generateDocumentID (now : Go.CivilTime) (nanos : Nat → Int) : Option String :=
  match randomString nanos 8 with
  | none => none
  | some suffix => some ("doc-" ++ Go.format20060102150405 now ++ "-" ++ suffix)

/-- The function `generateQueryID`. -/
def generateQueryID (now : Go.CivilTime) (nanos : Nat → Int) : Option String :=
  match randomString nanos 8 with
  | none => none
  | some suffix => some (Go.format20060102150405 now ++ "-" ++ suffix)

end biz

/-! ## Data layer: answer assembly, suggestions and the query repository (`data/query.go`) -/

namespace data

open biz

/-- The loop of `AssembleAnswer` over the documents from index `i` on; it breaks at
`i >= 3`. `fmt.Sprintf("%d. %s：%s\n\n", i+1, doc.Title, doc.Snippet)` is appended to the
answer. -/
def assembleLoop : Nat → List RelatedDocument → String → String
  | _, [], answer => answer
  | i, doc :: rest, answer =>
    if i ≥ 3 then answer
    else
      assembleLoop (i + 1) rest
        (answer ++ (toString (i + 1) ++ ". " ++ doc.Title ++ "：" ++ doc.Snippet ++ "\n\n"))

/-- The method `queryRepo.AssembleAnswer`. -/
def AssembleAnswer (query : String) (documents : List RelatedDocument) :
    String × Option Go.Error :=
  if documents.length = 0 then ("抱歉，没有找到相关的文档信息。", none)
  else
    let answer := "根据相关文档，关于「" ++ query ++ "」的信息如下：\n\n"
    let answer := assembleLoop 0 documents answer
    (answer ++ "以上信息来自相关文档，如需更详细信息，请查看具体文档。", none)

/-- The method `queryRepo.SaveQueryHistory`. -/
def SaveQueryHistory (_userID _query _answer : String) (_metadata : QueryMetadata) :
    Option Go.Error :=
  none

/-- The method `queryRepo.GetQuerySuggestions`. -/
def GetQuerySuggestions (query : String) : List String × Option Go.Error :=
  ([query ++ " 详细介绍", query ++ " 应用场景", query ++ " 最佳实践", "如何学习 " ++ query,
    query ++ " 相关工具"], none)

/-- `RerankDocuments` as the pipeline sees it: the documents of the slice sit at the distinct
addresses `0, ..., n-1` (each element returned by `RetrieveDocuments` is an allocation of
its own), and the result is read back through the returned pointers. -/
def rerankValues (arith : Go.Float32Arith) (query : String) (documents : List RelatedDocument) :
    List RelatedDocument × Option Go.Error :=
  let heap : Go.Ptr → RelatedDocument :=
    fun p => documents.getD p
      { DocumentID := "", Title := "", Snippet := "", RelevanceScore := Go.Float32.zero,
        DocumentType := "", Chunks := [] }
  let out := RerankDocuments arith heap query (List.range documents.length)
  (out.1.map out.2.1, out.2.2)

/-- The repository `queryRepo` behind the interface `biz.QueryRepo`, over the list
`retrieved` that the retrieval yields. -/
def queryRepo (arith : Go.Float32Arith) (retrieved : List RelatedDocument) : QueryRepo :=
  { RetrieveDocuments := fun query params => RetrieveDocuments retrieved query params,
    RerankDocuments := rerankValues arith,
    AssembleAnswer := AssembleAnswer,
    SaveQueryHistory := SaveQueryHistory,
    GetQuerySuggestions := GetQuerySuggestions }

/-- The query `machine learning` with reranking enabled and assembly disabled. -/
def rerankOnlyRequest : v1.QueryRequest :=
  { Query := "machine learning", UserId := "u-1",
    Parameters := some { MaxResults := 0, SimilarityThreshold := Go.Float32.zero,
                         DocumentTypes := [], DocumentIds := [],
                         EnableReranking := true, EnableContextAssembly := false } }

/-- A query whose id allow-list matches no document, with reranking and assembly enabled. -/
def noMatchRequest : v1.QueryRequest :=
  { Query := "quantum gravity", UserId := "u-1",
    Parameters := some { MaxResults := 0, SimilarityThreshold := Go.Float32.zero,
                         DocumentTypes := [], DocumentIds := ["doc-9"],
                         EnableReranking := true, EnableContextAssembly := true } }

end data

/-! ## The token library (`github.com/golang-jwt/jwt/v4`), in the symbolic model

The library is not part of the repository. A signed token is the triple that its compact
serialization carries: the `alg` of the header, the claims, and the signature. A signature
is the message authentication code of a header and claims under a key, and two signatures
are equal only when method, key, header and claims are. The serialization itself is given
by the `Library`, with the law that decoding inverts encoding. -/

namespace jwt

/-- A JSON value that is not a list or object: a string, a number or `null`. -/
inductive Atom where
  | str (s : String)
  | num (n : Int)
  | null
deriving DecidableEq

/-- A claim value after JSON decoding: an atom or a list of atoms. -/
inductive Value where
  | atom (a : Atom)
  | list (xs : List Atom)
deriving DecidableEq

/-- The type `jwt.MapClaims`. -/
abbrev MapClaims := Go.Map Value

/-- The authentication code computed with `method` under `key` over the header `alg` and
the claims. -/
structure Signature where
  method : String
  key : String
  alg : String
  claims : MapClaims
deriving DecidableEq

/-- What a compact token string carries. -/
structure Compact where
  alg : String
  claims : MapClaims
  sig : Signature
deriving DecidableEq

/-- The serialization of the library and the one behaviour that differs between its v4
releases: whether a token is still accepted at the very second of its expiry. -/
structure Library where
  encode : Compact → String
  decode : String → Option Compact
  decode_encode : ∀ t, decode (encode t) = some t
  acceptAtExpiry : Bool

/-- The struct `jwt.Token`, as far as the gateway reads it. -/
structure Token where
  Method : String
  Claims : MapClaims
  Valid : Bool
deriving DecidableEq

/-- The names of the HMAC signing methods, the values of type `*jwt.SigningMethodHMAC`. -/
def hmacMethods : List String := ["HS256", "HS384", "HS512"]

/-- The names of all signing methods the library registers. -/
def registeredMethods : List String :=
  hmacMethods ++ ["RS256", "RS384", "RS512", "PS256", "PS384", "PS512", "ES256", "ES384",
    "ES512", "EdDSA", "none"]

/-- The call `jwt.NewWithClaims(method, claims).SignedString(key)` with a byte-slice key,
for which HMAC signing does not fail. -/
def SignedString (lib : Library) (method : String) (claims : MapClaims) (key : String) :
    String × Option Go.Error :=
  (lib.encode { alg := method, claims := claims,
                sig := { method := method, key := key, alg := method, claims := claims } },
   none)

/-- The check `VerifyExpiresAt(now, false)` of `MapClaims.Valid`: an absent or zero `exp`
passes, a non-numeric one fails. -/
def verifyExp (lib : Library) (claims : MapClaims) (now : Int) : Bool :=
  match Go.Map.get? claims "exp" with
  | none => true
  | some (.atom (.num exp)) =>
    if exp = 0 then true
    else decide (now < exp) || (lib.acceptAtExpiry && decide (now = exp))
  | some _ => false

/-- The check `VerifyIssuedAt(now, false)` of `MapClaims.Valid`. -/
def verifyIat (claims : MapClaims) (now : Int) : Bool :=
  match Go.Map.get? claims "iat" with
  | none => true
  | some (.atom (.num iat)) => if iat = 0 then true else decide (iat ≤ now)
  | some _ => false

/-- The check `VerifyNotBefore(now, false)` of `MapClaims.Valid`. -/
def verifyNbf (claims : MapClaims) (now : Int) : Bool :=
  match Go.Map.get? claims "nbf" with
  | none => true
  | some (.atom (.num nbf)) => if nbf = 0 then true else decide (nbf ≤ now)
  | some _ => false

/-- The function `jwt.Parse` at the clock reading `now` (Unix seconds). The library returns a
token that may be used exactly when the error is nil; the result is that token or the
error. -/
def Parse (lib : Library) (now : Int) (tokenString : String)
    (keyFunc : Token → String × Option Go.Error) : Except Go.Error Token :=
  match lib.decode tokenString with
  | none => .error "token is malformed"
  | some t =>
    if t.alg ∉ registeredMethods then .error "signing method (alg) is unavailable"
    else
      match keyFunc { Method := t.alg, Claims := t.claims, Valid := false } with
      | (_, some err) => .error err
      | (key, none) =>
        if !verifyExp lib t.claims now then .error "token is expired"
        else if !verifyIat t.claims now then .error "token used before issued"
        else if !verifyNbf t.claims now then .error "token is not valid yet"
        else if t.alg ∉ hmacMethods then .error "key is of invalid type"
        else if t.sig ≠ { method := t.alg, key := key, alg := t.alg, claims := t.claims } then
          .error "signature is invalid"
        else .ok { Method := t.alg, Claims := t.claims, Valid := true }

/-- The type assertion `v.(string)` on a looked-up claim. -/
def asString : Option Value → Option String
  | some (.atom (.str s)) => some s
  | _ => none

end jwt

/-! ## Data layer: tokens (`data/auth.go`) -/

namespace data

open biz

/-- The signing key `jwtSecret`. -/
def jwtSecret : String := "your-secret-key"

/-- The key function passed to `jwt.Parse`: the secret for an HMAC method, an error for any
other. -/
def keyFunc (token : jwt.Token) : String × Option Go.Error :=
  if token.Method ∈ jwt.hmacMethods then (jwtSecret, none)
  else ("", some ("unexpected signing method: " ++ token.Method))

/-- The method `authRepo.GenerateAccessToken`. `clock k` is the Unix time of the `k`-th
reading of `time.Now()` in the call. -/
def GenerateAccessToken (lib : jwt.Library) (clock : Nat → Int) (user : User) :
    Option AuthToken × Option Go.Error :=
  let accessTokenClaims : jwt.MapClaims :=
    [("user_id", .atom (.str user.UserID)),
     ("username", .atom (.str user.Username)),
     ("roles", .list (user.Roles.map jwt.Atom.str)),
     ("exp", .atom (.num (clock 0 + 3600))),
     ("iat", .atom (.num (clock 1)))]
  match jwt.SignedString lib "HS256" accessTokenClaims jwtSecret with
  | (_, some err) => (none, some ("failed to generate access token: " ++ err))
  | (accessTokenString, none) =>
    let refreshTokenClaims : jwt.MapClaims :=
      [("user_id", .atom (.str user.UserID)),
       ("exp", .atom (.num (clock 2 + 604800))),
       ("iat", .atom (.num (clock 3)))]
    match jwt.SignedString lib "HS256" refreshTokenClaims jwtSecret with
    | (_, some err) => (none, some ("failed to generate refresh token: " ++ err))
    | (refreshTokenString, none) =>
      (some { AccessToken := accessTokenString, RefreshToken := refreshTokenString,
              TokenType := "Bearer", ExpiresIn := 3600, Scope := "read write" }, none)

/-- The loop of `ValidateAccessToken` over the elements of the roles claim: the strings are
appended, the other elements skipped. -/
def rolesLoop : List jwt.Atom → List String → List String
  | [], roles => roles
  | .str roleStr :: rest, roles => rolesLoop rest (roles ++ [roleStr])
  | _ :: rest, roles => rolesLoop rest roles

/-- The method `authRepo.ValidateAccessToken` at the clock reading `now`. The claims that
`jwt.Parse` returns are always `MapClaims`, so the branch `invalid token claims` is never
taken and is left out. -/
def ValidateAccessToken (lib : jwt.Library) (now : Int) (tokenString : String) :
    Option User × Option Go.Error :=
  match jwt.Parse lib now tokenString keyFunc with
  | .error err => (none, some ("failed to parse token: " ++ err))
  | .ok token =>
    if !token.Valid then (none, some "invalid token")
    else
      match jwt.asString (Go.Map.get? token.Claims "user_id") with
      | none => (none, some "invalid user_id in token")
      | some userID =>
        match jwt.asString (Go.Map.get? token.Claims "username") with
        | none => (none, some "invalid username in token")
        | some username =>
          match Go.Map.get? token.Claims "roles" with
          | none => (none, some "invalid roles in token")
          | some rolesInterface =>
            let roles :=
              match rolesInterface with
              | .list roleSlice => rolesLoop roleSlice []
              | _ => []
            (some { UserID := userID, Username := username, Email := "", Roles := roles,
                    Attributes := [], CreatedAt := 0, LastLoginAt := 0 }, none)

end data

/-! ## A concrete serialization for the token library

A self-delimiting text format, used to run the token functions on concrete inputs; it is
one serialization that satisfies the law the `Library` asks for. -/

namespace jwt

/-- A serializer for `α`: an encoder and a decoder that reads one value off the front of the
input and returns the rest. -/
structure Ser (α : Type) where
  enc : α → List Char
  dec : List Char → Option (α × List Char)
  dec_enc : ∀ a rest, dec (enc a ++ rest) = some (a, rest)

/-- Encoder of a number in binary, least significant bit first, `i` for one and `o` for
zero, closed by a dot; `fuel` bounds the number of bits. -/
def encBits : Nat → Nat → List Char
  | 0, _ => ['.']
  | fuel + 1, n =>
    if n = 0 then ['.']
    else (if n % 2 = 1 then 'i' else 'o') :: encBits fuel (n / 2)

/-- Decoder of a number written in binary. -/
def decBits : List Char → Option (Nat × List Char)
  | [] => none
  | c :: rest =>
    if c = '.' then some (0, rest)
    else
      match decBits rest with
      | none => none
      | some (n, rest') =>
        if c = 'i' then some (2 * n + 1, rest')
        else if c = 'o' then some (2 * n, rest')
        else none

/-- Numbers in binary. -/
def Ser.nat : Ser Nat where
  enc n := encBits n n
  dec := decBits
  dec_enc := by
    have key : ∀ fuel n rest, n ≤ fuel → decBits (encBits fuel n ++ rest) = some (n, rest) := by
      intro fuel
      induction fuel with
      | zero =>
        intro n rest hn
        have h0 : n = 0 := by omega
        subst h0
        simp [encBits, decBits]
      | succ f ih =>
        intro n rest hn
        by_cases h0 : n = 0
        · subst h0
          simp [encBits, decBits]
        · have hhalf : n / 2 ≤ f := by omega
          have hi : ¬ ('i' = '.') := by decide
          have ho : ¬ ('o' = '.') := by decide
          have hoi : ¬ ('o' = 'i') := by decide
          by_cases hodd : n % 2 = 1
          · simp only [encBits, h0, if_false, hodd, if_true, List.cons_append, decBits, hi,
              ih (n / 2) rest hhalf, Option.some.injEq, Prod.mk.injEq, and_true]
            omega
          · simp only [encBits, h0, if_false, hodd, List.cons_append, decBits, ho,
              ih (n / 2) rest hhalf, hoi, if_true, Option.some.injEq, Prod.mk.injEq, and_true]
            omega
    intro n rest
    exact key n n rest (le_refl n)

/-- One character, as it is. -/
def Ser.char : Ser Char where
  enc c := [c]
  dec l :=
    match l with
    | [] => none
    | c :: rest => some (c, rest)
  dec_enc := by intro c rest; rfl

/-- A serializer carried along an embedding `f` with left inverse `g`. -/
def Ser.via {α β : Type} (s : Ser α) (f : β → α) (g : α → β) (h : ∀ b, g (f b) = b) :
    Ser β where
  enc b := s.enc (f b)
  dec l :=
    match s.dec l with
    | none => none
    | some (a, rest) => some (g a, rest)
  dec_enc := by
    intro b rest
    simp only [s.dec_enc, h]

/-- Two values one after the other. -/
def Ser.pair {α β : Type} (a : Ser α) (b : Ser β) : Ser (α × β) where
  enc p := a.enc p.1 ++ b.enc p.2
  dec l :=
    match a.dec l with
    | none => none
    | some (x, rest) =>
      match b.dec rest with
      | none => none
      | some (y, rest') => some ((x, y), rest')
  dec_enc := by
    intro p rest
    simp only [List.append_assoc, a.dec_enc, b.dec_enc]

/-- Encoder of the elements of a list, one after the other. -/
def encMany {α : Type} (s : Ser α) : List α → List Char
  | [] => []
  | x :: xs => s.enc x ++ encMany s xs

/-- Decoder of `n` elements, one after the other. -/
def decMany {α : Type} (s : Ser α) : Nat → List Char → Option (List α × List Char)
  | 0, l => some ([], l)
  | n + 1, l =>
    match s.dec l with
    | none => none
    | some (x, rest) =>
      match decMany s n rest with
      | none => none
      | some (xs, rest') => some (x :: xs, rest')

/-- A list: its length, then its elements. -/
def Ser.list {α : Type} (s : Ser α) : Ser (List α) where
  enc xs := Ser.nat.enc xs.length ++ encMany s xs
  dec l :=
    match Ser.nat.dec l with
    | none => none
    | some (n, rest) => decMany s n rest
  dec_enc := by
    intro xs rest
    simp only [List.append_assoc, Ser.nat.dec_enc]
    induction xs with
    | nil => rfl
    | cons x xs ih =>
      simp only [encMany, List.length_cons, decMany, List.append_assoc, s.dec_enc, ih]

/-- A string: the list of its characters. -/
def Ser.string : Ser String :=
  (Ser.list Ser.char).via String.data String.mk (fun _ => rfl)

/-- An integer: a sign flag and the magnitude. -/
def Ser.int : Ser Int :=
  (Ser.pair Ser.nat Ser.nat).via
    (fun z => (if z < 0 then 1 else 0, z.natAbs))
    (fun p => if p.1 = 1 then -(p.2 : Int) else (p.2 : Int))
    (by
      intro z
      by_cases hz : z < 0
      · simp only [hz, if_true]
        omega
      · simp only [hz, if_false]
        have h01 : ¬ ((0 : Nat) = 1) := by decide
        simp only [h01, if_false]
        omega)

/-- An atom: a tag, a string and a number, of which the tag selects what is read. -/
def Ser.atom : Ser Atom :=
  (Ser.pair Ser.nat (Ser.pair Ser.string Ser.int)).via
    (fun a =>
      match a with
      | .str s => (0, s, 0)
      | .num n => (1, "", n)
      | .null => (2, "", 0))
    (fun p => if p.1 = 0 then .str p.2.1 else if p.1 = 1 then .num p.2.2 else .null)
    (by intro a; cases a <;> simp)

/-- A claim value: a tag, an atom and a list of atoms. -/
def Ser.value : Ser Value :=
  (Ser.pair Ser.nat (Ser.pair Ser.atom (Ser.list Ser.atom))).via
    (fun v =>
      match v with
      | .atom a => (0, a, [])
      | .list xs => (1, .null, xs))
    (fun p => if p.1 = 0 then .atom p.2.1 else .list p.2.2)
    (by intro v; cases v <;> simp)

/-- The claims: the list of the bindings. -/
def Ser.claims : Ser MapClaims := Ser.list (Ser.pair Ser.string Ser.value)

/-- A signature: its four components. -/
def Ser.signature : Ser Signature :=
  (Ser.pair Ser.string (Ser.pair Ser.string (Ser.pair Ser.string Ser.claims))).via
    (fun s => (s.method, s.key, s.alg, s.claims))
    (fun p => { method := p.1, key := p.2.1, alg := p.2.2.1, claims := p.2.2.2 })
    (fun _ => rfl)

/-- A token: header, claims, signature. -/
def Ser.compact : Ser Compact :=
  (Ser.pair Ser.string (Ser.pair Ser.claims Ser.signature)).via
    (fun t => (t.alg, t.claims, t.sig))
    (fun p => { alg := p.1, claims := p.2.1, sig := p.2.2 })
    (fun _ => rfl)

/-- The library with the text serialization above. -/
def textLibrary (acceptAtExpiry : Bool) : Library where
  encode t := ⟨Ser.compact.enc t⟩
  decode s :=
    match Ser.compact.dec s.data with
    | none => none
    | some (t, _) => some t
  decode_encode := by
    intro t
    have h := Ser.compact.dec_enc t []
    simp only [List.append_nil] at h
    simp only [h]
  acceptAtExpiry := acceptAtExpiry

end jwt

namespace data

end data

/-! ## Data layer: token refresh (`data/auth.go`) and fixtures for the narrowing order -/

namespace data

open biz

/-- The method `authRepo.RefreshAccessToken`. `now` is the clock reading inside `jwt.Parse`,
`clock k` the Unix time of the `k`-th reading of `time.Now()` after it. The claims that
`jwt.Parse` returns are always `MapClaims`, so the branch `invalid token claims` is never
taken and is left out. -/
def RefreshAccessToken (lib : jwt.Library) (now : Int) (clock : Nat → Int)
    (refreshToken : String) : Option AuthToken × Option Go.Error :=
  match jwt.Parse lib now refreshToken keyFunc with
  | .error err => (none, some ("failed to parse refresh token: " ++ err))
  | .ok token =>
    if !token.Valid then (none, some "invalid refresh token")
    else
      match jwt.asString (Go.Map.get? token.Claims "user_id") with
      | none => (none, some "invalid user_id in token")
      | some userID =>
        let accessTokenClaims : jwt.MapClaims :=
          [("user_id", .atom (.str userID)),
           ("exp", .atom (.num (clock 0 + 3600))),
           ("iat", .atom (.num (clock 1)))]
        match jwt.SignedString lib "HS256" accessTokenClaims jwtSecret with
        | (_, some err) => (none, some ("failed to generate new access token: " ++ err))
        | (accessTokenString, none) =>
          let newRefreshTokenClaims : jwt.MapClaims :=
            [("user_id", .atom (.str userID)),
             ("exp", .atom (.num (clock 2 + 604800))),
             ("iat", .atom (.num (clock 3)))]
          match jwt.SignedString lib "HS256" newRefreshTokenClaims jwtSecret with
          | (_, some err) => (none, some ("failed to generate new refresh token: " ++ err))
          | (newRefreshTokenString, none) =>
            (some { AccessToken := accessTokenString, RefreshToken := newRefreshTokenString,
                    TokenType := "Bearer", ExpiresIn := 3600, Scope := "read write" }, none)

/-- Two retrieved documents with the `float32` scores of `0.5` and `0.9`, in that order. -/
def lowThenHigh : List RelatedDocument :=
  [ { DocumentID := "doc-low", Title := "", Snippet := "", RelevanceScore := .fin 1 (-1),
      DocumentType := "pdf", Chunks := [] },
    { DocumentID := "doc-high", Title := "", Snippet := "",
      RelevanceScore := .fin 15099494 (-24), DocumentType := "pdf", Chunks := [] } ]

/-- Parameters with `maxResults = 1` and the `float32` threshold of `0.8`. -/
def oneAboveThreshold : v1.QueryParameters :=
  { MaxResults := 1, SimilarityThreshold := .fin 13421773 (-24), DocumentTypes := [],
    DocumentIds := [], EnableReranking := false, EnableContextAssembly := false }

end data

namespace Spec

/-- The pages `1, 2, ..., n` of size `pageSize` of a list, in the specification's words:
page `i + 1` is the list after dropping `i * pageSize` elements, cut to `pageSize`. -/
def pageWindows {α : Type} (docs : List α) (pageSize n : Nat) : List (List α) :=
  (List.range n).map (fun i => (docs.drop (i * pageSize)).take pageSize)

end Spec

/-! ## Quantities used to reason about `float32` rounding and the decay of scores -/

namespace Go

/-- The integer `R` is the rational `t` rounded to the nearest integer, ties to even. -/
def NearestEven (t : ℚ) (R : Int) : Prop :=
  (R : ℚ) - 1 / 2 ≤ t ∧ t ≤ (R : ℚ) + 1 / 2 ∧
  (t = (R : ℚ) - 1 / 2 → Even R) ∧ (t = (R : ℚ) + 1 / 2 → Even R)

/-- The value is one a `float32` variable can hold: rounding it to `float32` leaves it
unchanged (infinities and NaN are such values). -/
def Float32.representable : Float32 → Bool
  | .fin m e =>
    match Float32.cmp (Float32.round m e) (.fin m e) with
    | some .eq => true
    | _ => false
  | _ => true

/-- The value is a number, neither an infinity nor NaN. -/
def Float32.isFinite : Float32 → Bool
  | .fin _ _ => true
  | _ => false

/-- The factor `1.0 - float32(i)*0.01` by which `RerankDocuments` rescales the score at
index `i`. -/
def decayFactor (arith : Float32Arith) (i : Nat) : Float32 :=
  arith.sub Float32.one (arith.mul (arith.ofInt (i : Int)) Float32.hundredth)

end Go

/-! ## Theorems -/

namespace Go

theorem appendIf_eq_append_filter {α : Type} (keep : α → Bool) (xs : List α) :
    ∀ acc : List α, appendIf keep acc xs = acc ++ xs.filter keep := by
  induction xs with
  | nil => intro acc; simp [appendIf]
  | cons x xs ih =>
    intro acc
    by_cases hx : keep x = true
    · simp [appendIf, hx, ih]
    · simp [appendIf, hx, ih]

theorem appendIf_nil_eq_filter {α : Type} (keep : α → Bool) (xs : List α) :
    appendIf keep [] xs = xs.filter keep := by
  simp [appendIf_eq_append_filter]

theorem toInt32_of_range (x : Int) (h0 : -2147483648 ≤ x) (h1 : x < 2147483648) :
    toInt32 x = x := by
  unfold toInt32; omega

theorem toInt64_of_range (x : Int) (h0 : -9223372036854775808 ≤ x)
    (h1 : x < 9223372036854775808) : toInt64 x = x := by
  unfold toInt64; omega

theorem toInt32_range (x : Int) : -2147483648 ≤ toInt32 x ∧ toInt32 x < 2147483648 := by
  unfold toInt32; omega

theorem getBool_markAll (ks : List String) (k : String) :
    ∀ m : Map Bool, Map.getBool (Map.markAll m ks) k = true ↔
      k ∈ ks ∨ Map.getBool m k = true := by
  induction ks with
  | nil => intro m; simp [Map.markAll]
  | cons a ks ih =>
    intro m
    rw [Map.markAll, ih]
    by_cases hk : k = a
    · subst hk; simp [Map.getBool, Map.set, Map.get?]
    · simp [Map.getBool, Map.set, Map.get?, hk]

theorem getBool_markAll_nil (ks : List String) (k : String) :
    Map.getBool (Map.markAll [] ks) k = decide (k ∈ ks) := by
  have h := getBool_markAll ks k []
  have h0 : Map.getBool ([] : Map Bool) k = false := rfl
  rw [h0] at h
  by_cases hk : k ∈ ks
  · simpa [hk] using h
  · simpa [hk] using h

end Go

namespace biz

/-- C1: `ProcessQuery` returns an error exactly when the retrieval collaborator returns one;
it then returns that same error and no response, and otherwise (whatever reranking, answer
assembly, suggestion generation and history saving do) a response and no error. -/
theorem ProcessQuery_fails_iff_retrieval_fails (repo : QueryRepo)
    (startTime processingTime : Int) (queryID : String) (req : v1.QueryRequest) :
    ((ProcessQuery repo startTime processingTime queryID req).2 ≠ none ↔
        (repo.RetrieveDocuments req.Query req.Parameters).2 ≠ none) ∧
    (∀ err, (repo.RetrieveDocuments req.Query req.Parameters).2 = some err →
        ProcessQuery repo startTime processingTime queryID req = (none, some err)) ∧
    ((repo.RetrieveDocuments req.Query req.Parameters).2 = none →
        ∃ resp, ProcessQuery repo startTime processingTime queryID req = (some resp, none)) := by
  rcases h : repo.RetrieveDocuments req.Query req.Parameters with ⟨docs, _ | e⟩
  · simp [ProcessQuery, h]
  · simp [ProcessQuery, h]

/-- Witness for C1: a failing retrieval is returned unchanged, and a succeeding retrieval
with every later collaborator failing still yields a response. -/
theorem ProcessQuery_fails_iff_retrieval_fails_witness :
    ProcessQuery (downRepo "retriever unavailable") 0 5 "q-1" fullRequest
        = (none, some "retriever unavailable") ∧
    ∃ resp, ProcessQuery (degradedRepo []) 0 5 "q-1" fullRequest = (some resp, none) :=
  ⟨(ProcessQuery_fails_iff_retrieval_fails (downRepo "retriever unavailable")
      0 5 "q-1" fullRequest).2.1 "retriever unavailable" rfl,
   (ProcessQuery_fails_iff_retrieval_fails (degradedRepo []) 0 5 "q-1" fullRequest).2.2 rfl⟩

end biz

namespace data

open biz commonv1

/-- C2: with parameters present, the narrowing of `RetrieveDocuments` is the sequential
composition truncate, then threshold, then type allow-list, then id allow-list, each step
working on the output of the previous one; with nil parameters the list is returned
unchanged. The list length is taken to fit `int32`, as `int32(len(documents))` needs. -/
theorem RetrieveDocuments_eq_sequential_narrowing (retrieved : List RelatedDocument)
    (query : String) (p : v1.QueryParameters) (hlen : (retrieved.length : Int) < 2147483648) :
    RetrieveDocuments retrieved query (some p) =
      (Spec.idStep p.DocumentIds
        (Spec.typeStep p.DocumentTypes
          (Spec.thresholdStep p.SimilarityThreshold
            (Spec.truncateStep p.MaxResults retrieved))), none) ∧
    RetrieveDocuments retrieved query none = (retrieved, none) := by
  refine ⟨?_, rfl⟩
  have h32 : Go.toInt32 (retrieved.length : Int) = retrieved.length :=
    Go.toInt32_of_range _ (by omega) hlen
  have hfun1 : (fun doc : RelatedDocument =>
      Go.Map.getBool (Go.Map.markAll [] p.DocumentTypes) doc.DocumentType)
      = (fun d => decide (d.DocumentType ∈ p.DocumentTypes)) := by
    funext d; exact Go.getBool_markAll_nil _ _
  have hfun2 : (fun doc : RelatedDocument =>
      Go.Map.getBool (Go.Map.markAll [] p.DocumentIds) doc.DocumentID)
      = (fun d => decide (d.DocumentID ∈ p.DocumentIds)) := by
    funext d; exact Go.getBool_markAll_nil _ _
  have hne : ∀ l : List String, (l.length > 0) = (l ≠ []) := by
    intro l; cases l <;> simp
  simp only [RetrieveDocuments, Spec.idStep, Spec.typeStep, Spec.thresholdStep,
    Spec.truncateStep, h32, Go.appendIf_nil_eq_filter, hfun1, hfun2, hne, gt_iff_lt]

/-- Witness for C2: the two mock documents narrowed with `maxResults = 1`, a positive
threshold and both allow-lists present. -/
theorem RetrieveDocuments_eq_sequential_narrowing_witness :
    ((mockRetrieved.length : Int) < 2147483648) ∧
    RetrieveDocuments mockRetrieved "machine learning"
        (some { MaxResults := 1, SimilarityThreshold := .fin 1 (-1), DocumentTypes := ["pdf"],
                DocumentIds := ["doc-1", "doc-2"], EnableReranking := false,
                EnableContextAssembly := false }) =
      (Spec.idStep ["doc-1", "doc-2"]
        (Spec.typeStep ["pdf"]
          (Spec.thresholdStep (.fin 1 (-1))
            (Spec.truncateStep 1 mockRetrieved))), none) :=
  ⟨by decide,
   (RetrieveDocuments_eq_sequential_narrowing mockRetrieved "machine learning"
      { MaxResults := 1, SimilarityThreshold := .fin 1 (-1), DocumentTypes := ["pdf"],
        DocumentIds := ["doc-1", "doc-2"], EnableReranking := false,
        EnableContextAssembly := false } (by decide)).1⟩

end data

namespace data

open biz commonv1

theorem passAllFilters_eq_all (doc : Document) (filters : List Filter) :
    passAllFilters doc filters = Spec.passesAll filters doc := by
  induction filters with
  | nil => rfl
  | cons f fs ih =>
    by_cases hf : applyFilter doc f = true
    · simp [passAllFilters, Spec.passesAll, hf, ih] at *
    · simp [passAllFilters, Spec.passesAll, hf]

theorem listFiltered_eq_filter (stored : List Document) (filters : List Filter) :
    listFiltered stored filters = stored.filter (Spec.passesAll filters) := by
  unfold listFiltered
  cases filters with
  | nil =>
    have hall : Spec.passesAll [] = fun _ => true := rfl
    simp [hall]
  | cons f fs =>
    have hfun : (fun doc => passAllFilters doc (f :: fs)) = Spec.passesAll (f :: fs) := by
      funext d; exact passAllFilters_eq_all d _
    simp [Go.appendIf_nil_eq_filter, hfun]

/-- C3: the list `ListDocuments` paginates over is the stored documents that pass every
filter of the list, in their original order: listing with the filters is listing the
filtered list with no filter, and with an empty filter list every document is kept. -/
theorem ListDocuments_filters_conjunctively (stored : List Document)
    (pagination : Option PaginationRequest) (filters : List Filter) :
    listFiltered stored filters
        = stored.filter (fun d => filters.all (fun f => applyFilter d f)) ∧
    ListDocuments stored pagination filters
        = ListDocuments (stored.filter (fun d => filters.all (fun f => applyFilter d f)))
            pagination [] ∧
    listFiltered stored [] = stored := by
  have h := listFiltered_eq_filter stored filters
  refine ⟨h, ?_, rfl⟩
  have h0 : ∀ l : List Document, listFiltered l [] = l := fun _ => rfl
  simp only [ListDocuments, h0, h]
  rfl

end data

namespace data

open biz commonv1

theorem listPage_eq_effectivePage (pagination : Option PaginationRequest) :
    listPage pagination = Spec.effectivePage pagination := by
  cases pagination with
  | none => rfl
  | some p =>
    by_cases h : p.Page > 0
    · have h' : ¬ p.Page ≤ 0 := by omega
      simp [listPage, Spec.effectivePage, h, h']
    · have h' : p.Page ≤ 0 := by omega
      simp [listPage, Spec.effectivePage, h, h']

theorem listPageSize_eq_effectivePageSize (pagination : Option PaginationRequest) :
    listPageSize pagination = Spec.effectivePageSize pagination := by
  cases pagination with
  | none => rfl
  | some p =>
    by_cases h : p.PageSize > 0
    · have h' : ¬ p.PageSize ≤ 0 := by omega
      simp [listPageSize, Spec.effectivePageSize, h, h']
    · have h' : p.PageSize ≤ 0 := by omega
      simp [listPageSize, Spec.effectivePageSize, h, h']

theorem effectivePage_pos (pagination : Option PaginationRequest) :
    1 ≤ Spec.effectivePage pagination := by
  cases pagination with
  | none => simp [Spec.effectivePage]
  | some p =>
    by_cases h : p.Page ≤ 0
    · simp [Spec.effectivePage, h]
    · simp only [Spec.effectivePage, h, if_false]; omega

theorem effectivePageSize_pos (pagination : Option PaginationRequest) :
    1 ≤ Spec.effectivePageSize pagination := by
  cases pagination with
  | none => simp [Spec.effectivePageSize]
  | some p =>
    by_cases h : p.PageSize ≤ 0
    · simp [Spec.effectivePageSize, h]
    · simp only [Spec.effectivePageSize, h, if_false]; omega

/-- Without overflow the window is the requested one, both ends clamped to the length. -/
theorem listWindow_of_no_overflow (docs : List Document) (page pageSize : Int)
    (hp : 1 ≤ page) (hs : 1 ≤ pageSize) (hmul : page * pageSize < 2147483648)
    (hlen : (docs.length : Int) < 2147483648) :
    listWindow docs page pageSize =
      (min ((page - 1) * pageSize) docs.length, min ((page - 1) * pageSize + pageSize)
        docs.length) := by
  have hs0 : 0 ≤ (page - 1) * pageSize := mul_nonneg (by omega) (by omega)
  have heq : (page - 1) * pageSize + pageSize = page * pageSize := by ring
  have hple : page ≤ page * pageSize := le_mul_of_one_le_right (by omega) hs
  have h1 : Go.toInt32 (page - 1) = page - 1 := Go.toInt32_of_range _ (by omega) (by omega)
  have h2 : Go.toInt32 ((page - 1) * pageSize) = (page - 1) * pageSize :=
    Go.toInt32_of_range _ (by omega) (by omega)
  have h3 : Go.toInt32 ((page - 1) * pageSize + pageSize) = (page - 1) * pageSize + pageSize :=
    Go.toInt32_of_range _ (by omega) (by omega)
  have h4 : Go.toInt32 (docs.length : Int) = docs.length :=
    Go.toInt32_of_range _ (by omega) hlen
  simp only [listWindow, h1, h2, h3, h4]
  generalize (page - 1) * pageSize = s at *
  simp only [min_def]
  split_ifs <;> simp only [Prod.mk.injEq] <;> omega

/-- Slicing at a clamped window is drop-then-take. -/
theorem slice_clamped_window {α : Type} (l : List α) (s n : Int) (hs : 0 ≤ s) (hn : 0 ≤ n) :
    Go.slice l (min s l.length) (min (s + n) l.length)
      = some ((l.drop s.toNat).take n.toNat) := by
  have hcond : 0 ≤ min s (l.length : Int) ∧ min s (l.length : Int) ≤ min (s + n) l.length ∧
      min (s + n) (l.length : Int) ≤ l.length := by
    simp only [min_def]; split_ifs <;> omega
  simp only [Go.slice, hcond, and_self, if_true, Option.some.injEq]
  by_cases hsl : s ≤ l.length
  · have e1 : (min s (l.length : Int)).toNat = s.toNat := by
      simp only [min_def]; split_ifs <;> omega
    rw [e1]
    by_cases hnl : s + n ≤ l.length
    · have e2 : (min (s + n) (l.length : Int) - min s (l.length : Int)).toNat = n.toNat := by
        simp only [min_def]; split_ifs <;> omega
      rw [e2]
    · have hlen : (l.drop s.toNat).length ≤ n.toNat := by
        simp only [List.length_drop]; omega
      have hlen2 : (l.drop s.toNat).length
          ≤ (min (s + n) (l.length : Int) - min s (l.length : Int)).toNat := by
        simp only [List.length_drop, min_def]; split_ifs <;> omega
      rw [List.take_of_length_le hlen, List.take_of_length_le hlen2]
  · have e1 : (min s (l.length : Int)).toNat = l.length := by
      simp only [min_def]; split_ifs <;> omega
    have hd : l.drop s.toNat = [] := List.drop_eq_nil_of_le (by omega)
    rw [e1, hd]
    simp

/-- Without overflow `ListDocuments` returns, and what it returns is fully determined. -/
theorem ListDocuments_of_no_overflow (stored : List Document)
    (pagination : Option PaginationRequest) (filters : List Filter)
    (hmul : Spec.effectivePage pagination * Spec.effectivePageSize pagination < 2147483648)
    (hlen : ((listFiltered stored filters).length : Int) < 2147483648) :
    ListDocuments stored pagination filters =
      some (((listFiltered stored filters).drop
                ((Spec.effectivePage pagination - 1) * Spec.effectivePageSize pagination).toNat).take
              (Spec.effectivePageSize pagination).toNat,
            { Page := Spec.effectivePage pagination,
              PageSize := Spec.effectivePageSize pagination,
              Total := listTotal (listFiltered stored filters),
              TotalPages := listTotalPages (listFiltered stored filters)
                (Spec.effectivePageSize pagination) },
            none) := by
  have hp := effectivePage_pos pagination
  have hs := effectivePageSize_pos pagination
  have hw := listWindow_of_no_overflow (listFiltered stored filters) _ _ hp hs hmul hlen
  have hsl := slice_clamped_window (listFiltered stored filters)
    ((Spec.effectivePage pagination - 1) * Spec.effectivePageSize pagination)
    (Spec.effectivePageSize pagination) (mul_nonneg (by omega) (by omega)) (by omega)
  simp only [ListDocuments, listPage_eq_effectivePage, listPageSize_eq_effectivePageSize, hw, hsl]

end data

namespace data

open biz commonv1

/-- C4 (failing input): for page 2 and page size 2147483647 the 32-bit sum `start + pageSize`
wraps to `-2`, neither clamp fires on it, the window handed to `docs[start:end]` is
`[2, -2)`, and the slice expression panics. -/
theorem ListDocuments_window_wraps_and_panics :
    listWindow (mockDocuments 0 0 0 0) 2 2147483647 = (2, -2) ∧
    ListDocuments (mockDocuments 0 0 0 0) (some { Page := 2, PageSize := 2147483647 }) []
      = none := by
  decide

/-- C5: when the effective page and page size are at least 1 and their product fits `int32`,
`ListDocuments` returns the filtered documents after dropping `(page-1)*pageSize` and taking
`pageSize`: position `i` of the result is position `(page-1)*pageSize + i` of the filtered
list for `i < pageSize`, and nothing else is returned. -/
theorem ListDocuments_returns_page_window (stored : List Document)
    (page pageSize : Int) (filters : List Filter)
    (hp : 1 ≤ page) (hs : 1 ≤ pageSize) (hmul : page * pageSize < 2147483648)
    (hlen : ((listFiltered stored filters).length : Int) < 2147483648) :
    ∃ paged resp,
      ListDocuments stored (some { Page := page, PageSize := pageSize }) filters
        = some (paged, resp, none) ∧
      paged = ((listFiltered stored filters).drop ((page - 1) * pageSize).toNat).take
                pageSize.toNat ∧
      ∀ i : Nat, paged[i]? =
        if (i : Int) < pageSize then
          (listFiltered stored filters)[((page - 1) * pageSize).toNat + i]?
        else none := by
  have hep : Spec.effectivePage (some { Page := page, PageSize := pageSize }) = page := by
    have h' : ¬ page ≤ 0 := by omega
    simp [Spec.effectivePage, h']
  have hes : Spec.effectivePageSize (some { Page := page, PageSize := pageSize })
      = pageSize := by
    have h' : ¬ pageSize ≤ 0 := by omega
    simp [Spec.effectivePageSize, h']
  have h := ListDocuments_of_no_overflow stored (some { Page := page, PageSize := pageSize })
    filters (by rw [hep, hes]; exact hmul) hlen
  rw [hep, hes] at h
  refine ⟨_, _, h, rfl, ?_⟩
  intro i
  by_cases hi : (i : Int) < pageSize
  · have hi' : i < pageSize.toNat := by omega
    simp [hi, hi', List.getElem?_take, List.getElem?_drop]
  · have hi' : ¬ i < pageSize.toNat := by omega
    simp [hi, hi', List.getElem?_take]

/-- Witness for C5: page 2 of size 1 over the two mock documents is the second document. -/
theorem ListDocuments_returns_page_window_witness :
    ∃ paged resp,
      ListDocuments (mockDocuments 0 0 0 0) (some { Page := 2, PageSize := 1 }) []
        = some (paged, resp, none) ∧
      paged = ((listFiltered (mockDocuments 0 0 0 0) []).drop ((2 - 1) * 1 : Int).toNat).take
                (1 : Int).toNat ∧
      ∀ i : Nat, paged[i]? =
        if (i : Int) < 1 then
          (listFiltered (mockDocuments 0 0 0 0) [])[((2 - 1) * 1 : Int).toNat + i]?
        else none :=
  ListDocuments_returns_page_window (mockDocuments 0 0 0 0) 2 1 []
    (by decide) (by decide) (by decide) (by decide)

end data

namespace data

open biz commonv1

/-- Whatever `ListDocuments` returns carries the defaulted page and page size, the
wrapped total and the wrapped page count of the filtered list. -/
theorem ListDocuments_response (stored : List Document)
    (pagination : Option PaginationRequest) (filters : List Filter)
    (docs : List Document) (resp : PaginationResponse) (err : Option Go.Error)
    (h : ListDocuments stored pagination filters = some (docs, resp, err)) :
    resp = { Page := Spec.effectivePage pagination,
             PageSize := Spec.effectivePageSize pagination,
             Total := listTotal (listFiltered stored filters),
             TotalPages := listTotalPages (listFiltered stored filters)
               (Spec.effectivePageSize pagination) } ∧ err = none := by
  unfold ListDocuments at h
  simp only [listPage_eq_effectivePage, listPageSize_eq_effectivePageSize] at h
  split at h
  · exact absurd h (by simp)
  · simp only [Option.some.injEq, Prod.mk.injEq] at h
    exact ⟨h.2.1.symm, h.2.2.symm⟩

/-- C6: the page and page size `ListDocuments` works with are the requested ones when
positive and 1 and 10 otherwise (1 and 10 when the request is absent): the listing is the
one of the request with these effective values, and the response reports them. -/
theorem ListDocuments_uses_effective_pagination (stored : List Document)
    (pagination : Option PaginationRequest) (filters : List Filter) :
    ListDocuments stored pagination filters
      = ListDocuments stored
          (some { Page := Spec.effectivePage pagination,
                  PageSize := Spec.effectivePageSize pagination }) filters ∧
    (∀ docs resp err, ListDocuments stored pagination filters = some (docs, resp, err) →
      resp.Page = Spec.effectivePage pagination ∧
      resp.PageSize = Spec.effectivePageSize pagination) ∧
    (pagination = none →
      Spec.effectivePage pagination = 1 ∧ Spec.effectivePageSize pagination = 10) := by
  refine ⟨?_, ?_, ?_⟩
  · have hp := effectivePage_pos pagination
    have hs := effectivePageSize_pos pagination
    have e1 : ∀ a b : Int, a > 0 → listPage (some ⟨a, b⟩) = a := by
      intro a b h'
      simp [listPage, h']
    have e2 : ∀ a b : Int, b > 0 → listPageSize (some ⟨a, b⟩) = b := by
      intro a b h'
      simp [listPageSize, h']
    rw [ListDocuments, ListDocuments, e1 _ _ (by omega), e2 _ _ (by omega)]
    simp only [ListDocuments, e1, e2, listPage_eq_effectivePage,
      listPageSize_eq_effectivePageSize]
  · intro docs resp err h
    have hr := (ListDocuments_response stored pagination filters docs resp err h).1
    rw [hr]
    exact ⟨rfl, rfl⟩
  · intro h
    subst h
    exact ⟨rfl, rfl⟩

/-- Witness for C6: a request with page 0 and page size -5 over the two mock documents is
answered with page 1 and page size 10. -/
theorem ListDocuments_uses_effective_pagination_witness :
    ListDocuments (mockDocuments 0 0 0 0) (some { Page := 0, PageSize := -5 }) []
      = some (mockDocuments 0 0 0 0,
              { Page := 1, PageSize := 10, Total := 2, TotalPages := 1 }, none) ∧
    ({ Page := 1, PageSize := 10, Total := 2, TotalPages := 1 } : PaginationResponse).Page
      = Spec.effectivePage (some { Page := 0, PageSize := -5 }) ∧
    ({ Page := 1, PageSize := 10, Total := 2, TotalPages := 1 } : PaginationResponse).PageSize
      = Spec.effectivePageSize (some { Page := 0, PageSize := -5 }) ∧
    Spec.effectivePage none = 1 ∧ Spec.effectivePageSize none = 10 :=
  ⟨by decide,
   ((ListDocuments_uses_effective_pagination (mockDocuments 0 0 0 0)
      (some { Page := 0, PageSize := -5 }) []).2.1 (mockDocuments 0 0 0 0)
      { Page := 1, PageSize := 10, Total := 2, TotalPages := 1 } none (by decide)).1,
   ((ListDocuments_uses_effective_pagination (mockDocuments 0 0 0 0)
      (some { Page := 0, PageSize := -5 }) []).2.1 (mockDocuments 0 0 0 0)
      { Page := 1, PageSize := 10, Total := 2, TotalPages := 1 } none (by decide)).2,
   (ListDocuments_uses_effective_pagination (mockDocuments 0 0 0 0) none []).2.2 rfl⟩

theorem listTotalPages_eq_ceil (docs : List Document) (pageSize : Int)
    (hlen : (docs.length : Int) < 2147483648) (hs : 1 ≤ pageSize)
    (hs32 : pageSize < 2147483648) :
    listTotal docs = docs.length ∧
    listTotalPages docs pageSize = ⌈((docs.length : Int) : ℚ) / (pageSize : ℚ)⌉ := by
  have ht : listTotal docs = docs.length := Go.toInt64_of_range _ (by omega) (by omega)
  refine ⟨ht, ?_⟩
  have e1 : Go.toInt64 pageSize = pageSize := Go.toInt64_of_range _ (by omega) (by omega)
  have e2 : Go.toInt64 ((docs.length : Int) + pageSize) = docs.length + pageSize :=
    Go.toInt64_of_range _ (by omega) (by omega)
  have e3 : Go.toInt64 ((docs.length : Int) + pageSize - 1) = docs.length + pageSize - 1 :=
    Go.toInt64_of_range _ (by omega) (by omega)
  have hdiv : Int.tdiv ((docs.length : Int) + pageSize - 1) pageSize
      = ((docs.length : Int) + pageSize - 1) / pageSize :=
    Int.tdiv_eq_ediv (by omega) (by omega)
  have hps : (0 : Int) < pageSize := by omega
  have hq1 : ((docs.length : Int) + pageSize - 1) / pageSize * pageSize
      ≤ (docs.length : Int) + pageSize - 1 := Int.ediv_mul_le _ (by omega)
  have hq2 : (docs.length : Int) + pageSize - 1
      < (((docs.length : Int) + pageSize - 1) / pageSize + 1) * pageSize :=
    Int.lt_ediv_add_one_mul_self _ hps
  have hq0 : 0 ≤ ((docs.length : Int) + pageSize - 1) / pageSize :=
    Int.ediv_nonneg (by omega) (by omega)
  generalize hq : ((docs.length : Int) + pageSize - 1) / pageSize = q at *
  have hqle : q ≤ docs.length := by
    by_contra hcon
    have h1 : ((docs.length : Int) + 1) * pageSize ≤ q * pageSize :=
      Int.mul_le_mul_of_nonneg_right (by omega) (by omega)
    have h2 : (docs.length : Int) * 1 ≤ (docs.length : Int) * pageSize :=
      Int.mul_le_mul_of_nonneg_left hs (by omega)
    have h3 : ((docs.length : Int) + 1) * pageSize
        = (docs.length : Int) * pageSize + pageSize := by ring
    omega
  have e4 : Go.toInt64 q = q := Go.toInt64_of_range _ (by omega) (by omega)
  have e5 : Go.toInt32 q = q := Go.toInt32_of_range _ (by omega) (by omega)
  simp only [listTotalPages, ht, e1, e2, e3, hdiv, hq, e4, e5]
  symm
  rw [Int.ceil_eq_iff]
  have hpsq : (0 : ℚ) < (pageSize : ℚ) := by exact_mod_cast hps
  have hexp : (q + 1) * pageSize = q * pageSize + pageSize := by ring
  constructor
  · rw [lt_div_iff₀ hpsq]
    have h1 : (q - 1) * pageSize < (docs.length : Int) := by
      have : (q - 1) * pageSize = q * pageSize - pageSize := by ring
      omega
    exact_mod_cast h1
  · rw [div_le_iff₀ hpsq]
    have h1 : (docs.length : Int) ≤ q * pageSize := by omega
    exact_mod_cast h1

end data

namespace data

open biz commonv1

/-- C7: in every response, `Total` is the number of stored documents that pass all filters
(not the size of the returned page) and `TotalPages` is the ceiling of `Total` over the
effective page size, hence 0 when no document passes; the business layer reports the same
`Total` as `Stats.TotalDocuments`. The stored list is taken to fit `int32` and the requested
page size to be an `int32`. -/
theorem ListDocuments_total_and_total_pages (stored : List Document)
    (pagination : Option PaginationRequest) (filters : List Filter)
    (hlen : (stored.length : Int) < 2147483648)
    (h32 : ∀ p, pagination = some p → Go.IsInt32 p.PageSize) :
    (∀ docs resp err, ListDocuments stored pagination filters = some (docs, resp, err) →
      resp.Total = ((stored.filter (fun d => filters.all (fun f => applyFilter d f))).length : Int) ∧
      resp.TotalPages = ⌈(resp.Total : ℚ) / (Spec.effectivePageSize pagination : ℚ)⌉ ∧
      (resp.Total = 0 → resp.TotalPages = 0)) ∧
    (∀ out, biz.ListDocuments (ListDocuments stored)
        { Pagination := pagination, Filters := filters } = some (some out, none) →
      out.Stats.TotalDocuments
        = ((stored.filter (fun d => filters.all (fun f => applyFilter d f))).length : Int) ∧
      out.Pagination.Total = out.Stats.TotalDocuments ∧
      out.Pagination.TotalPages
        = ⌈(out.Pagination.Total : ℚ) / (Spec.effectivePageSize pagination : ℚ)⌉) := by
  have hs := effectivePageSize_pos pagination
  have hs32 : Spec.effectivePageSize pagination < 2147483648 := by
    cases pagination with
    | none => simp [Spec.effectivePageSize]
    | some p =>
      have hp := (h32 p rfl).2
      by_cases h : p.PageSize ≤ 0
      · simp [Spec.effectivePageSize, h]
      · simpa [Spec.effectivePageSize, h] using hp
  have hfl : ((listFiltered stored filters).length : Int) < 2147483648 := by
    rw [listFiltered_eq_filter]
    have := List.length_filter_le (Spec.passesAll filters) stored
    omega
  have hc := listTotalPages_eq_ceil (listFiltered stored filters)
    (Spec.effectivePageSize pagination) hfl hs hs32
  have hcount : listFiltered stored filters
      = stored.filter (fun d => filters.all (fun f => applyFilter d f)) :=
    listFiltered_eq_filter stored filters
  have main : ∀ docs resp err, ListDocuments stored pagination filters = some (docs, resp, err) →
      resp.Total = ((stored.filter (fun d => filters.all (fun f => applyFilter d f))).length : Int) ∧
      resp.TotalPages = ⌈(resp.Total : ℚ) / (Spec.effectivePageSize pagination : ℚ)⌉ ∧
      (resp.Total = 0 → resp.TotalPages = 0) := by
    intro docs resp err h
    have hr := (ListDocuments_response stored pagination filters docs resp err h).1
    have hT : resp.Total = ((listFiltered stored filters).length : Int) := by
      rw [hr]; exact hc.1
    have hP : resp.TotalPages
        = ⌈(((listFiltered stored filters).length : Int) : ℚ)
            / (Spec.effectivePageSize pagination : ℚ)⌉ := by
      rw [hr]; exact hc.2
    refine ⟨by rw [hT, hcount], by rw [hP, hT], ?_⟩
    intro h0
    rw [hP, ← hT, h0]
    simp
  refine ⟨main, ?_⟩
  intro out hout
  unfold biz.ListDocuments at hout
  simp only at hout
  split at hout
  · exact absurd hout (by simp)
  · exact absurd hout (by simp)
  · rename_i docs resp heq
    have hm := main docs resp none heq
    simp only [Option.some.injEq, Prod.mk.injEq, and_true] at hout
    subst hout
    exact ⟨hm.1, rfl, hm.2.1⟩

/-- Witness for C7: one of the two mock documents passes the title filter; the first page of
size 1 reports total 1 and one page. -/
theorem ListDocuments_total_and_total_pages_witness :
    ((mockDocuments 0 0 0 0).length : Int) < 2147483648 ∧
    ListDocuments (mockDocuments 0 0 0 0) (some { Page := 1, PageSize := 1 })
        [{ Field := "title", Operator := "eq", Values := ["深度学习实践"] }]
      = some ((mockDocuments 0 0 0 0).drop 1,
              { Page := 1, PageSize := 1, Total := 1, TotalPages := 1 }, none) ∧
    ((1 : Int) = (((mockDocuments 0 0 0 0).filter (fun d =>
        [({ Field := "title", Operator := "eq", Values := ["深度学习实践"] } : Filter)].all
          (fun f => applyFilter d f))).length : Int) ∧
     (1 : Int) = ⌈((1 : Int) : ℚ) /
        (Spec.effectivePageSize (some { Page := 1, PageSize := 1 }) : ℚ)⌉ ∧
     ((1 : Int) = 0 → (1 : Int) = 0)) :=
  ⟨by decide, by decide,
   (ListDocuments_total_and_total_pages (mockDocuments 0 0 0 0)
      (some { Page := 1, PageSize := 1 })
      [{ Field := "title", Operator := "eq", Values := ["深度学习实践"] }]
      (by decide) (by intro p hp; cases hp; decide)).1
      ((mockDocuments 0 0 0 0).drop 1)
      { Page := 1, PageSize := 1, Total := 1, TotalPages := 1 } none (by decide)⟩

end data

namespace data

open biz commonv1

theorem eqLoop_eq_mem (value : String) (values : List String) :
    eqLoop value values = decide (value ∈ values) := by
  induction values with
  | nil => simp [eqLoop]
  | cons a rest ih =>
    by_cases h : value = a
    · simp [eqLoop, h]
    · simp [eqLoop, h, ih]

theorem neLoop_eq_not_mem (value : String) (values : List String) :
    neLoop value values = !decide (value ∈ values) := by
  induction values with
  | nil => simp [neLoop]
  | cons a rest ih =>
    by_cases h : value = a
    · simp [neLoop, h]
    · simp [neLoop, h, ih]

/-- On a known field `applyFilter` is `matchStringFilter` on the document's value for the
field, and `false` when the document has no such value. -/
theorem applyFilter_known (doc : Document) (field op : String) (values : List String)
    (hk : Spec.knownField field) :
    applyFilter doc { Field := field, Operator := op, Values := values } =
      match Spec.fieldValue field doc with
      | some v => matchStringFilter v { Field := field, Operator := op, Values := values }
      | none => false := by
  have hmv : ∀ key, metadataValue doc key
      = (doc.Metadata.bind (fun md => md.Data)).bind (fun m => Go.Map.get? m key) := by
    intro key
    unfold metadataValue
    cases doc.Metadata with
    | none => rfl
    | some md =>
      cases hd : md.Data with
      | none => simp [hd]
      | some m => simp [hd]
  rcases hk with h | h | h | h <;> subst h <;>
    simp [applyFilter, Spec.fieldValue, hmv]

theorem matchStringFilter_eq (value field : String) (values : List String)
    (hv : values ≠ []) :
    matchStringFilter value { Field := field, Operator := "eq", Values := values }
      = decide (value ∈ values) := by
  have hl : ¬ values.length = 0 := by
    cases values with
    | nil => exact absurd rfl hv
    | cons a l => simp
  simp only [matchStringFilter, hl, if_false, if_true, eqLoop_eq_mem]

theorem matchStringFilter_ne (value field : String) (values : List String)
    (hv : values ≠ []) :
    matchStringFilter value { Field := field, Operator := "ne", Values := values }
      = !decide (value ∈ values) := by
  have hl : ¬ values.length = 0 := by
    cases values with
    | nil => exact absurd rfl hv
    | cons a l => simp
  have hop : ¬ ("ne" = "eq") := by decide
  simp only [matchStringFilter, hl, hop, if_false, if_true, neLoop_eq_not_mem]

theorem listFiltered_single (docs : List Document) (f : Filter) :
    listFiltered docs [f] = docs.filter (fun d => applyFilter d f) := by
  rw [listFiltered_eq_filter]
  congr 1
  funext d
  simp [Spec.passesAll]

/-- C8: for a known field and a non-empty value list `V`, a single `eq` filter selects exactly
the documents whose value for the field is an element of `V`; a document that has no value
for the field (no author or category key) is not selected. -/
theorem eq_filter_selects_members (docs : List Document) (field : String)
    (V : List String) (hk : Spec.knownField field) (hv : V ≠ []) :
    listFiltered docs [{ Field := field, Operator := "eq", Values := V }]
      = docs.filter (fun d =>
          match Spec.fieldValue field d with
          | some v => decide (v ∈ V)
          | none => false) ∧
    (∀ d, applyFilter d { Field := field, Operator := "eq", Values := V } = true ↔
      ∃ v, Spec.fieldValue field d = some v ∧ v ∈ V) := by
  have hd : ∀ d, applyFilter d { Field := field, Operator := "eq", Values := V } =
      match Spec.fieldValue field d with
      | some v => decide (v ∈ V)
      | none => false := by
    intro d
    rw [applyFilter_known d field "eq" V hk]
    cases Spec.fieldValue field d with
    | none => rfl
    | some v => exact matchStringFilter_eq v field V hv
  refine ⟨?_, ?_⟩
  · rw [listFiltered_single]
    congr 1
    funext d
    exact hd d
  · intro d
    rw [hd d]
    cases Spec.fieldValue field d with
    | none => simp
    | some v => simp

/-- Witness for C8: filtering the two mock documents on author `张三` keeps the first. -/
theorem eq_filter_selects_members_witness :
    listFiltered (mockDocuments 0 0 0 0)
        [{ Field := "author", Operator := "eq", Values := ["张三"] }]
      = (mockDocuments 0 0 0 0).filter (fun d =>
          match Spec.fieldValue "author" d with
          | some v => decide (v ∈ ["张三"])
          | none => false) ∧
    listFiltered (mockDocuments 0 0 0 0)
        [{ Field := "author", Operator := "eq", Values := ["张三"] }]
      = (mockDocuments 0 0 0 0).take 1 :=
  ⟨(eq_filter_selects_members (mockDocuments 0 0 0 0) "author" ["张三"]
      (by decide) (by decide)).1, by decide⟩

end data

namespace data

open biz commonv1

/-- C9 (counterexample): a document without metadata is selected neither by the `eq` nor by
the `ne` filter on `author`, and with an empty value list the `eq` and the `ne` filter on
`title` both select it; in neither case is one selection the complement of the other. -/
theorem ne_filter_not_complement_counterexample :
    listFiltered [bareDocument] [{ Field := "author", Operator := "eq", Values := ["x"] }] = [] ∧
    listFiltered [bareDocument] [{ Field := "author", Operator := "ne", Values := ["x"] }] = [] ∧
    listFiltered [bareDocument] [{ Field := "title", Operator := "eq", Values := [] }]
      = [bareDocument] ∧
    listFiltered [bareDocument] [{ Field := "title", Operator := "ne", Values := [] }]
      = [bareDocument] := by
  decide

/-- C9 (amended): for a known field and a non-empty value list, a document that has a value
for the field is selected by exactly one of the `eq` and the `ne` filter, so among such
documents `ne` selects the complement of `eq`; a document without a value for the field is
selected by neither. -/
theorem ne_filter_complements_eq_on_valued (docs : List Document) (field : String)
    (V : List String) (hk : Spec.knownField field) (hv : V ≠ []) :
    (∀ d, (Spec.fieldValue field d).isSome = true →
      applyFilter d { Field := field, Operator := "ne", Values := V }
        = !applyFilter d { Field := field, Operator := "eq", Values := V }) ∧
    (∀ d, Spec.fieldValue field d = none →
      applyFilter d { Field := field, Operator := "ne", Values := V } = false ∧
      applyFilter d { Field := field, Operator := "eq", Values := V } = false) ∧
    listFiltered docs [{ Field := field, Operator := "ne", Values := V }]
      = docs.filter (fun d => (Spec.fieldValue field d).isSome &&
          !applyFilter d { Field := field, Operator := "eq", Values := V }) := by
  have hd : ∀ d, applyFilter d { Field := field, Operator := "ne", Values := V }
      = ((Spec.fieldValue field d).isSome &&
          !applyFilter d { Field := field, Operator := "eq", Values := V }) := by
    intro d
    rw [applyFilter_known d field "ne" V hk, applyFilter_known d field "eq" V hk]
    cases Spec.fieldValue field d with
    | none => rfl
    | some v =>
      simp only [Option.isSome_some, Bool.true_and]
      rw [matchStringFilter_ne v field V hv, matchStringFilter_eq v field V hv]
  refine ⟨?_, ?_, ?_⟩
  · intro d hsome
    rw [hd d, hsome, Bool.true_and]
  · intro d hnone
    rw [applyFilter_known d field "ne" V hk, applyFilter_known d field "eq" V hk, hnone]
    exact ⟨rfl, rfl⟩
  · rw [listFiltered_single]
    congr 1
    funext d
    exact hd d

/-- Witness for C9 (amended): on the two mock documents, which both have an author, the `ne`
filter on author `张三` keeps the second one and the `eq` filter the first. -/
theorem ne_filter_complements_eq_on_valued_witness :
    listFiltered (mockDocuments 0 0 0 0)
        [{ Field := "author", Operator := "ne", Values := ["张三"] }]
      = (mockDocuments 0 0 0 0).filter (fun d => (Spec.fieldValue "author" d).isSome &&
          !applyFilter d { Field := "author", Operator := "eq", Values := ["张三"] }) ∧
    listFiltered (mockDocuments 0 0 0 0)
        [{ Field := "author", Operator := "ne", Values := ["张三"] }]
      = (mockDocuments 0 0 0 0).drop 1 :=
  ⟨(ne_filter_complements_eq_on_valued (mockDocuments 0 0 0 0) "author" ["张三"]
      (by decide) (by decide)).2.2, by decide⟩

end data

namespace data

open biz commonv1

theorem string_length_pos_iff (s : String) : s.length > 0 ↔ s ≠ "" := by
  cases s with
  | mk l =>
    cases l with
    | nil => simp [String.length]
    | cons a t =>
      simp only [String.length, List.length_cons, gt_iff_lt, Nat.zero_lt_succ, true_iff]
      intro h
      have := congrArg String.data h
      simp at this

/-- The scan started at `i` with `steps` iterations left finds a match exactly when the
filter value sits at one of the offsets `i, ..., i + steps - 1`. -/
theorem likeScan_iff (value filterValue : String) (steps : Nat) :
    ∀ i : Int, 0 ≤ i →
      (likeScan value filterValue steps i = true ↔
        ∃ j : Nat, i.toNat ≤ j ∧ j < i.toNat + steps ∧
          (value.data.drop j).take filterValue.data.length = filterValue.data) := by
  induction steps with
  | zero =>
    intro i _
    simp only [likeScan]
    constructor
    · intro h
      exact absurd h (by simp)
    · rintro ⟨j, h1, h2, _⟩
      omega
  | succ n ih =>
    intro i hi
    have hsub : (i + (filterValue.length : Int) - i).toNat = filterValue.data.length := by
      have hl : filterValue.length = filterValue.data.length := rfl
      omega
    rw [likeScan, hsub]
    by_cases h0 : (value.data.drop i.toNat).take filterValue.data.length = filterValue.data
    · simp only [h0, if_true, true_iff]
      exact ⟨i.toNat, le_refl _, by omega, h0⟩
    · simp only [h0, if_false]
      rw [ih (i + 1) (by omega)]
      have hi1 : (i + 1).toNat = i.toNat + 1 := by omega
      rw [hi1]
      constructor
      · rintro ⟨j, h1, h2, h3⟩
        exact ⟨j, by omega, by omega, h3⟩
      · rintro ⟨j, h1, h2, h3⟩
        have hne : j ≠ i.toNat := by
          intro he
          rw [he] at h3
          exact h0 h3
        exact ⟨j, by omega, by omega, h3⟩

/-- Sitting at some offset is being a contiguous sublist. -/
theorem exists_offset_iff_contiguous {α : Type} (fv v : List α) :
    (∃ j : Nat, j < ((v.length : Int) - (fv.length : Int) + 1).toNat ∧
        (v.drop j).take fv.length = fv) ↔ fv <:+: v := by
  constructor
  · rintro ⟨j, _, hj⟩
    refine ⟨v.take j, (v.drop j).drop fv.length, ?_⟩
    have h1 : (v.drop j).take fv.length ++ (v.drop j).drop fv.length = v.drop j :=
      List.take_append_drop _ _
    rw [hj] at h1
    rw [List.append_assoc, h1, List.take_append_drop]
  · rintro ⟨s, t, hst⟩
    refine ⟨s.length, ?_, ?_⟩
    · have hlen := congrArg List.length hst
      simp only [List.length_append] at hlen
      omega
    · rw [← hst, List.append_assoc, List.drop_left, List.take_left]

/-- Inside its iteration range the scan never slices out of bounds, and the bounds-checked
scan returns what the plain one returns. -/
theorem likeScanChecked_eq (value filterValue : String) (steps : Nat) :
    ∀ i : Int, 0 ≤ i →
      (steps ≠ 0 → i + steps + filterValue.length ≤ (value.length : Int) + 1) →
      likeScanChecked value filterValue steps i
        = some (likeScan value filterValue steps i) := by
  induction steps with
  | zero => intro i _ _; rfl
  | succ n ih =>
    intro i hi hb
    have hb' := hb (by omega)
    have hl : (value.length : Int) = value.data.length := rfl
    have hcond : 0 ≤ i ∧ i ≤ i + (filterValue.length : Int) ∧
        i + (filterValue.length : Int) ≤ (value.data.length : Int) := by
      refine ⟨hi, by omega, ?_⟩
      push_cast at hb'
      omega
    rw [likeScanChecked, likeScan]
    simp only [Go.slice, hcond, and_self, if_true]
    by_cases h0 : (value.data.drop i.toNat).take
        (i + (filterValue.length : Int) - i).toNat = filterValue.data
    · simp only [h0, if_true]
    · simp only [h0, if_false]
      apply ih (i + 1) (by omega)
      intro hn
      push_cast at hb'
      omega

theorem likeLoopChecked_eq (value : String) (values : List String) :
    likeLoopChecked value values = some (likeLoop value values) := by
  induction values with
  | nil => rfl
  | cons fv rest ih =>
    rw [likeLoopChecked, likeLoop]
    by_cases hg : fv.length > 0 ∧ value.length > 0
    · simp only [hg, and_self, if_true]
      have hs := likeScanChecked_eq value fv (likeSteps value fv) 0 (le_refl _)
        (by intro hne; unfold likeSteps at hne ⊢; omega)
      rw [hs]
      cases likeScan value fv (likeSteps value fv) 0 with
      | true => simp
      | false => simpa using ih
    · simp only [hg, if_false]
      exact ih

theorem likeLoop_iff (value : String) (values : List String) :
    likeLoop value values = true ↔
      ∃ fv ∈ values, fv ≠ "" ∧ fv.data <:+: value.data := by
  induction values with
  | nil => simp [likeLoop]
  | cons fv rest ih =>
    have hscan : likeScan value fv (likeSteps value fv) 0 = true ↔ fv.data <:+: value.data := by
      rw [likeScan_iff value fv _ 0 (le_refl _), ← exists_offset_iff_contiguous]
      simp only [Int.toNat_zero, Nat.zero_le, true_and, zero_add, likeSteps]
      rfl
    rw [likeLoop]
    by_cases hg : fv.length > 0 ∧ value.length > 0
    · have hne : fv ≠ "" := (string_length_pos_iff fv).1 hg.1
      simp only [hg, and_self, if_true]
      by_cases hsc : likeScan value fv (likeSteps value fv) 0 = true
      · simp only [hsc, if_true, true_iff]
        exact ⟨fv, List.mem_cons_self _ _, hne, hscan.1 hsc⟩
      · have hsc' : likeScan value fv (likeSteps value fv) 0 = false := by
          simpa using hsc
        simp only [hsc', Bool.false_eq_true, if_false]
        rw [ih]
        constructor
        · rintro ⟨w, hw, h1, h2⟩
          exact ⟨w, List.mem_cons_of_mem _ hw, h1, h2⟩
        · rintro ⟨w, hw, h1, h2⟩
          rcases List.mem_cons.1 hw with rfl | hw'
          · exact absurd (hscan.2 h2) hsc
          · exact ⟨w, hw', h1, h2⟩
    · simp only [hg, if_false]
      rw [ih]
      constructor
      · rintro ⟨w, hw, h1, h2⟩
        exact ⟨w, List.mem_cons_of_mem _ hw, h1, h2⟩
      · rintro ⟨w, hw, h1, h2⟩
        rcases List.mem_cons.1 hw with rfl | hw'
        · exfalso
          have hw0 : w.length > 0 := (string_length_pos_iff w).2 h1
          have hv0 : ¬ value.length > 0 := fun hv => hg ⟨hw0, hv⟩
          have hlen := List.IsInfix.length_le h2
          have e1 : w.length = w.data.length := rfl
          have e2 : value.length = value.data.length := rfl
          omega
        · exact ⟨w, hw', h1, h2⟩

end data

namespace data

open biz commonv1

/-- C10 (counterexample): the value `abc` contains the empty filter value as a contiguous
substring, yet `matchStringFilter` with operator `like` and the value list `[""]` returns
`false`: the guard `len(filterValue) > 0` skips empty filter values. -/
theorem like_skips_empty_value_counterexample :
    matchStringFilter "abc" { Field := "title", Operator := "like", Values := [""] } = false ∧
    "".data <:+: "abc".data := by
  decide

/-- C10 (amended): for a non-empty value list, `matchStringFilter` with operator `like`
returns `true` exactly when the field value contains at least one non-empty filter value as
a contiguous substring, and the scan never slices outside the field value: the
bounds-checked scan returns the same answer without panicking. -/
theorem like_matches_nonempty_substring (value field : String) (V : List String)
    (hv : V ≠ []) :
    (matchStringFilter value { Field := field, Operator := "like", Values := V } = true ↔
      ∃ fv ∈ V, fv ≠ "" ∧ fv.data <:+: value.data) ∧
    likeLoopChecked value V
      = some (matchStringFilter value { Field := field, Operator := "like", Values := V }) := by
  have hl : ¬ V.length = 0 := by
    cases V with
    | nil => exact absurd rfl hv
    | cons a l => simp
  have h1 : ¬ ("like" = "eq") := by decide
  have h2 : ¬ ("like" = "ne") := by decide
  have hm : matchStringFilter value { Field := field, Operator := "like", Values := V }
      = likeLoop value V := by
    simp only [matchStringFilter, hl, h1, h2, if_false, if_true]
  rw [hm]
  exact ⟨likeLoop_iff value V, likeLoopChecked_eq value V⟩

/-- Witness for C10 (amended): `deep learning` contains `learn`; the empty value before it
in the list is skipped. -/
theorem like_matches_nonempty_substring_witness :
    (["", "learn"] : List String) ≠ [] ∧
    (matchStringFilter "deep learning"
        { Field := "title", Operator := "like", Values := ["", "learn"] } = true ↔
      ∃ fv ∈ ["", "learn"], fv ≠ "" ∧ fv.data <:+: "deep learning".data) ∧
    likeLoopChecked "deep learning" ["", "learn"]
      = some (matchStringFilter "deep learning"
          { Field := "title", Operator := "like", Values := ["", "learn"] }) ∧
    matchStringFilter "deep learning"
        { Field := "title", Operator := "like", Values := ["", "learn"] } = true :=
  ⟨by decide,
   (like_matches_nonempty_substring "deep learning" "title" ["", "learn"] (by decide)).1,
   (like_matches_nonempty_substring "deep learning" "title" ["", "learn"] (by decide)).2,
   by decide⟩

end data

namespace data

open biz commonv1

theorem mem_listFiltered_iff (stored : List Document) (filters : List Filter) (d : Document) :
    d ∈ listFiltered stored filters ↔ d ∈ stored ∧ ∀ f ∈ filters, applyFilter d f = true := by
  rw [listFiltered_eq_filter]
  simp [Spec.passesAll]

theorem paged_subset_listFiltered (stored : List Document)
    (pagination : Option PaginationRequest) (filters : List Filter)
    (docs : List Document) (resp : PaginationResponse) (err : Option Go.Error)
    (h : ListDocuments stored pagination filters = some (docs, resp, err)) :
    ∀ d ∈ docs, d ∈ listFiltered stored filters := by
  unfold ListDocuments at h
  simp only at h
  split at h
  · exact absurd h (by simp)
  · rename_i paged hs
    simp only [Option.some.injEq, Prod.mk.injEq] at h
    unfold Go.slice at hs
    split at hs
    · simp only [Option.some.injEq] at hs
      intro d hd
      rw [← h.1, ← hs] at hd
      exact List.mem_of_mem_drop (List.mem_of_mem_take hd)
    · exact absurd hs (by simp)

/-- C11: a document whose metadata is absent, whose metadata map is absent, or whose map
lacks the key fails every filter on `author` or `category`, whatever the operator and the
values, and is therefore in no listing whose filters include such a filter. -/
theorem missing_metadata_key_fails_filter (doc : Document) (field op : String)
    (values : List String) (hf : field = "author" ∨ field = "category")
    (hm : doc.Metadata = none ∨ (∃ md, doc.Metadata = some md ∧ md.Data = none) ∨
      (∃ md m, doc.Metadata = some md ∧ md.Data = some m ∧ Go.Map.get? m field = none)) :
    applyFilter doc { Field := field, Operator := op, Values := values } = false ∧
    (∀ stored filters, { Field := field, Operator := op, Values := values } ∈ filters →
      doc ∉ listFiltered stored filters) ∧
    (∀ stored pagination filters docs resp err,
      { Field := field, Operator := op, Values := values } ∈ filters →
      ListDocuments stored pagination filters = some (docs, resp, err) → doc ∉ docs) := by
  have hmv : metadataValue doc field = none := by
    unfold metadataValue
    rcases hm with h | ⟨md, h1, h2⟩ | ⟨md, m, h1, h2, h3⟩
    · simp [h]
    · simp [h1, h2]
    · simp [h1, h2, h3]
  have hfalse : applyFilter doc { Field := field, Operator := op, Values := values } = false := by
    rcases hf with h | h <;> subst h <;> simp [applyFilter, hmv]
  have hnot : ∀ stored filters, { Field := field, Operator := op, Values := values } ∈ filters →
      doc ∉ listFiltered stored filters := by
    intro stored filters hin hd
    have := ((mem_listFiltered_iff stored filters doc).1 hd).2 _ hin
    rw [hfalse] at this
    exact absurd this (by simp)
  refine ⟨hfalse, hnot, ?_⟩
  intro stored pagination filters docs resp err hin hl hd
  exact hnot stored filters hin (paged_subset_listFiltered stored pagination filters docs resp err hl doc hd)

/-- Witness for C11: the document without metadata fails an `author` filter with an empty
value list and an unrecognized operator, and is left out of the listing. -/
theorem missing_metadata_key_fails_filter_witness :
    applyFilter bareDocument { Field := "author", Operator := "matches", Values := [] } = false ∧
    bareDocument ∉ listFiltered (bareDocument :: mockDocuments 0 0 0 0)
      [{ Field := "author", Operator := "matches", Values := [] }] :=
  ⟨(missing_metadata_key_fails_filter bareDocument "author" "matches" []
      (Or.inl rfl) (Or.inl rfl)).1,
   (missing_metadata_key_fails_filter bareDocument "author" "matches" []
      (Or.inl rfl) (Or.inl rfl)).2.1 (bareDocument :: mockDocuments 0 0 0 0)
      [{ Field := "author", Operator := "matches", Values := [] }] (List.mem_singleton.2 rfl)⟩

/-- C12: `matchStringFilter` returns `true` whenever the value list is empty, whatever the
operator, and whenever the operator is none of `eq`, `ne`, `like`, `in`, whatever the
values. -/
theorem matchStringFilter_permissive (value field op : String) (values : List String) :
    matchStringFilter value { Field := field, Operator := op, Values := [] } = true ∧
    (op ≠ "eq" → op ≠ "ne" → op ≠ "like" → op ≠ "in" →
      matchStringFilter value { Field := field, Operator := op, Values := values } = true) := by
  refine ⟨by simp [matchStringFilter], ?_⟩
  intro h1 h2 h3 h4
  simp [matchStringFilter, h1, h2, h3, h4]

/-- Witness for C12: the operator `gt` is not recognized, so the filter passes. -/
theorem matchStringFilter_permissive_witness :
    matchStringFilter "pdf" { Field := "file_type", Operator := "gt", Values := ["a"] } = true :=
  (matchStringFilter_permissive "pdf" "file_type" "gt" ["a"]).2
    (by decide) (by decide) (by decide) (by decide)

/-- C13: for a field name other than `title`, `file_type`, `author`, `category`,
`applyFilter` returns `true` whatever the document, operator and values, and adding such a
filter anywhere in the filter list changes neither the filtered list nor what
`ListDocuments` returns. -/
theorem unknown_field_filter_passes (field op : String) (values : List String)
    (hk : ¬ Spec.knownField field) :
    (∀ doc, applyFilter doc { Field := field, Operator := op, Values := values } = true) ∧
    (∀ stored before after,
      listFiltered stored (before ++ { Field := field, Operator := op, Values := values } :: after)
        = listFiltered stored (before ++ after)) ∧
    (∀ stored pagination before after,
      ListDocuments stored pagination
          (before ++ { Field := field, Operator := op, Values := values } :: after)
        = ListDocuments stored pagination (before ++ after)) := by
  have h1 : field ≠ "title" := fun h => hk (Or.inl h)
  have h2 : field ≠ "file_type" := fun h => hk (Or.inr (Or.inl h))
  have h3 : field ≠ "author" := fun h => hk (Or.inr (Or.inr (Or.inl h)))
  have h4 : field ≠ "category" := fun h => hk (Or.inr (Or.inr (Or.inr h)))
  have hpass : ∀ doc, applyFilter doc { Field := field, Operator := op, Values := values }
      = true := by
    intro doc
    simp [applyFilter, h1, h2, h3, h4]
  have hlist : ∀ stored before after,
      listFiltered stored (before ++ { Field := field, Operator := op, Values := values } :: after)
        = listFiltered stored (before ++ after) := by
    intro stored before after
    rw [listFiltered_eq_filter, listFiltered_eq_filter]
    congr 1
    funext d
    simp [Spec.passesAll, hpass d]
  refine ⟨hpass, hlist, ?_⟩
  intro stored pagination before after
  simp only [ListDocuments, hlist]

/-- Witness for C13: a filter on the unknown field `language` leaves the listing of the two
mock documents as it is. -/
theorem unknown_field_filter_passes_witness :
    ListDocuments (mockDocuments 0 0 0 0) none
        ([] ++ { Field := "language", Operator := "eq", Values := ["zh"] } :: [])
      = ListDocuments (mockDocuments 0 0 0 0) none ([] ++ []) :=
  (unknown_field_filter_passes "language" "eq" ["zh"] (by decide)).2.2
    (mockDocuments 0 0 0 0) none [] []

theorem inLoop_eq_eqLoop (value : String) (values : List String) :
    inLoop value values = eqLoop value values := by
  induction values with
  | nil => rfl
  | cons a rest ih => simp [inLoop, eqLoop, ih]

/-- C14: for every field value and every value list, `matchStringFilter` gives the same
result for the operator `in` as for the operator `eq`. -/
theorem matchStringFilter_in_eq_eq (value field : String) (values : List String) :
    matchStringFilter value { Field := field, Operator := "in", Values := values }
      = matchStringFilter value { Field := field, Operator := "eq", Values := values } := by
  have h1 : ¬ ("in" = "eq") := by decide
  have h2 : ¬ ("in" = "ne") := by decide
  have h3 : ¬ ("in" = "like") := by decide
  simp only [matchStringFilter, h1, h2, h3, if_false, if_true, inLoop_eq_eqLoop]

end data

namespace biz

/-- When retrieval succeeds, `ProcessQuery` returns the response built from the documents
of the rerank stage and the answer of the assembly stage. -/
theorem ProcessQuery_eq_stages (repo : QueryRepo) (startTime processingTime : Int)
    (queryID : String) (req : v1.QueryRequest) (retrieved : List RelatedDocument)
    (hret : repo.RetrieveDocuments req.Query req.Parameters = (retrieved, none)) :
    ∃ resp, ProcessQuery repo startTime processingTime queryID req = (some resp, none) ∧
      resp.RelatedDocuments = (Spec.rerankStage repo req retrieved).map toProto ∧
      resp.Answer = Spec.answerStage repo req (Spec.rerankStage repo req retrieved) ∧
      resp.Metadata.DocumentsReturned
        = Go.toInt32 (Spec.rerankStage repo req retrieved).length ∧
      resp.Metadata.TotalDocumentsSearched
        = Go.toInt32 (Spec.rerankStage repo req retrieved).length := by
  unfold Spec.answerStage Spec.rerankStage Spec.rerankEnabled Spec.assemblyEnabled
  cases hpar : req.Parameters with
  | none =>
    rw [hpar] at hret
    simp [ProcessQuery, hret, hpar]
  | some p =>
    rw [hpar] at hret
    rcases hr : repo.RerankDocuments req.Query retrieved with ⟨r, _ | e⟩ <;>
      by_cases h1 : p.EnableReranking = true <;>
      by_cases h2 : p.EnableContextAssembly = true <;>
      simp [ProcessQuery, hret, hpar, hr, h1, h2] <;>
      split <;> simp_all

/-- C18: when retrieval succeeds, the answer of the response is the fixed fallback string
when the parameters are absent or assembly is disabled, the assembler's text when assembly
is enabled and the assembler succeeds, and the fixed apology string when assembly is enabled
and the assembler fails; the assembler is called with the documents the response returns. -/
theorem ProcessQuery_answer (repo : QueryRepo) (startTime processingTime : Int)
    (queryID : String) (req : v1.QueryRequest) (retrieved : List RelatedDocument)
    (hret : repo.RetrieveDocuments req.Query req.Parameters = (retrieved, none)) :
    ∃ resp docs, ProcessQuery repo startTime processingTime queryID req = (some resp, none) ∧
      resp.RelatedDocuments = docs.map toProto ∧
      ((req.Parameters = none ∨ ∃ p, req.Parameters = some p ∧ p.EnableContextAssembly = false) →
        resp.Answer = "请查看相关文档获取信息。") ∧
      (∀ p text, req.Parameters = some p → p.EnableContextAssembly = true →
        repo.AssembleAnswer req.Query docs = (text, none) → resp.Answer = text) ∧
      (∀ p text e, req.Parameters = some p → p.EnableContextAssembly = true →
        repo.AssembleAnswer req.Query docs = (text, some e) →
        resp.Answer = "抱歉，无法生成答案，请查看相关文档。") := by
  obtain ⟨resp, h1, h2, h3, _⟩ :=
    ProcessQuery_eq_stages repo startTime processingTime queryID req retrieved hret
  refine ⟨resp, Spec.rerankStage repo req retrieved, h1, h2, ?_, ?_, ?_⟩
  · rintro (hn | ⟨p, hp, hf⟩)
    · rw [h3]; simp [Spec.answerStage, Spec.assemblyEnabled, hn]
    · rw [h3]; simp [Spec.answerStage, Spec.assemblyEnabled, hp, hf]
  · intro p text hp hf ha
    rw [h3]; simp [Spec.answerStage, Spec.assemblyEnabled, hp, hf, ha]
  · intro p text e hp hf ha
    rw [h3]; simp [Spec.answerStage, Spec.assemblyEnabled, hp, hf, ha]

/-- Witness for C18: with every collaborator after retrieval failing and assembly enabled,
the answer is the apology string. -/
theorem ProcessQuery_answer_witness :
    ∃ resp docs, ProcessQuery (degradedRepo []) 0 5 "q-1" fullRequest = (some resp, none) ∧
      resp.RelatedDocuments = docs.map toProto ∧
      ((fullRequest.Parameters = none ∨
          ∃ p, fullRequest.Parameters = some p ∧ p.EnableContextAssembly = false) →
        resp.Answer = "请查看相关文档获取信息。") ∧
      (∀ p text, fullRequest.Parameters = some p → p.EnableContextAssembly = true →
        (degradedRepo []).AssembleAnswer fullRequest.Query docs = (text, none) →
        resp.Answer = text) ∧
      (∀ p text e, fullRequest.Parameters = some p → p.EnableContextAssembly = true →
        (degradedRepo []).AssembleAnswer fullRequest.Query docs = (text, some e) →
        resp.Answer = "抱歉，无法生成答案，请查看相关文档。") :=
  ProcessQuery_answer (degradedRepo []) 0 5 "q-1" fullRequest [] rfl

/-- C19: when retrieval succeeds, the documents handed to the assembler and returned in the
response are the retrieved documents in their order when reranking is enabled and the
reranker fails, the reranker's output when it is enabled and the reranker succeeds, and the
retrieved documents when reranking is disabled or the parameters are absent, in which case
the outcome does not depend on the reranker at all. -/
theorem ProcessQuery_rerank_fallback (repo : QueryRepo) (startTime processingTime : Int)
    (queryID : String) (req : v1.QueryRequest) (retrieved : List RelatedDocument)
    (hret : repo.RetrieveDocuments req.Query req.Parameters = (retrieved, none)) :
    ∃ resp docs, ProcessQuery repo startTime processingTime queryID req = (some resp, none) ∧
      resp.RelatedDocuments = docs.map toProto ∧
      resp.Answer = Spec.answerStage repo req docs ∧
      (∀ p r e, req.Parameters = some p → p.EnableReranking = true →
        repo.RerankDocuments req.Query retrieved = (r, some e) → docs = retrieved) ∧
      (∀ p r, req.Parameters = some p → p.EnableReranking = true →
        repo.RerankDocuments req.Query retrieved = (r, none) → docs = r) ∧
      ((req.Parameters = none ∨ ∃ p, req.Parameters = some p ∧ p.EnableReranking = false) →
        docs = retrieved ∧
        ∀ rerank, ProcessQuery { repo with RerankDocuments := rerank }
            startTime processingTime queryID req
          = ProcessQuery repo startTime processingTime queryID req) := by
  obtain ⟨resp, h1, h2, h3, _⟩ :=
    ProcessQuery_eq_stages repo startTime processingTime queryID req retrieved hret
  refine ⟨resp, Spec.rerankStage repo req retrieved, h1, h2, h3, ?_, ?_, ?_⟩
  · intro p r e hp hf hr
    simp [Spec.rerankStage, Spec.rerankEnabled, hp, hf, hr]
  · intro p r hp hf hr
    simp [Spec.rerankStage, Spec.rerankEnabled, hp, hf, hr]
  · intro hoff
    have hen : Spec.rerankEnabled req = false := by
      rcases hoff with hn | ⟨p, hp, hf⟩
      · simp [Spec.rerankEnabled, hn]
      · simp [Spec.rerankEnabled, hp, hf]
    refine ⟨by simp [Spec.rerankStage, hen], ?_⟩
    intro rerank
    unfold Spec.rerankEnabled at hen
    cases hpar : req.Parameters with
    | none => simp only [ProcessQuery, hpar]
    | some p =>
      rw [hpar] at hen
      have hf : p.EnableReranking = false := hen
      simp [ProcessQuery, hpar, hf]

/-- Witness for C19: with reranking enabled and a reranker that fails, the response returns
the retrieved documents in their order. -/
theorem ProcessQuery_rerank_fallback_witness :
    ∃ resp, ProcessQuery (degradedRepo data.mockRetrieved) 0 5 "q-1" fullRequest
        = (some resp, none) ∧
      resp.RelatedDocuments = data.mockRetrieved.map toProto := by
  obtain ⟨resp, docs, h1, h2, _, h4, _, _⟩ :=
    ProcessQuery_rerank_fallback (degradedRepo data.mockRetrieved) 0 5 "q-1" fullRequest
      data.mockRetrieved rfl
  have hd : docs = data.mockRetrieved := h4 _ [] "rerank unavailable" rfl rfl rfl
  exact ⟨resp, h1, by rw [h2, hd]⟩

/-- What the statements after the unconditional return of `Login` would yield: a response
with the issued token and the validated user, also when the last-login update fails. -/
theorem loginBody_succeeds (repo : AuthRepo) (req : v1.LoginRequest) (user : User)
    (token : AuthToken)
    (hv : repo.ValidateCredentials req.Username req.Password = (some user, none))
    (hg : repo.GenerateAccessToken (some user) = (some token, none)) :
    loginBody repo req =
      some (some { AccessToken := token.AccessToken, RefreshToken := token.RefreshToken,
                   TokenType := token.TokenType, ExpiresIn := token.ExpiresIn,
                   Scope := token.Scope,
                   UserInfo := { UserId := user.UserID, Username := user.Username,
                                 Email := user.Email, Roles := user.Roles,
                                 Attributes := user.Attributes } }, none) := by
  simp [loginBody, hv, hg]

/-- C20 (failing input): for the user `admin`, whose credentials the collaborator accepts
and for whom it issues a token, `Login` returns no response and the error of its
unconditional early return; the statements behind that return would have produced the
response with the token and the user. -/
theorem Login_returns_early_error :
    acceptingAuthRepo.ValidateCredentials "admin" "password" = (some adminUser, none) ∧
    acceptingAuthRepo.GenerateAccessToken (some adminUser) = (some adminToken, none) ∧
    Login acceptingAuthRepo { Username := "admin", Password := "password" }
      = (none, some errLogin) ∧
    loginBody acceptingAuthRepo { Username := "admin", Password := "password" }
      = some (some { AccessToken := "access", RefreshToken := "refresh",
                     TokenType := "Bearer", ExpiresIn := 3600, Scope := "read write",
                     UserInfo := { UserId := "user-1", Username := "admin", Email := "",
                                   Roles := ["admin", "user"],
                                   Attributes := [("department", "IT"),
                                     ("level", "senior")] } }, none) := by
  decide

end biz

namespace data

open biz

theorem bubblePass_perm {β : Type} (less : β → β → Bool) :
    ∀ (k : Nat) (l : List β), (bubblePass less k l).Perm l := by
  intro k
  induction k with
  | zero => intro l; simp [bubblePass]
  | succ k ih =>
    intro l
    match l with
    | [] => simp [bubblePass]
    | [x] => simp [bubblePass]
    | x :: y :: rest =>
      rw [bubblePass]
      by_cases h : less x y = true
      · simp only [h, if_true]
        exact ((ih (x :: rest)).cons y).trans (List.Perm.swap x y rest)
      · have h' : less x y = false := by simpa using h
        simp only [h', Bool.false_eq_true, if_false]
        exact (ih (y :: rest)).cons x

theorem bubbleLoop_perm {β : Type} (less : β → β → Bool) (n : Nat) :
    ∀ (passes i : Nat) (l : List β), (bubbleLoop less n passes i l).Perm l := by
  intro passes
  induction passes with
  | zero => intro i l; simp [bubbleLoop]
  | succ p ih =>
    intro i l
    rw [bubbleLoop]
    exact (ih (i + 1) _).trans (bubblePass_perm less _ l)

theorem bubbleSort_perm {β : Type} (less : β → β → Bool) (l : List β) :
    (bubbleSort less l).Perm l :=
  bubbleLoop_perm less _ _ _ l

theorem bubblePass_length {β : Type} (less : β → β → Bool) (k : Nat) (l : List β) :
    (bubblePass less k l).length = l.length :=
  (bubblePass_perm less k l).length_eq

theorem bubblePass_map {γ β : Type} (f : γ → β) (less : β → β → Bool) :
    ∀ (k : Nat) (l : List γ),
      bubblePass less k (l.map f) = (bubblePass (fun a b => less (f a) (f b)) k l).map f := by
  intro k
  induction k with
  | zero => intro l; simp [bubblePass]
  | succ k ih =>
    intro l
    match l with
    | [] => simp [bubblePass]
    | [x] => simp [bubblePass]
    | x :: y :: rest =>
      simp only [List.map_cons, bubblePass]
      by_cases h : less (f x) (f y) = true
      · simp only [h, if_true, List.map_cons]
        rw [← ih (x :: rest)]
        rfl
      · have h' : less (f x) (f y) = false := by simpa using h
        simp only [h', Bool.false_eq_true, if_false, List.map_cons]
        rw [← ih (y :: rest)]
        rfl

theorem bubbleLoop_map {γ β : Type} (f : γ → β) (less : β → β → Bool) (n : Nat) :
    ∀ (passes i : Nat) (l : List γ),
      bubbleLoop less n passes i (l.map f)
        = (bubbleLoop (fun a b => less (f a) (f b)) n passes i l).map f := by
  intro passes
  induction passes with
  | zero => intro i l; simp [bubbleLoop]
  | succ p ih =>
    intro i l
    rw [bubbleLoop, bubbleLoop, bubblePass_map, ih]

theorem bubbleSort_map {γ β : Type} (f : γ → β) (less : β → β → Bool) (l : List γ) :
    bubbleSort less (l.map f) = (bubbleSort (fun a b => less (f a) (f b)) l).map f := by
  unfold bubbleSort
  rw [List.length_map, bubbleLoop_map]

/-- Two tests that agree on the members of the list drive the pass the same way. -/
theorem bubblePass_congr {β : Type} (less less2 : β → β → Bool) :
    ∀ (k : Nat) (l : List β), (∀ x ∈ l, ∀ y ∈ l, less x y = less2 x y) →
      bubblePass less k l = bubblePass less2 k l := by
  intro k
  induction k with
  | zero => intro l _; simp [bubblePass]
  | succ k ih =>
    intro l hl
    match l with
    | [] => simp [bubblePass]
    | [x] => simp [bubblePass]
    | x :: y :: rest =>
      rw [bubblePass, bubblePass, ← hl x (by simp) y (by simp)]
      by_cases h : less x y = true
      · simp only [h, if_true]
        rw [ih (x :: rest)]
        intro a ha b hb
        exact hl a (by simp at ha ⊢; tauto) b (by simp at hb ⊢; tauto)
      · have h' : less x y = false := by simpa using h
        simp only [h', Bool.false_eq_true, if_false]
        rw [ih (y :: rest)]
        intro a ha b hb
        exact hl a (List.mem_cons_of_mem _ ha) b (List.mem_cons_of_mem _ hb)

theorem bubbleLoop_congr {β : Type} (less less2 : β → β → Bool) (n : Nat) :
    ∀ (passes i : Nat) (l : List β), (∀ x ∈ l, ∀ y ∈ l, less x y = less2 x y) →
      bubbleLoop less n passes i l = bubbleLoop less2 n passes i l := by
  intro passes
  induction passes with
  | zero => intro i l _; simp [bubbleLoop]
  | succ p ih =>
    intro i l hl
    rw [bubbleLoop, bubbleLoop, ← bubblePass_congr less less2 _ l hl]
    apply ih
    intro x hx y hy
    exact hl x ((bubblePass_perm less _ l).mem_iff.1 hx) y
      ((bubblePass_perm less _ l).mem_iff.1 hy)

/-- A relation that holds between every swapped pair, in its new order, survives a pass. -/
theorem bubblePass_pairwise {β : Type} (less : β → β → Bool) (P : β → β → Prop)
    (hP : ∀ x y, less x y = true → P y x) :
    ∀ (k : Nat) (l : List β), l.Pairwise P → (bubblePass less k l).Pairwise P := by
  intro k
  induction k with
  | zero => intro l h; simpa [bubblePass] using h
  | succ k ih =>
    intro l hl
    match l with
    | [] => simp [bubblePass]
    | [x] => simp [bubblePass]
    | x :: y :: rest =>
      rw [bubblePass]
      rw [List.pairwise_cons, List.pairwise_cons] at hl
      obtain ⟨hx, hy, hrest⟩ := hl
      by_cases h : less x y = true
      · simp only [h, if_true]
        rw [List.pairwise_cons]
        refine ⟨?_, ih (x :: rest) ?_⟩
        · intro z hz
          rcases List.mem_cons.1 ((bubblePass_perm less k (x :: rest)).mem_iff.1 hz) with hzx | hzr
          · rw [hzx]; exact hP x y h
          · exact hy z hzr
        · rw [List.pairwise_cons]
          exact ⟨fun z hz => hx z (List.mem_cons_of_mem _ hz), hrest⟩
      · have h' : less x y = false := by simpa using h
        simp only [h', Bool.false_eq_true, if_false]
        rw [List.pairwise_cons]
        refine ⟨?_, ih (y :: rest) ?_⟩
        · intro z hz
          exact hx z ((bubblePass_perm less k (y :: rest)).mem_iff.1 hz)
        · rw [List.pairwise_cons]
          exact ⟨hy, hrest⟩

theorem bubbleLoop_pairwise {β : Type} (less : β → β → Bool) (P : β → β → Prop)
    (hP : ∀ x y, less x y = true → P y x) (n : Nat) :
    ∀ (passes i : Nat) (l : List β), l.Pairwise P →
      (bubbleLoop less n passes i l).Pairwise P := by
  intro passes
  induction passes with
  | zero => intro i l h; simpa [bubbleLoop] using h
  | succ p ih =>
    intro i l hl
    rw [bubbleLoop]
    exact ih _ _ (bubblePass_pairwise less P hP _ l hl)

end data

namespace data

open biz

/-- A pass over a whole list of `k + 1` elements leaves a least element at the end. -/
theorem bubblePass_last_is_least {β K : Type} [LinearOrder K] (key : β → K) :
    ∀ (k : Nat) (l : List β), l.length = k + 1 →
      ∃ init m, bubblePass (fun a b => decide (key a < key b)) k l = init ++ [m] ∧
        ∀ z ∈ l, key m ≤ key z := by
  intro k
  induction k with
  | zero =>
    intro l hl
    match l, hl with
    | [x], _ => exact ⟨[], x, by simp [bubblePass], by simp⟩
  | succ k ih =>
    intro l hl
    match l, hl with
    | x :: y :: rest, hl =>
      rw [bubblePass]
      by_cases h : key x < key y
      · obtain ⟨init, m, hm, hmin⟩ := ih (x :: rest) (by simpa using hl)
        refine ⟨y :: init, m, by simp [h, hm], ?_⟩
        intro z hz
        have hmx : key m ≤ key x := hmin x (by simp)
        rcases List.mem_cons.1 hz with rfl | hz'
        · exact hmx
        · rcases List.mem_cons.1 hz' with rfl | hz''
          · exact le_of_lt (lt_of_le_of_lt hmx h)
          · exact hmin z (List.mem_cons_of_mem _ hz'')
      · obtain ⟨init, m, hm, hmin⟩ := ih (y :: rest) (by simpa using hl)
        refine ⟨x :: init, m, by simp [h, hm], ?_⟩
        intro z hz
        have hmy : key m ≤ key y := hmin y (by simp)
        rcases List.mem_cons.1 hz with rfl | hz'
        · exact le_trans hmy (not_lt.1 h)
        · exact hmin z hz'

/-- A pass with `k` comparisons touches only the first `k + 1` elements. -/
theorem bubblePass_append {β : Type} (less : β → β → Bool) :
    ∀ (k : Nat) (pre suf : List β), pre.length = k + 1 →
      bubblePass less k (pre ++ suf) = bubblePass less k pre ++ suf := by
  intro k
  induction k with
  | zero => intro pre suf _; simp [bubblePass]
  | succ k ih =>
    intro pre suf hl
    match pre, hl with
    | x :: y :: rest, hl =>
      simp only [List.cons_append, bubblePass]
      have e1 := ih (x :: rest) suf (by simpa using hl)
      have e2 := ih (y :: rest) suf (by simpa using hl)
      simp only [List.cons_append] at e1 e2
      by_cases h : less x y = true
      · simp only [h, if_true]
        exact congrArg (fun t => y :: t) e1
      · have h' : less x y = false := by simpa using h
        simp only [h', Bool.false_eq_true, if_false]
        exact congrArg (fun t => x :: t) e2

/-- The outer loop keeps a sorted tail of least elements and ends with a sorted list. -/
theorem bubbleLoop_sorted {β K : Type} [LinearOrder K] (key : β → K) (n : Nat) :
    ∀ (passes i : Nat) (pre suf : List β), pre.length = passes + 1 →
      n = pre.length + suf.length → i = suf.length →
      suf.Pairwise (fun a b => key b ≤ key a) →
      (∀ x ∈ pre, ∀ y ∈ suf, key y ≤ key x) →
      (bubbleLoop (fun a b => decide (key a < key b)) n passes i (pre ++ suf)).Pairwise
        (fun a b => key b ≤ key a) := by
  intro passes
  induction passes with
  | zero =>
    intro i pre suf hpre _ _ hs hps
    match pre, hpre with
    | [a], _ =>
      simp only [bubbleLoop, List.singleton_append, List.pairwise_cons]
      exact ⟨fun y hy => hps a (by simp) y hy, hs⟩
  | succ p ih =>
    intro i pre suf hpre hn hi hs hps
    rw [bubbleLoop]
    have hk : n - i - 1 = p + 1 := by omega
    rw [hk, bubblePass_append _ _ pre suf hpre]
    obtain ⟨init, m, hm, hmin⟩ := bubblePass_last_is_least key (p + 1) pre hpre
    have hperm := bubblePass_perm (fun a b => decide (key a < key b)) (p + 1) pre
    rw [hm] at hperm ⊢
    have hlen : init.length = p + 1 := by
      have := hperm.length_eq
      simp only [List.length_append, List.length_singleton] at this
      omega
    have hmem : ∀ z, z ∈ init ++ [m] → z ∈ pre := fun z hz => hperm.mem_iff.1 hz
    rw [List.append_assoc]
    apply ih (i + 1) init ([m] ++ suf) hlen
    · simp only [List.length_append, List.length_singleton]; omega
    · simp only [List.length_append, List.length_singleton]; omega
    · simp only [List.singleton_append, List.pairwise_cons]
      exact ⟨fun y hy => hps m (hmem m (by simp)) y hy, hs⟩
    · intro x hx y hy
      rcases List.mem_append.1 hy with hy1 | hy2
      · rw [List.mem_singleton.1 hy1]
        exact hmin x (hmem x (by simp [hx]))
      · exact hps x (hmem x (by simp [hx])) y hy2

theorem bubbleSort_sorted {β K : Type} [LinearOrder K] (key : β → K) (l : List β) :
    (bubbleSort (fun a b => decide (key a < key b)) l).Pairwise
      (fun a b => key b ≤ key a) := by
  unfold bubbleSort
  match l with
  | [] => simp [bubbleLoop]
  | x :: rest =>
    have h := bubbleLoop_sorted key (x :: rest).length ((x :: rest).length - 1) 0
      (x :: rest) [] (by simp) (by simp) (by simp) List.Pairwise.nil (by simp)
    simpa using h

end data

namespace Go

theorem scaled_cast (m e k : Int) (hk : k ≤ e) :
    ((m * 2 ^ (e - k).toNat : Int) : ℚ) = ((m : ℚ) * (2 : ℚ) ^ e) * (2 : ℚ) ^ (-k) := by
  have h2 : (2 : ℚ) ≠ 0 := by norm_num
  have hnat : (((e - k).toNat : Nat) : Int) = e - k := Int.toNat_of_nonneg (by omega)
  have hp : (2 : ℚ) ^ (e - k).toNat = (2 : ℚ) ^ (e - k) := by
    rw [← hnat, zpow_natCast, hnat]
  push_cast
  rw [hp, mul_assoc, ← zpow_add₀ h2]
  congr 2

theorem scaled_lt_iff (m e n f : Int) :
    m * 2 ^ (e - min e f).toNat < n * 2 ^ (f - min e f).toNat ↔
      (m : ℚ) * (2 : ℚ) ^ e < (n : ℚ) * (2 : ℚ) ^ f := by
  have hc : (0 : ℚ) < (2 : ℚ) ^ (-(min e f)) := zpow_pos (by norm_num) _
  rw [← Int.cast_lt (R := ℚ), scaled_cast m e _ (min_le_left e f),
    scaled_cast n f _ (min_le_right e f), mul_lt_mul_right hc]

theorem scaled_eq_iff (m e n f : Int) :
    m * 2 ^ (e - min e f).toNat = n * 2 ^ (f - min e f).toNat ↔
      (m : ℚ) * (2 : ℚ) ^ e = (n : ℚ) * (2 : ℚ) ^ f := by
  have hc : (2 : ℚ) ^ (-(min e f)) ≠ 0 := ne_of_gt (zpow_pos (by norm_num) _)
  rw [← Int.cast_inj (α := ℚ), scaled_cast m e _ (min_le_left e f),
    scaled_cast n f _ (min_le_right e f), mul_left_inj' hc]

theorem Float32.lt_iff_key (a b : Float32) (ha : a.isNaN = false) (hb : b.isNaN = false) :
    Float32.lt a b = true ↔ Float32.key a < Float32.key b := by
  cases a with
  | nan => simp [Float32.isNaN] at ha
  | inf s =>
    cases b with
    | nan => simp [Float32.isNaN] at hb
    | inf t => cases s <;> cases t <;> simp [Float32.lt, Float32.cmp, Float32.key]
    | fin n f =>
      cases s with
      | false => simp [Float32.lt, Float32.cmp, Float32.key]
      | true =>
        simp only [Float32.lt, Float32.cmp, Float32.key, if_true, true_iff]
        exact WithBot.bot_lt_coe _
  | fin m e =>
    cases b with
    | nan => simp [Float32.isNaN] at hb
    | inf t =>
      cases t with
      | true => simp [Float32.lt, Float32.cmp, Float32.key]
      | false =>
        simp only [Float32.lt, Float32.cmp, Float32.key, Bool.false_eq_true, if_false,
          true_iff]
        exact WithBot.coe_lt_coe.2 (WithTop.coe_lt_top _)
    | fin n f =>
      have h := scaled_lt_iff m e n f
      simp only [Float32.lt, Float32.cmp, Float32.key, WithBot.coe_lt_coe, WithTop.coe_lt_coe]
      rw [← h]
      rcases hcmp : compare (m * 2 ^ (e - min e f).toNat) (n * 2 ^ (f - min e f).toNat)
        with _ | _ | _
      · simpa using compare_lt_iff_lt.1 hcmp
      · have := compare_eq_iff_eq.1 hcmp
        simp [this]
      · have := compare_gt_iff_gt.1 hcmp
        simp
        omega

theorem Float32.cmp_eq_of_key_eq (a b : Float32) (ha : a.isNaN = false)
    (hb : b.isNaN = false) (h : Float32.key a = Float32.key b) :
    Float32.cmp a b = some .eq := by
  cases a with
  | nan => simp [Float32.isNaN] at ha
  | inf s =>
    cases b with
    | nan => simp [Float32.isNaN] at hb
    | inf t =>
      cases s <;> cases t <;> simp [Float32.cmp, Float32.key] at h ⊢
    | fin n f =>
      cases s with
      | false =>
        simp only [Float32.key] at h
        exact absurd (WithBot.coe_injective h) (WithTop.top_ne_coe)
      | true =>
        simp only [Float32.key] at h
        exact absurd h WithBot.bot_ne_coe
  | fin m e =>
    cases b with
    | nan => simp [Float32.isNaN] at hb
    | inf t =>
      cases t with
      | false =>
        simp only [Float32.key] at h
        exact absurd (WithBot.coe_injective h) (WithTop.coe_ne_top)
      | true =>
        simp only [Float32.key] at h
        exact absurd h WithBot.coe_ne_bot
    | fin n f =>
      simp only [Float32.key] at h
      have hq : (m : ℚ) * (2 : ℚ) ^ e = (n : ℚ) * (2 : ℚ) ^ f :=
        WithTop.coe_injective (WithBot.coe_injective h)
      have hz := (scaled_eq_iff m e n f).2 hq
      simp only [Float32.cmp, Option.some.injEq]
      exact compare_eq_iff_eq.2 hz

end Go

namespace data

open biz

/-- The rescaling loop writes scores only: every other field of every document is kept. -/
theorem decayLoop_keeps_fields (arith : Go.Float32Arith) (l : List Go.Ptr) :
    ∀ (i : Nat) (heap : Go.Ptr → RelatedDocument) (p : Go.Ptr),
      (decayLoop arith i l heap p).DocumentID = (heap p).DocumentID ∧
      (decayLoop arith i l heap p).Title = (heap p).Title ∧
      (decayLoop arith i l heap p).Snippet = (heap p).Snippet ∧
      (decayLoop arith i l heap p).DocumentType = (heap p).DocumentType ∧
      (decayLoop arith i l heap p).Chunks = (heap p).Chunks := by
  induction l with
  | nil => intro i heap p; exact ⟨rfl, rfl, rfl, rfl, rfl⟩
  | cons doc rest ih =>
    intro i heap p
    rw [decayLoop]
    obtain ⟨h1, h2, h3, h4, h5⟩ := ih (i + 1) (Go.store heap doc
        { heap doc with
          RelevanceScore :=
            arith.mul (heap doc).RelevanceScore
              (arith.sub Go.Float32.one (arith.mul (arith.ofInt i) Go.Float32.hundredth)) }) p
    rw [h1, h2, h3, h4, h5]
    by_cases hp : p = doc
    · subst hp
      simp [Go.store]
    · simp [Go.store, hp]

theorem decayLoop_DocumentID (arith : Go.Float32Arith) (l : List Go.Ptr) (i : Nat)
    (heap : Go.Ptr → RelatedDocument) (p : Go.Ptr) :
    (decayLoop arith i l heap p).DocumentID = (heap p).DocumentID :=
  (decayLoop_keeps_fields arith l i heap p).1

/-- C15: `RerankDocuments` returns a slice of the same length holding the same pointers as
the input, each as often as in the input, and the multiset of document ids read through the
returned pointers after the call equals that of the input before it; the error is nil. -/
theorem RerankDocuments_permutes (arith : Go.Float32Arith) (heap : Go.Ptr → RelatedDocument)
    (query : String) (documents : List Go.Ptr) :
    (RerankDocuments arith heap query documents).1.length = documents.length ∧
    (RerankDocuments arith heap query documents).1.Perm documents ∧
    (Multiset.ofList ((RerankDocuments arith heap query documents).1.map
        (fun p => ((RerankDocuments arith heap query documents).2.1 p).DocumentID))
      = Multiset.ofList (documents.map (fun p => (heap p).DocumentID))) ∧
    (RerankDocuments arith heap query documents).2.2 = none := by
  have hperm : (RerankDocuments arith heap query documents).1.Perm documents :=
    bubbleSort_perm _ documents
  refine ⟨hperm.length_eq, hperm, ?_, rfl⟩
  rw [Multiset.coe_eq_coe]
  have hfun : (fun p => ((RerankDocuments arith heap query documents).2.1 p).DocumentID)
      = (fun p => (heap p).DocumentID) := by
    funext p
    exact decayLoop_DocumentID arith _ 0 heap p
  rw [hfun]
  exact hperm.map _

end data

namespace data

open biz

/-- C16 (counterexample): with scores 1, NaN, 2 no comparison against the NaN is true, the
bubble sort swaps nothing, and the document with score 1 is returned before the document
with the larger score 2: the returned order is not descending. -/
theorem RerankDocuments_nan_unsorted_counterexample :
    (RerankDocuments Go.unroundedArith (heapOfScores [.fin 1 0, .nan, .fin 2 0])
        "machine learning" [0, 1, 2]).1 = [0, 1, 2] ∧
    Go.Float32.lt (heapOfScores [.fin 1 0, .nan, .fin 2 0] 0).RelevanceScore
      (heapOfScores [.fin 1 0, .nan, .fin 2 0] 2).RelevanceScore = true := by
  decide

/-- C16 (amended): when no input score is NaN, the order in which `RerankDocuments` returns
the documents is the input sorted by descending input score with ties kept in their
original order: the returned slice is the input, each element tagged with its input
position, rearranged so that of any two elements the later one has a strictly smaller
input score, or an equal score and a larger input position. -/
theorem RerankDocuments_stable_descending (arith : Go.Float32Arith)
    (heap : Go.Ptr → RelatedDocument) (query : String) (documents : List Go.Ptr)
    (hnan : ∀ p ∈ documents, (heap p).RelevanceScore.isNaN = false) :
    ∃ t : List (Nat × Go.Ptr),
      t.Perm documents.enum ∧
      t.map Prod.snd = (RerankDocuments arith heap query documents).1 ∧
      t.Pairwise (fun a b =>
        Go.Float32.lt (heap b.2).RelevanceScore (heap a.2).RelevanceScore = true ∨
        (Go.Float32.cmp (heap a.2).RelevanceScore (heap b.2).RelevanceScore = some .eq ∧
          a.1 < b.1)) := by
  let less : Go.Ptr → Go.Ptr → Bool :=
    fun x y => Go.Float32.lt (heap x).RelevanceScore (heap y).RelevanceScore
  let lessT : Nat × Go.Ptr → Nat × Go.Ptr → Bool := fun a b => less a.2 b.2
  let keyT : Nat × Go.Ptr → WithBot (WithTop ℚ) :=
    fun a => Go.Float32.key (heap a.2).RelevanceScore
  have hperm : (bubbleSort lessT documents.enum).Perm documents.enum :=
    bubbleSort_perm lessT _
  have hmemdoc : ∀ a ∈ documents.enum, a.2 ∈ documents := by
    intro a ha
    have : a.2 ∈ documents.enum.map Prod.snd := List.mem_map_of_mem _ ha
    rwa [List.enum_map_snd] at this
  have hclean : ∀ a ∈ bubbleSort lessT documents.enum,
      (heap a.2).RelevanceScore.isNaN = false :=
    fun a ha => hnan _ (hmemdoc a (hperm.mem_iff.1 ha))
  refine ⟨bubbleSort lessT documents.enum, hperm, ?_, ?_⟩
  · have h := bubbleSort_map (Prod.snd : Nat × Go.Ptr → Go.Ptr) less documents.enum
    rw [List.enum_map_snd] at h
    exact h.symm
  · have hstable : (bubbleSort lessT documents.enum).Pairwise
        (fun a b => lessT b a = true ∨ a.1 < b.1) := by
      apply bubbleLoop_pairwise lessT _ (fun x y h => Or.inl h)
      have hidx : documents.enum.Pairwise (fun a b => a.1 < b.1) := by
        have := List.pairwise_lt_range documents.length
        rw [← List.enum_map_fst, List.pairwise_map] at this
        exact this
      exact hidx.imp (fun h => Or.inr h)
    have hagree : ∀ x ∈ documents.enum, ∀ y ∈ documents.enum,
        lessT x y = decide (keyT x < keyT y) := by
      intro x hx y hy
      have h := Go.Float32.lt_iff_key (heap x.2).RelevanceScore (heap y.2).RelevanceScore
        (hnan _ (hmemdoc x hx)) (hnan _ (hmemdoc y hy))
      by_cases hk : keyT x < keyT y
      · simp only [hk, decide_True]
        exact h.2 hk
      · simp only [hk, decide_False]
        by_contra hne
        exact hk (h.1 (by simpa using hne))
    have hsorted : (bubbleSort lessT documents.enum).Pairwise
        (fun a b => keyT b ≤ keyT a) := by
      have h := bubbleSort_sorted keyT documents.enum
      have hc : bubbleSort lessT documents.enum
          = bubbleSort (fun a b => decide (keyT a < keyT b)) documents.enum :=
        bubbleLoop_congr lessT _ _ _ _ documents.enum hagree
      rw [hc]
      exact h
    refine (hsorted.and hstable).imp_of_mem ?_
    intro a b ha hb hab
    obtain ⟨hle, hor⟩ := hab
    rcases hor with hlt | hidx
    · exact Or.inl hlt
    · by_cases hlt : lessT b a = true
      · exact Or.inl hlt
      · right
        refine ⟨?_, hidx⟩
        have hnlt : ¬ keyT b < keyT a := fun hk =>
          hlt ((Go.Float32.lt_iff_key _ _ (hclean b hb) (hclean a ha)).2 hk)
        exact Go.Float32.cmp_eq_of_key_eq _ _ (hclean a ha) (hclean b hb)
          (le_antisymm (not_lt.1 hnlt) hle)

/-- Witness for C16 (amended): scores 1, 3, 2, 3 come back in the order 3, 3, 2, 1, the two
documents with score 3 in their input order. -/
theorem RerankDocuments_stable_descending_witness :
    (∀ p ∈ [0, 1, 2, 3],
      (heapOfScores [.fin 1 0, .fin 3 0, .fin 2 0, .fin 3 0] p).RelevanceScore.isNaN = false) ∧
    (RerankDocuments Go.unroundedArith (heapOfScores [.fin 1 0, .fin 3 0, .fin 2 0, .fin 3 0])
        "machine learning" [0, 1, 2, 3]).1 = [1, 3, 2, 0] ∧
    ∃ t : List (Nat × Go.Ptr),
      t.Perm [0, 1, 2, 3].enum ∧
      t.map Prod.snd = (RerankDocuments Go.unroundedArith
        (heapOfScores [.fin 1 0, .fin 3 0, .fin 2 0, .fin 3 0])
        "machine learning" [0, 1, 2, 3]).1 ∧
      t.Pairwise (fun a b =>
        Go.Float32.lt
            (heapOfScores [.fin 1 0, .fin 3 0, .fin 2 0, .fin 3 0] b.2).RelevanceScore
            (heapOfScores [.fin 1 0, .fin 3 0, .fin 2 0, .fin 3 0] a.2).RelevanceScore = true ∨
        (Go.Float32.cmp
            (heapOfScores [.fin 1 0, .fin 3 0, .fin 2 0, .fin 3 0] a.2).RelevanceScore
            (heapOfScores [.fin 1 0, .fin 3 0, .fin 2 0, .fin 3 0] b.2).RelevanceScore
              = some .eq ∧
          a.1 < b.1)) :=
  ⟨by decide, by decide,
   RerankDocuments_stable_descending Go.unroundedArith
     (heapOfScores [.fin 1 0, .fin 3 0, .fin 2 0, .fin 3 0]) "machine learning" [0, 1, 2, 3]
     (by decide)⟩

end data

namespace data

open biz

/-- The rescaling loop leaves a document alone when no pointer of the slice leads to it. -/
theorem decayLoop_of_not_mem (arith : Go.Float32Arith) (l : List Go.Ptr) :
    ∀ (i : Nat) (heap : Go.Ptr → RelatedDocument) (p : Go.Ptr), p ∉ l →
      decayLoop arith i l heap p = heap p := by
  induction l with
  | nil => intro i heap p _; rfl
  | cons doc rest ih =>
    intro i heap p hp
    rw [decayLoop, ih (i + 1) _ p (fun h => hp (List.mem_cons_of_mem _ h))]
    have hne : p ≠ doc := fun h => hp (h ▸ List.mem_cons_self _ _)
    simp [Go.store, hne]

/-- Over a slice of distinct pointers the loop rescales the document at position `j` once,
by the factor of index `i + j`. -/
theorem decayLoop_at_rank (arith : Go.Float32Arith) (l : List Go.Ptr) :
    ∀ (i : Nat) (heap : Go.Ptr → RelatedDocument), l.Nodup →
      ∀ (j : Nat) (p : Go.Ptr), l[j]? = some p →
        (decayLoop arith i l heap p).RelevanceScore =
          arith.mul (heap p).RelevanceScore
            (arith.sub Go.Float32.one
              (arith.mul (arith.ofInt ((i + j : Nat) : Int)) Go.Float32.hundredth)) := by
  induction l with
  | nil => intro i heap _ j p hj; simp at hj
  | cons doc rest ih =>
    intro i heap hnd j p hj
    rw [List.nodup_cons] at hnd
    rw [decayLoop]
    cases j with
    | zero =>
      simp only [List.getElem?_cons_zero, Option.some.injEq] at hj
      subst hj
      rw [decayLoop_of_not_mem arith rest (i + 1) _ doc hnd.1]
      simp [Go.store]
    | succ j =>
      simp only [List.getElem?_cons_succ] at hj
      have hmem : p ∈ rest := List.mem_iff_getElem?.2 ⟨j, hj⟩
      have hne : p ≠ doc := fun h => hnd.1 (h ▸ hmem)
      rw [ih (i + 1) _ hnd.2 j p hj]
      have hidx : i + 1 + j = i + (j + 1) := by omega
      simp [Go.store, hne, hidx]

/-- C17: for an input slice of distinct documents, the document `RerankDocuments` places at
0-based rank `i` leaves with its input score multiplied, in `float32`, by
`1.0 - float32(i)*0.01`, the factor being applied once, after sorting; for two documents
with scores 0.88 and 0.95 the returned order is the 0.95 document then the 0.88 document,
with scores equal to `0.95 * 1.0` and `0.88 * 0.99` as `float32` products. -/
theorem RerankDocuments_decays_by_rank (arith : Go.Float32Arith)
    (heap : Go.Ptr → RelatedDocument) (query : String) (documents : List Go.Ptr)
    (hd : documents.Nodup) :
    (∀ (i : Nat) (p : Go.Ptr), (RerankDocuments arith heap query documents).1[i]? = some p →
      ((RerankDocuments arith heap query documents).2.1 p).RelevanceScore =
        arith.mul (heap p).RelevanceScore
          (arith.sub Go.Float32.one
            (arith.mul (arith.ofInt (i : Int)) Go.Float32.hundredth))) ∧
    ((RerankDocuments Go.ieeeArith (heapOfScores [.fin 14763950 (-24), .fin 15938355 (-24)])
        "machine learning" [0, 1]).1 = [1, 0] ∧
     Go.Float32.cmp
        ((RerankDocuments Go.ieeeArith (heapOfScores [.fin 14763950 (-24), .fin 15938355 (-24)])
          "machine learning" [0, 1]).2.1 1).RelevanceScore
        (Go.ieeeArith.mul (.fin 15938355 (-24)) Go.Float32.one) = some .eq ∧
     Go.Float32.cmp
        ((RerankDocuments Go.ieeeArith (heapOfScores [.fin 14763950 (-24), .fin 15938355 (-24)])
          "machine learning" [0, 1]).2.1 0).RelevanceScore
        (Go.ieeeArith.mul (.fin 14763950 (-24)) (.fin 16609444 (-24))) = some .eq) := by
  constructor
  · intro i p hi
    have hnd : (RerankDocuments arith heap query documents).1.Nodup :=
      (bubbleSort_perm _ documents).nodup_iff.2 hd
    have h := decayLoop_at_rank arith _ 0 heap hnd i p hi
    simpa using h
  · decide

/-- Witness for C17: three distinct documents with scores 1, 3, 2 come back in the order
3, 2, 1 and the last one, at rank 2, carries its score times `1.0 - float32(2)*0.01`. -/
theorem RerankDocuments_decays_by_rank_witness :
    ([0, 1, 2] : List Go.Ptr).Nodup ∧
    (RerankDocuments Go.ieeeArith (heapOfScores [.fin 1 0, .fin 3 0, .fin 2 0])
        "machine learning" [0, 1, 2]).1[2]? = some 0 ∧
    ((RerankDocuments Go.ieeeArith (heapOfScores [.fin 1 0, .fin 3 0, .fin 2 0])
        "machine learning" [0, 1, 2]).2.1 0).RelevanceScore =
      Go.ieeeArith.mul (heapOfScores [.fin 1 0, .fin 3 0, .fin 2 0] 0).RelevanceScore
        (Go.ieeeArith.sub Go.Float32.one
          (Go.ieeeArith.mul (Go.ieeeArith.ofInt ((2 : Nat) : Int)) Go.Float32.hundredth)) :=
  ⟨by decide, by decide,
   (RerankDocuments_decays_by_rank Go.ieeeArith (heapOfScores [.fin 1 0, .fin 3 0, .fin 2 0])
      "machine learning" [0, 1, 2] (by decide)).1 2 0 (by decide)⟩

end data

namespace Go

theorem digitChar_isDigit (d : Nat) (h : d < 10) : (digitChar d).isDigit = true := by
  have hall : ∀ k, k < 10 → (digitChar k).isDigit = true := by decide
  exact hall d h

theorem fixedDigits_spec (width : Nat) :
    ∀ n, (fixedDigits width n).length = width ∧
      ∀ c ∈ fixedDigits width n, c.isDigit = true := by
  induction width with
  | zero => intro n; simp [fixedDigits]
  | succ w ih =>
    intro n
    obtain ⟨h1, h2⟩ := ih (n / 10)
    refine ⟨by simp [fixedDigits, h1], ?_⟩
    intro c hc
    simp only [fixedDigits, List.mem_append, List.mem_singleton] at hc
    rcases hc with hc | hc
    · exact h2 c hc
    · rw [hc]
      exact digitChar_isDigit _ (Nat.mod_lt _ (by decide))

theorem zeroPad_spec (width n : Nat) (h : n < 10 ^ width) :
    (zeroPad width n).length = width ∧ ∀ c ∈ zeroPad width n, c.isDigit = true := by
  simp only [zeroPad, h, if_true]
  exact fixedDigits_spec width n

/-- A valid reading with a year from 0 to 9999 is formatted as fourteen digits. -/
theorem format_fourteen_digits (t : CivilTime) (hv : t.valid) (hy0 : 0 ≤ t.Year)
    (hy1 : t.Year ≤ 9999) :
    (format20060102150405 t).length = 14 ∧
      ∀ c ∈ (format20060102150405 t).data, c.isDigit = true := by
  obtain ⟨hm1, hm2, hd1, hd2, hh, hmi, hs⟩ := hv
  have hneg : ¬ t.Year < 0 := by omega
  have y := zeroPad_spec 4 t.Year.toNat (by norm_num; omega)
  have mo := zeroPad_spec 2 t.Month (by norm_num; omega)
  have d := zeroPad_spec 2 t.Day (by norm_num; omega)
  have h := zeroPad_spec 2 t.Hour (by norm_num; omega)
  have mi := zeroPad_spec 2 t.Minute (by norm_num; omega)
  have s := zeroPad_spec 2 t.Second (by norm_num; omega)
  constructor
  · simp only [format20060102150405, hneg, if_false, String.length, List.length_append,
      y.1, mo.1, d.1, h.1, mi.1, s.1]
  · intro c hc
    simp only [format20060102150405, hneg, if_false, List.mem_append] at hc
    rcases hc with ((((hc | hc) | hc) | hc) | hc) | hc
    · exact y.2 c hc
    · exact mo.2 c hc
    · exact d.2 c hc
    · exact h.2 c hc
    · exact mi.2 c hc
    · exact s.2 c hc

end Go

namespace biz

theorem charset_isAlphanum : ∀ c ∈ charset.data, c.isAlphanum = true := by decide

/-- With non-negative clock readings the loop never panics and fills every byte from the
character set. -/
theorem randomStringLoop_spec (nanos : Nat → Int) (hn : ∀ i, 0 ≤ nanos i) (remaining : Nat) :
    ∀ i, ∃ b, randomStringLoop nanos remaining i = some b ∧ b.length = remaining ∧
      ∀ c ∈ b, c ∈ charset.data := by
  induction remaining with
  | zero => intro i; exact ⟨[], rfl, rfl, by simp⟩
  | succ k ih =>
    intro i
    obtain ⟨rest, hr, hlen, hmem⟩ := ih (i + 1)
    have hlen64 : Go.toInt64 (charset.length : Int) = 62 := by decide
    have hidx0 : 0 ≤ Int.tmod (nanos i) 62 := Int.tmod_nonneg _ (hn i)
    have hidx1 : Int.tmod (nanos i) 62 < 62 := Int.tmod_lt_of_pos _ (by decide)
    have hlt : (Int.tmod (nanos i) 62).toNat < charset.data.length := by
      have : charset.data.length = 62 := by decide
      omega
    refine ⟨charset.data[(Int.tmod (nanos i) 62).toNat] :: rest, ?_, by simp [hlen], ?_⟩
    · simp only [randomStringLoop, hlen64, hidx0, if_true, List.getElem?_eq_getElem hlt, hr]
    · intro c hc
      rcases List.mem_cons.1 hc with rfl | hc'
      · exact List.getElem_mem _
      · exact hmem c hc'

end biz

namespace biz

/-- C24: when the save succeeds, a failing preprocessor call makes `UploadDocument` return a
response with the generated id and upload status `failed` together with the preprocessor's
error, and a succeeding one makes it return the generated id with status `processing`, the
preprocessor's percentage, stage and message, and no error. -/
theorem UploadDocument_after_save (repo : DocumentRepo) (documentID : String)
    (createdAt updatedAt : Int) (req : v1.UploadDocumentRequest)
    (hsave : repo.SaveDocument (uploadRecord documentID createdAt updatedAt req) = none) :
    (∀ p err, repo.CallPreprocessorService req.FileContent req.ProcessingOptions = (p, some err) →
      ∃ resp, UploadDocument repo documentID createdAt updatedAt req = some (some resp, some err) ∧
        resp.DocumentId = documentID ∧ resp.UploadStatus = "failed") ∧
    (∀ progress,
      repo.CallPreprocessorService req.FileContent req.ProcessingOptions = (some progress, none) →
      ∃ resp, UploadDocument repo documentID createdAt updatedAt req = some (some resp, none) ∧
        resp.DocumentId = documentID ∧ resp.UploadStatus = "processing" ∧
        resp.Progress = some { ProgressPercentage := progress.ProgressPercentage,
                               CurrentStage := progress.CurrentStage,
                               StatusMessage := progress.StatusMessage }) := by
  constructor
  · intro p err hp
    simp [UploadDocument, hsave, hp]
  · intro progress hp
    simp [UploadDocument, hsave, hp]

/-- Witness for C24: with a working store the upload of the untitled document reports
`processing`, and with a failing preprocessor it reports `failed` with the id. -/
theorem UploadDocument_after_save_witness :
    (∃ resp, UploadDocument
        (workingStore bareDocument ⟨0, 0, 0, 0, 0⟩ parsingProgress (some "preprocessor down"))
        "doc-20240101120000-abcdefgh" 0 0 untitledUpload
          = some (some resp, some "preprocessor down") ∧
        resp.DocumentId = "doc-20240101120000-abcdefgh" ∧ resp.UploadStatus = "failed") ∧
    (∃ resp, UploadDocument (workingStore bareDocument ⟨0, 0, 0, 0, 0⟩ parsingProgress none)
        "doc-20240101120000-abcdefgh" 0 0 untitledUpload = some (some resp, none) ∧
        resp.DocumentId = "doc-20240101120000-abcdefgh" ∧ resp.UploadStatus = "processing" ∧
        resp.Progress = some { ProgressPercentage := parsingProgress.ProgressPercentage,
                               CurrentStage := parsingProgress.CurrentStage,
                               StatusMessage := parsingProgress.StatusMessage }) :=
  ⟨(UploadDocument_after_save
      (workingStore bareDocument ⟨0, 0, 0, 0, 0⟩ parsingProgress (some "preprocessor down"))
      "doc-20240101120000-abcdefgh" 0 0 untitledUpload rfl).1
      none "preprocessor down" rfl,
   (UploadDocument_after_save (workingStore bareDocument ⟨0, 0, 0, 0, 0⟩ parsingProgress none)
      "doc-20240101120000-abcdefgh" 0 0 untitledUpload rfl).2
      parsingProgress rfl⟩

/-- C25 (counterexample): when the document save fails, `UploadDocument` returns the error
with no response at all, so no document id and no `failed` status reach the caller. -/
theorem UploadDocument_save_failure_counterexample :
    UploadDocument (failingStore "store down" bareDocument parsingProgress)
      "doc-20240101120000-abcdefgh" 0 0 untitledUpload = some (none, some "store down") := by
  decide

/-- C25 (amended): whenever `UploadDocument` returns an error, either the save failed and the
response is nil, the error being the save's, or the save succeeded, the preprocessing failed
with that error, and the response carries the generated document id with upload status
`failed`. -/
theorem UploadDocument_error_cases (repo : DocumentRepo) (documentID : String)
    (createdAt updatedAt : Int) (req : v1.UploadDocumentRequest)
    (resp : Option v1.UploadDocumentResponse) (err : Go.Error)
    (h : UploadDocument repo documentID createdAt updatedAt req = some (resp, some err)) :
    (resp = none ∧
      repo.SaveDocument (uploadRecord documentID createdAt updatedAt req) = some err) ∨
    (repo.SaveDocument (uploadRecord documentID createdAt updatedAt req) = none ∧
      (repo.CallPreprocessorService req.FileContent req.ProcessingOptions).2 = some err ∧
      ∃ r, resp = some r ∧ r.DocumentId = documentID ∧ r.UploadStatus = "failed") := by
  unfold UploadDocument at h
  simp only at h
  split at h
  · rename_i e hs
    simp only [Option.some.injEq, Prod.mk.injEq] at h
    left
    exact ⟨h.1.symm, by rw [hs, h.2]⟩
  · rename_i hs
    right
    refine ⟨hs, ?_⟩
    split at h
    · rename_i p e hp
      simp only [Option.some.injEq, Prod.mk.injEq] at h
      refine ⟨by rw [hp, ← h.2], _, h.1.symm, rfl, rfl⟩
    · exact absurd h (by simp)
    · simp at h

/-- Witness for C25 (amended): a failing preprocessor after a successful save gives the
`failed` response with the id, which is the second case. -/
theorem UploadDocument_error_cases_witness :
    UploadDocument
        (workingStore bareDocument ⟨0, 0, 0, 0, 0⟩ parsingProgress (some "preprocessor down"))
        "doc-20240101120000-abcdefgh" 0 0 untitledUpload
      = some (some { DocumentId := "doc-20240101120000-abcdefgh", UploadStatus := "failed",
                     Progress := none,
                     DocumentInfo :=
                       some (uploadInfo "doc-20240101120000-abcdefgh" untitledUpload) },
              some "preprocessor down") ∧
    (((some { DocumentId := "doc-20240101120000-abcdefgh", UploadStatus := "failed",
              Progress := none,
              DocumentInfo := some (uploadInfo "doc-20240101120000-abcdefgh" untitledUpload) }
          : Option v1.UploadDocumentResponse) = none ∧
      (workingStore bareDocument ⟨0, 0, 0, 0, 0⟩ parsingProgress
          (some "preprocessor down")).SaveDocument
        (uploadRecord "doc-20240101120000-abcdefgh" 0 0 untitledUpload)
          = some "preprocessor down") ∨
     ((workingStore bareDocument ⟨0, 0, 0, 0, 0⟩ parsingProgress
          (some "preprocessor down")).SaveDocument
        (uploadRecord "doc-20240101120000-abcdefgh" 0 0 untitledUpload) = none ∧
      ((workingStore bareDocument ⟨0, 0, 0, 0, 0⟩ parsingProgress
          (some "preprocessor down")).CallPreprocessorService
        untitledUpload.FileContent untitledUpload.ProcessingOptions).2
          = some "preprocessor down" ∧
      ∃ r, (some { DocumentId := "doc-20240101120000-abcdefgh", UploadStatus := "failed",
                   Progress := none,
                   DocumentInfo :=
                     some (uploadInfo "doc-20240101120000-abcdefgh" untitledUpload) }
              : Option v1.UploadDocumentResponse) = some r ∧
        r.DocumentId = "doc-20240101120000-abcdefgh" ∧ r.UploadStatus = "failed")) :=
  ⟨by decide,
   UploadDocument_error_cases
    (workingStore bareDocument ⟨0, 0, 0, 0, 0⟩ parsingProgress (some "preprocessor down"))
    "doc-20240101120000-abcdefgh" 0 0 untitledUpload
    (some { DocumentId := "doc-20240101120000-abcdefgh", UploadStatus := "failed",
            Progress := none,
            DocumentInfo := some (uploadInfo "doc-20240101120000-abcdefgh" untitledUpload) })
    "preprocessor down" (by decide)⟩

/-- C28: whatever the options of the delete request, `DeleteDocument` returns status
`failed` together with the store's error when the store's delete fails, and status `deleted`
with no error otherwise. -/
theorem DeleteDocument_status (repo : DocumentRepo) (req : v1.DeleteDocumentRequest) :
    (∀ err, repo.DeleteDocument req.DocumentId req.Options = some err →
      ∃ resp, DeleteDocument repo req = (some resp, some err) ∧ resp.Status = "failed") ∧
    (repo.DeleteDocument req.DocumentId req.Options = none →
      ∃ resp, DeleteDocument repo req = (some resp, none) ∧ resp.Status = "deleted") := by
  constructor
  · intro err h
    simp [DeleteDocument, h]
  · intro h
    simp [DeleteDocument, h]

/-- Witness for C28: deleting with `DeleteRelatedChunks` set against a failing store returns
`failed` and the error; against a working store, with no options, `deleted`. -/
theorem DeleteDocument_status_witness :
    (∃ resp, DeleteDocument (failingStore "store down" bareDocument parsingProgress)
        { DocumentId := "doc-1",
          Options := some { DeleteRelatedChunks := true, DeleteEmbeddings := false } }
        = (some resp, some "store down") ∧ resp.Status = "failed") ∧
    (∃ resp, DeleteDocument (workingStore bareDocument ⟨0, 0, 0, 0, 0⟩ parsingProgress none)
        { DocumentId := "doc-1", Options := none } = (some resp, none) ∧
        resp.Status = "deleted") :=
  ⟨(DeleteDocument_status (failingStore "store down" bareDocument parsingProgress)
      { DocumentId := "doc-1",
        Options := some { DeleteRelatedChunks := true, DeleteEmbeddings := false } }).1
      "store down" rfl,
   (DeleteDocument_status (workingStore bareDocument ⟨0, 0, 0, 0, 0⟩ parsingProgress none)
      { DocumentId := "doc-1", Options := none }).2 rfl⟩

/-- C29: when the document lookup succeeds, `GetDocument` succeeds whether the statistics
lookup fails or not; when it fails every counter of the response statistics is zero, when it
succeeds they are the store's; in both cases the document fields and the content are those
the store returned. -/
theorem GetDocument_tolerates_stats_failure (repo : DocumentRepo)
    (req : v1.GetDocumentRequest) (doc : Document)
    (hdoc : repo.GetDocument req.DocumentId req.IncludeFields = (some doc, none)) :
    (∀ s err, repo.GetDocumentStats req.DocumentId = (s, some err) →
      GetDocument repo req =
        some (some { DocumentInfo := { DocumentId := doc.DocumentID, Title := doc.Title,
                                       FileType := doc.FileType, FileSize := doc.FileSize,
                                       TotalChunks := doc.TotalChunks,
                                       Metadata := doc.Metadata },
                     Content := doc.Content,
                     Stats := { TotalChunks := 0, TotalTokens := 0, AverageChunkSize := 0,
                                QueryCount := 0 } }, none)) ∧
    (∀ s, repo.GetDocumentStats req.DocumentId = (some s, none) →
      GetDocument repo req =
        some (some { DocumentInfo := { DocumentId := doc.DocumentID, Title := doc.Title,
                                       FileType := doc.FileType, FileSize := doc.FileSize,
                                       TotalChunks := doc.TotalChunks,
                                       Metadata := doc.Metadata },
                     Content := doc.Content,
                     Stats := { TotalChunks := s.TotalChunks, TotalTokens := s.TotalTokens,
                                AverageChunkSize := s.AverageChunkSize,
                                QueryCount := s.QueryCount } }, none)) := by
  constructor
  · intro s err hs
    simp [GetDocument, hdoc, hs]
  · intro s hs
    simp [GetDocument, hdoc, hs]

/-- Witness for C29: with failing statistics the lookup of the bare document still succeeds,
with all counters zero. -/
theorem GetDocument_tolerates_stats_failure_witness :
    GetDocument (failingStore "store down" bareDocument parsingProgress)
        { DocumentId := "doc-3", IncludeFields := [] } =
      some (some { DocumentInfo := { DocumentId := bareDocument.DocumentID,
                                     Title := bareDocument.Title,
                                     FileType := bareDocument.FileType,
                                     FileSize := bareDocument.FileSize,
                                     TotalChunks := bareDocument.TotalChunks,
                                     Metadata := bareDocument.Metadata },
                   Content := bareDocument.Content,
                   Stats := { TotalChunks := 0, TotalTokens := 0, AverageChunkSize := 0,
                              QueryCount := 0 } }, none) :=
  (GetDocument_tolerates_stats_failure (failingStore "store down" bareDocument parsingProgress)
    { DocumentId := "doc-3", IncludeFields := [] } bareDocument rfl).1 none "store down" rfl

end biz

namespace biz

/-- C30: for every upload request, an empty title included, whose save and preprocessing
succeed, `UploadDocument` succeeds with the id that `generateDocumentID` produced, and that
id is `doc-`, a 14-digit time stamp, `-`, and a suffix of exactly 8 characters from
`[a-zA-Z0-9]`. The clock is taken to show a year from 0 to 9999 and non-negative
nanosecond readings. -/
theorem UploadDocument_id_format (repo : DocumentRepo) (now : Go.CivilTime)
    (nanos : Nat → Int) (createdAt updatedAt : Int) (req : v1.UploadDocumentRequest)
    (progress : DocumentProcessingProgress)
    (hv : now.valid) (hy0 : 0 ≤ now.Year) (hy1 : now.Year ≤ 9999) (hn : ∀ i, 0 ≤ nanos i)
    (hsave : ∀ id, repo.SaveDocument (uploadRecord id createdAt updatedAt req) = none)
    (hpre : repo.CallPreprocessorService req.FileContent req.ProcessingOptions
      = (some progress, none)) :
    ∃ id ts suffix, generateDocumentID now nanos = some id ∧
      id = "doc-" ++ ts ++ "-" ++ suffix ∧
      ts.length = 14 ∧ (∀ c ∈ ts.data, c.isDigit = true) ∧
      suffix.length = 8 ∧ (∀ c ∈ suffix.data, c.isAlphanum = true) ∧
      ∃ resp, UploadDocument repo id createdAt updatedAt req = some (some resp, none) ∧
        resp.DocumentId = id ∧ resp.UploadStatus = "processing" := by
  obtain ⟨b, hb, hlen, hmem⟩ := randomStringLoop_spec nanos hn 8 0
  obtain ⟨hts1, hts2⟩ := Go.format_fourteen_digits now hv hy0 hy1
  refine ⟨"doc-" ++ Go.format20060102150405 now ++ "-" ++ ⟨b⟩,
    Go.format20060102150405 now, ⟨b⟩, ?_, rfl, hts1, hts2, hlen, ?_, ?_⟩
  · simp [generateDocumentID, randomString, hb]
  · intro c hc
    exact charset_isAlphanum c (hmem c hc)
  · simp [UploadDocument, hsave, hpre]

/-- Witness for C30: the upload with an empty title at 2024-01-01 12:00:00 against a working
store. -/
theorem UploadDocument_id_format_witness :
    ∃ id ts suffix,
      generateDocumentID ⟨2024, 1, 1, 12, 0, 0⟩ (fun i => 1704110400000000000 + 7 * i)
        = some id ∧
      id = "doc-" ++ ts ++ "-" ++ suffix ∧
      ts.length = 14 ∧ (∀ c ∈ ts.data, c.isDigit = true) ∧
      suffix.length = 8 ∧ (∀ c ∈ suffix.data, c.isAlphanum = true) ∧
      ∃ resp, UploadDocument (workingStore bareDocument ⟨0, 0, 0, 0, 0⟩ parsingProgress none)
          id 0 0 untitledUpload = some (some resp, none) ∧
        resp.DocumentId = id ∧ resp.UploadStatus = "processing" :=
  UploadDocument_id_format (workingStore bareDocument ⟨0, 0, 0, 0, 0⟩ parsingProgress none)
    ⟨2024, 1, 1, 12, 0, 0⟩ (fun i => 1704110400000000000 + 7 * i) 0 0 untitledUpload
    parsingProgress (by decide) (by decide) (by decide) (fun i => by positivity)
    (fun _ => rfl) rfl

end biz

namespace data

open biz

theorem rerankValues_length (arith : Go.Float32Arith) (query : String)
    (documents : List RelatedDocument) :
    (rerankValues arith query documents).1.length = documents.length ∧
    (rerankValues arith query documents).2 = none := by
  refine ⟨?_, rfl⟩
  simp only [rerankValues, RerankDocuments, List.length_map]
  rw [(bubbleSort_perm _ _).length_eq, List.length_range]

/-- C26: for every query the repository processes with reranking enabled and assembly
disabled, the answer is the fixed fallback string and the number of documents retrieval
returned is the value of `DocumentsReturned`, the value of `TotalDocumentsSearched` and the
number of related documents in the response. The retrieved count is taken to fit `int32`. -/
theorem ProcessQuery_rerank_only_counts (arith : Go.Float32Arith)
    (retrieved : List RelatedDocument) (startTime processingTime : Int) (queryID : String)
    (req : v1.QueryRequest) (p : v1.QueryParameters)
    (hpar : req.Parameters = some p) (hr : p.EnableReranking = true)
    (ha : p.EnableContextAssembly = false)
    (h32 : ((RetrieveDocuments retrieved req.Query req.Parameters).1.length : Int)
      < 2147483648) :
    ∃ resp, ProcessQuery (queryRepo arith retrieved) startTime processingTime queryID req
        = (some resp, none) ∧
      resp.Answer = "请查看相关文档获取信息。" ∧
      resp.Metadata.DocumentsReturned
        = ((RetrieveDocuments retrieved req.Query req.Parameters).1.length : Int) ∧
      resp.Metadata.TotalDocumentsSearched
        = ((RetrieveDocuments retrieved req.Query req.Parameters).1.length : Int) ∧
      resp.RelatedDocuments.length
        = (RetrieveDocuments retrieved req.Query req.Parameters).1.length := by
  have hret : (queryRepo arith retrieved).RetrieveDocuments req.Query req.Parameters
      = ((RetrieveDocuments retrieved req.Query req.Parameters).1, none) := by
    simp only [queryRepo]
    cases hpq : req.Parameters with
    | none => rfl
    | some q => rfl
  obtain ⟨resp, h1, h2, h3, h4, h5⟩ :=
    ProcessQuery_eq_stages (queryRepo arith retrieved) startTime processingTime queryID req _ hret
  have hstage : (Spec.rerankStage (queryRepo arith retrieved) req
      (RetrieveDocuments retrieved req.Query req.Parameters).1).length
      = (RetrieveDocuments retrieved req.Query req.Parameters).1.length := by
    simp only [Spec.rerankStage, Spec.rerankEnabled, hpar, hr, if_true, queryRepo]
    rw [if_pos (rerankValues_length _ _ _).2]
    exact (rerankValues_length _ _ _).1
  have hconv : Go.toInt32
      ((Spec.rerankStage (queryRepo arith retrieved) req
        (RetrieveDocuments retrieved req.Query req.Parameters).1).length : Int)
      = ((RetrieveDocuments retrieved req.Query req.Parameters).1.length : Int) := by
    rw [hstage]
    exact Go.toInt32_of_range _ (by omega) h32
  refine ⟨resp, h1, ?_, ?_, ?_, ?_⟩
  · rw [h3]
    simp [Spec.answerStage, Spec.assemblyEnabled, hpar, ha]
  · rw [h4, hconv]
  · rw [h5, hconv]
  · rw [h2, List.length_map, hstage]

/-- Witness for C26: the query `machine learning` over the two mock documents. -/
theorem ProcessQuery_rerank_only_counts_witness :
    ∃ resp, ProcessQuery (queryRepo Go.ieeeArith mockRetrieved) 0 5 "q-1" rerankOnlyRequest
        = (some resp, none) ∧
      resp.Answer = "请查看相关文档获取信息。" ∧
      resp.Metadata.DocumentsReturned
        = ((RetrieveDocuments mockRetrieved rerankOnlyRequest.Query
            rerankOnlyRequest.Parameters).1.length : Int) ∧
      resp.Metadata.TotalDocumentsSearched
        = ((RetrieveDocuments mockRetrieved rerankOnlyRequest.Query
            rerankOnlyRequest.Parameters).1.length : Int) ∧
      resp.RelatedDocuments.length
        = (RetrieveDocuments mockRetrieved rerankOnlyRequest.Query
            rerankOnlyRequest.Parameters).1.length :=
  ProcessQuery_rerank_only_counts Go.ieeeArith mockRetrieved 0 5 "q-1" rerankOnlyRequest
    { MaxResults := 0, SimilarityThreshold := Go.Float32.zero, DocumentTypes := [],
      DocumentIds := [], EnableReranking := true, EnableContextAssembly := false }
    rfl rfl rfl (by decide)

/-- C27: `AssembleAnswer` applied to an empty document list returns the fixed "no documents
found" message and no error, whatever the query, and a query for which retrieval yields no
document gets exactly that message as its answer when assembly is enabled. -/
theorem AssembleAnswer_empty (arith : Go.Float32Arith) (retrieved : List RelatedDocument)
    (startTime processingTime : Int) (queryID : String) (req : v1.QueryRequest)
    (p : v1.QueryParameters) (hpar : req.Parameters = some p)
    (ha : p.EnableContextAssembly = true)
    (hempty : (RetrieveDocuments retrieved req.Query req.Parameters).1 = []) :
    (∀ query, AssembleAnswer query [] = ("抱歉，没有找到相关的文档信息。", none)) ∧
    ∃ resp, ProcessQuery (queryRepo arith retrieved) startTime processingTime queryID req
        = (some resp, none) ∧
      resp.Answer = "抱歉，没有找到相关的文档信息。" ∧ resp.RelatedDocuments = [] := by
  refine ⟨fun _ => rfl, ?_⟩
  have hret : (queryRepo arith retrieved).RetrieveDocuments req.Query req.Parameters
      = ([], none) := by
    rw [← hempty]
    simp only [queryRepo]
    cases hpq : req.Parameters with
    | none => rfl
    | some q => rfl
  obtain ⟨resp, h1, h2, h3, _, _⟩ :=
    ProcessQuery_eq_stages (queryRepo arith retrieved) startTime processingTime queryID req _ hret
  have hstage : Spec.rerankStage (queryRepo arith retrieved) req [] = [] := by
    unfold Spec.rerankStage
    split
    · split
      · rfl
      · rfl
    · rfl
  refine ⟨resp, h1, ?_, ?_⟩
  · rw [h3, hstage]
    simp [Spec.answerStage, Spec.assemblyEnabled, hpar, ha, queryRepo, AssembleAnswer]
  · rw [h2, hstage]
    rfl

/-- Witness for C27: no mock document has the id `doc-9`, so the query gets the "no
documents found" message. -/
theorem AssembleAnswer_empty_witness :
    ∃ resp, ProcessQuery (queryRepo Go.ieeeArith mockRetrieved) 0 5 "q-1" noMatchRequest
        = (some resp, none) ∧
      resp.Answer = "抱歉，没有找到相关的文档信息。" ∧ resp.RelatedDocuments = [] :=
  (AssembleAnswer_empty Go.ieeeArith mockRetrieved 0 5 "q-1" noMatchRequest
    { MaxResults := 0, SimilarityThreshold := Go.Float32.zero, DocumentTypes := [],
      DocumentIds := ["doc-9"], EnableReranking := true, EnableContextAssembly := true }
    rfl rfl (by decide)).2

end data

namespace data

open biz

/-- Every HMAC method is a registered signing method. -/
theorem hmac_mem_registered (alg : String) (h : alg ∈ jwt.hmacMethods) :
    alg ∈ jwt.registeredMethods := by
  unfold jwt.registeredMethods
  exact List.mem_append_left _ h

/-- When `jwt.Parse` with the gateway's key function succeeds, and only then, the string
decodes to a token with an HMAC method, claims valid at `now`, and the authentication code
of its header and claims under the gateway's secret. -/
theorem Parse_ok_iff (lib : jwt.Library) (now : Int) (s : String) (token : jwt.Token) :
    jwt.Parse lib now s keyFunc = .ok token ↔
      ∃ t, lib.decode s = some t ∧ t.alg ∈ jwt.hmacMethods ∧
        jwt.verifyExp lib t.claims now = true ∧ jwt.verifyIat t.claims now = true ∧
        jwt.verifyNbf t.claims now = true ∧
        t.sig = { method := t.alg, key := jwtSecret, alg := t.alg, claims := t.claims } ∧
        token = { Method := t.alg, Claims := t.claims, Valid := true } := by
  unfold jwt.Parse
  cases hd : lib.decode s with
  | none => simp
  | some t =>
    by_cases hm : t.alg ∈ jwt.hmacMethods
    · have hr := hmac_mem_registered t.alg hm
      by_cases h1 : jwt.verifyExp lib t.claims now = true
      · by_cases h2 : jwt.verifyIat t.claims now = true
        · by_cases h3 : jwt.verifyNbf t.claims now = true
          · by_cases h4 : t.sig
                = { method := t.alg, key := jwtSecret, alg := t.alg, claims := t.claims }
            · simp only [hr, not_true_eq_false, if_false, keyFunc, hm, if_true, h1, h2, h3,
                Bool.not_true, Bool.false_eq_true, h4, ne_eq, Except.ok.injEq,
                Option.some.injEq, exists_eq_left', true_and]
              constructor
              · intro h; exact h.symm
              · intro h; exact h.symm
            · simp [keyFunc, hm, hr, h1, h2, h3, h4]
          · simp [keyFunc, hm, hr, h1, h2, h3]
        · simp [keyFunc, hm, hr, h1, h2]
      · simp [keyFunc, hm, hr, h1]
    · by_cases hr : t.alg ∈ jwt.registeredMethods
      · simp [keyFunc, hm, hr]
      · simp [keyFunc, hm, hr]

theorem Parse_error_or_ok (lib : jwt.Library) (now : Int) (s : String) :
    (∃ err, jwt.Parse lib now s keyFunc = .error err) ∨
    (∃ token, jwt.Parse lib now s keyFunc = .ok token) := by
  cases h : jwt.Parse lib now s keyFunc with
  | error e => exact Or.inl ⟨e, rfl⟩
  | ok t => exact Or.inr ⟨t, rfl⟩

theorem rolesLoop_strings (roles : List String) :
    ∀ acc, rolesLoop (roles.map jwt.Atom.str) acc = acc ++ roles := by
  induction roles with
  | nil => intro acc; simp [rolesLoop]
  | cons r rest ih => intro acc; simp [rolesLoop, ih]

/-- What `ValidateAccessToken` returns for a string that parses. -/
theorem ValidateAccessToken_of_ok (lib : jwt.Library) (now : Int) (s : String)
    (alg : String) (claims : jwt.MapClaims)
    (h : jwt.Parse lib now s keyFunc = .ok { Method := alg, Claims := claims, Valid := true }) :
    ValidateAccessToken lib now s =
      match jwt.asString (Go.Map.get? claims "user_id") with
      | none => (none, some "invalid user_id in token")
      | some userID =>
        match jwt.asString (Go.Map.get? claims "username") with
        | none => (none, some "invalid username in token")
        | some username =>
          match Go.Map.get? claims "roles" with
          | none => (none, some "invalid roles in token")
          | some rolesInterface =>
            (some { UserID := userID, Username := username, Email := "",
                    Roles := (match rolesInterface with
                      | .list roleSlice => rolesLoop roleSlice []
                      | _ => []),
                    Attributes := [], CreatedAt := 0, LastLoginAt := 0 }, none) := by
  simp only [ValidateAccessToken, h, Bool.not_true, Bool.false_eq_true, if_false]

end data

namespace data

open biz

/-- The claims `GenerateAccessToken` puts in the access token. -/
theorem GenerateAccessToken_access (lib : jwt.Library) (clock : Nat → Int) (user : User) :
    ∃ tok, GenerateAccessToken lib clock user = (some tok, none) ∧
      tok.AccessToken = (jwt.SignedString lib "HS256"
        [("user_id", .atom (.str user.UserID)), ("username", .atom (.str user.Username)),
         ("roles", .list (user.Roles.map jwt.Atom.str)),
         ("exp", .atom (.num (clock 0 + 3600))), ("iat", .atom (.num (clock 1)))]
        jwtSecret).1 ∧
      tok.RefreshToken = (jwt.SignedString lib "HS256"
        [("user_id", .atom (.str user.UserID)),
         ("exp", .atom (.num (clock 2 + 604800))), ("iat", .atom (.num (clock 3)))]
        jwtSecret).1 ∧
      tok.TokenType = "Bearer" ∧ tok.ExpiresIn = 3600 ∧ tok.Scope = "read write" :=
  ⟨_, rfl, rfl, rfl, rfl, rfl, rfl⟩

/-- Parsing a token the gateway signed comes down to the validity of its claims. -/
theorem Parse_signed (lib : jwt.Library) (now : Int) (claims : jwt.MapClaims) :
    (jwt.verifyExp lib claims now = true → jwt.verifyIat claims now = true →
      jwt.verifyNbf claims now = true →
      jwt.Parse lib now (jwt.SignedString lib "HS256" claims jwtSecret).1 keyFunc
        = .ok { Method := "HS256", Claims := claims, Valid := true }) ∧
    (jwt.verifyExp lib claims now = false →
      ∃ err, jwt.Parse lib now (jwt.SignedString lib "HS256" claims jwtSecret).1 keyFunc
        = .error err) := by
  constructor
  · intro h1 h2 h3
    rw [Parse_ok_iff]
    have hm : "HS256" ∈ jwt.hmacMethods := by decide
    exact ⟨_, lib.decode_encode _, hm, h1, h2, h3, rfl, rfl⟩
  · intro h1
    rcases Parse_error_or_ok lib now (jwt.SignedString lib "HS256" claims jwtSecret).1
      with h | ⟨token, h⟩
    · exact h
    · exfalso
      obtain ⟨t, hd, _, he, _⟩ := (Parse_ok_iff lib now _ token).1 h
      have hdec : lib.decode (jwt.SignedString lib "HS256" claims jwtSecret).1
          = some { alg := "HS256", claims := claims,
                   sig := { method := "HS256", key := jwtSecret, alg := "HS256",
                            claims := claims } } := lib.decode_encode _
      rw [hdec] at hd
      cases hd
      rw [h1] at he
      exact absurd he (by simp)

/-- C21: for every user, `ValidateAccessToken` applied to the access token that
`GenerateAccessToken` returned for the user, at a time from issuance to before the expiry
(issue time plus one hour), succeeds and returns a user with the same id and username (and
the same roles). -/
theorem access_token_round_trip (lib : jwt.Library) (clock : Nat → Int) (now : Int)
    (user : User) (hissued : clock 1 ≤ now) (hbefore : now < clock 0 + 3600) :
    ∃ tok u, GenerateAccessToken lib clock user = (some tok, none) ∧
      ValidateAccessToken lib now tok.AccessToken = (some u, none) ∧
      u.UserID = user.UserID ∧ u.Username = user.Username ∧ u.Roles = user.Roles := by
  obtain ⟨tok, hgen, hacc, _⟩ := GenerateAccessToken_access lib clock user
  have hexp : jwt.verifyExp lib
      [("user_id", .atom (.str user.UserID)), ("username", .atom (.str user.Username)),
       ("roles", .list (user.Roles.map jwt.Atom.str)),
       ("exp", .atom (.num (clock 0 + 3600))), ("iat", .atom (.num (clock 1)))] now = true := by
    simp [jwt.verifyExp, Go.Map.get?, hbefore]
  have hiat : jwt.verifyIat
      [("user_id", .atom (.str user.UserID)), ("username", .atom (.str user.Username)),
       ("roles", .list (user.Roles.map jwt.Atom.str)),
       ("exp", .atom (.num (clock 0 + 3600))), ("iat", .atom (.num (clock 1)))] now = true := by
    simp [jwt.verifyIat, Go.Map.get?, hissued]
  have hnbf : jwt.verifyNbf
      [("user_id", .atom (.str user.UserID)), ("username", .atom (.str user.Username)),
       ("roles", .list (user.Roles.map jwt.Atom.str)),
       ("exp", .atom (.num (clock 0 + 3600))), ("iat", .atom (.num (clock 1)))] now = true := by
    simp [jwt.verifyNbf, Go.Map.get?]
  have hparse := (Parse_signed lib now _).1 hexp hiat hnbf
  have hval := ValidateAccessToken_of_ok lib now _ _ _ hparse
  refine ⟨tok, { UserID := user.UserID, Username := user.Username, Email := "",
                 Roles := rolesLoop (user.Roles.map jwt.Atom.str) [], Attributes := [],
                 CreatedAt := 0, LastLoginAt := 0 }, hgen, ?_, rfl, rfl, ?_⟩
  · rw [hacc, hval]
    simp [Go.Map.get?, jwt.asString]
  · simp [rolesLoop_strings]

/-- Witness for C21: the admin's token, issued at 1700000000, validated a minute later. -/
theorem access_token_round_trip_witness :
    ∃ tok u, GenerateAccessToken (jwt.textLibrary false) (fun _ => 1700000000) adminUser
        = (some tok, none) ∧
      ValidateAccessToken (jwt.textLibrary false) 1700000060 tok.AccessToken = (some u, none) ∧
      u.UserID = adminUser.UserID ∧ u.Username = adminUser.Username ∧
      u.Roles = adminUser.Roles :=
  access_token_round_trip (jwt.textLibrary false) (fun _ => 1700000000) 1700000060 adminUser
    (by decide) (by decide)

/-- A token issued at the second for which the expiry instant is 0 carries `exp = 0`, which
the library reads as no expiry: it is still accepted decades later. -/
theorem access_token_zero_expiry_accepted :
    (GenerateAccessToken (jwt.textLibrary false) (fun _ => -3600) adminUser).1.map
        (fun tok => ValidateAccessToken (jwt.textLibrary false) 1700000000 tok.AccessToken)
      = some (some { UserID := "user-1", Username := "admin", Email := "",
                     Roles := ["admin", "user"], Attributes := [], CreatedAt := 0,
                     LastLoginAt := 0 }, none) := by
  decide

/-- C22: for every user, once the current time is after the expiry instant (issue time plus
one hour) of the access token that `GenerateAccessToken` returned, `ValidateAccessToken`
fails for that token. The one issue time left out is the second for which the expiry
instant is 0 (23:00:00 UTC on 31 December 1969), which the library reads as no expiry. -/
theorem access_token_expires (lib : jwt.Library) (clock : Nat → Int) (now : Int)
    (user : User) (hclock : clock 0 + 3600 ≠ 0) (hafter : clock 0 + 3600 < now) :
    ∃ tok err, GenerateAccessToken lib clock user = (some tok, none) ∧
      ValidateAccessToken lib now tok.AccessToken = (none, some err) := by
  obtain ⟨tok, hgen, hacc, _⟩ := GenerateAccessToken_access lib clock user
  have hexp : jwt.verifyExp lib
      [("user_id", .atom (.str user.UserID)), ("username", .atom (.str user.Username)),
       ("roles", .list (user.Roles.map jwt.Atom.str)),
       ("exp", .atom (.num (clock 0 + 3600))), ("iat", .atom (.num (clock 1)))] now
        = false := by
    have h0 : ¬ (clock 0 + 3600 = 0) := hclock
    have h1 : ¬ (now < clock 0 + 3600) := by omega
    have h2 : ¬ (now = clock 0 + 3600) := by omega
    simp [jwt.verifyExp, Go.Map.get?, h0, h1, h2]
  obtain ⟨err, hparse⟩ := (Parse_signed lib now _).2 hexp
  refine ⟨tok, "failed to parse token: " ++ err, hgen, ?_⟩
  rw [hacc]
  simp only [ValidateAccessToken, hparse]

/-- Witness for C22: the admin's token, issued at 1700000000, is rejected at 1700003601. -/
theorem access_token_expires_witness :
    ∃ tok err, GenerateAccessToken (jwt.textLibrary true) (fun _ => 1700000000) adminUser
        = (some tok, none) ∧
      ValidateAccessToken (jwt.textLibrary true) 1700003601 tok.AccessToken
        = (none, some err) :=
  access_token_expires (jwt.textLibrary true) (fun _ => 1700000000) 1700003601 adminUser
    (by decide) (by decide)

end data

namespace data

open biz

end data

namespace data

open biz

/-- C31: for every user `GenerateAccessToken` succeeds with token type `Bearer`, scope
`read write` and `ExpiresIn = 3600`; the access token carries the expiry claim one hour
(3600 s) and the refresh token the expiry claim seven days (604800 s) after the clock
reading they are computed from, so each expiry is strictly after that reading. -/
theorem GenerateAccessToken_expiries (lib : jwt.Library) (clock : Nat → Int) (user : User) :
    ∃ tok access refresh,
      GenerateAccessToken lib clock user = (some tok, none) ∧
      tok.TokenType = "Bearer" ∧ tok.Scope = "read write" ∧ tok.ExpiresIn = 3600 ∧
      lib.decode tok.AccessToken = some access ∧
      Go.Map.get? access.claims "exp" = some (.atom (.num (clock 0 + 3600))) ∧
      lib.decode tok.RefreshToken = some refresh ∧
      Go.Map.get? refresh.claims "exp" = some (.atom (.num (clock 2 + 604800))) ∧
      clock 0 < clock 0 + 3600 ∧ clock 2 < clock 2 + 604800 := by
  obtain ⟨tok, hgen, hacc, href, htype, hexp, hscope⟩ := GenerateAccessToken_access lib clock user
  have hda : ∃ access, lib.decode tok.AccessToken = some access ∧
      Go.Map.get? access.claims "exp" = some (.atom (.num (clock 0 + 3600))) := by
    rw [hacc]
    exact ⟨_, lib.decode_encode _, by simp [Go.Map.get?]⟩
  have hdr : ∃ refresh, lib.decode tok.RefreshToken = some refresh ∧
      Go.Map.get? refresh.claims "exp" = some (.atom (.num (clock 2 + 604800))) := by
    rw [href]
    exact ⟨_, lib.decode_encode _, by simp [Go.Map.get?]⟩
  obtain ⟨access, ha1, ha2⟩ := hda
  obtain ⟨refresh, hr1, hr2⟩ := hdr
  exact ⟨tok, access, refresh, hgen, htype, hscope, hexp, ha1, ha2, hr1, hr2, by omega,
    by omega⟩

/-- C32: for the scores `[0.5, 0.9]` with `maxResults = 1` and threshold `0.8`, both
positive, `RetrieveDocuments` (truncate, then threshold) returns the empty list, while
threshold-then-truncate keeps the `0.9` document, which meets the threshold: it is dropped
only because the truncation ran first. -/
theorem RetrieveDocuments_truncates_before_threshold :
    oneAboveThreshold.MaxResults > 0 ∧
    Go.Float32.gt oneAboveThreshold.SimilarityThreshold Go.Float32.zero = true ∧
    RetrieveDocuments lowThenHigh "q" (some oneAboveThreshold) = ([], none) ∧
    Spec.truncateStep oneAboveThreshold.MaxResults
        (Spec.thresholdStep oneAboveThreshold.SimilarityThreshold lowThenHigh)
      = lowThenHigh.drop 1 ∧
    (lowThenHigh.drop 1).map (fun d => d.DocumentID) = ["doc-high"] ∧
    (lowThenHigh.drop 1).all
      (fun d => Go.Float32.ge d.RelevanceScore oneAboveThreshold.SimilarityThreshold) = true := by
  decide

/-- What `RefreshAccessToken` returns for a string that parses. -/
theorem RefreshAccessToken_of_ok (lib : jwt.Library) (now : Int) (clock : Nat → Int)
    (s : String) (alg : String) (claims : jwt.MapClaims)
    (h : jwt.Parse lib now s keyFunc = .ok { Method := alg, Claims := claims, Valid := true }) :
    RefreshAccessToken lib now clock s =
      match jwt.asString (Go.Map.get? claims "user_id") with
      | none => (none, some "invalid user_id in token")
      | some userID =>
        (some { AccessToken := (jwt.SignedString lib "HS256"
                  [("user_id", .atom (.str userID)), ("exp", .atom (.num (clock 0 + 3600))),
                   ("iat", .atom (.num (clock 1)))] jwtSecret).1,
                RefreshToken := (jwt.SignedString lib "HS256"
                  [("user_id", .atom (.str userID)), ("exp", .atom (.num (clock 2 + 604800))),
                   ("iat", .atom (.num (clock 3)))] jwtSecret).1,
                TokenType := "Bearer", ExpiresIn := 3600, Scope := "read write" }, none) := by
  simp only [RefreshAccessToken, h, Bool.not_true, Bool.false_eq_true, if_false]
  cases jwt.asString (Go.Map.get? claims "user_id") <;> rfl

/-- A token the gateway signed without a `username` claim is rejected by
`ValidateAccessToken` at every time. -/
theorem ValidateAccessToken_without_username (lib : jwt.Library) (now : Int)
    (claims : jwt.MapClaims) (h : Go.Map.get? claims "username" = none) :
    (∃ err, ValidateAccessToken lib now (jwt.SignedString lib "HS256" claims jwtSecret).1
      = (none, some err)) ∧
    (jwt.verifyExp lib claims now = true → jwt.verifyIat claims now = true →
      jwt.verifyNbf claims now = true →
      (∃ userID, Go.Map.get? claims "user_id" = some (.atom (.str userID))) →
      ValidateAccessToken lib now (jwt.SignedString lib "HS256" claims jwtSecret).1
        = (none, some "invalid username in token")) := by
  have key : ∀ alg cl, Go.Map.get? cl "username" = none →
      ∀ s, jwt.Parse lib now s keyFunc = .ok { Method := alg, Claims := cl, Valid := true } →
      ∃ err, ValidateAccessToken lib now s = (none, some err) := by
    intro alg cl hcl s hs
    rw [ValidateAccessToken_of_ok lib now s alg cl hs, hcl]
    cases jwt.asString (Go.Map.get? cl "user_id") with
    | none => exact ⟨_, rfl⟩
    | some x => exact ⟨_, rfl⟩
  constructor
  · rcases Parse_error_or_ok lib now (jwt.SignedString lib "HS256" claims jwtSecret).1
      with ⟨err, he⟩ | ⟨token, hok⟩
    · exact ⟨"failed to parse token: " ++ err, by simp only [ValidateAccessToken, he]⟩
    · obtain ⟨t, hd, _, _, _, _, _, htok⟩ := (Parse_ok_iff lib now _ token).1 hok
      have hdec : lib.decode (jwt.SignedString lib "HS256" claims jwtSecret).1
          = some { alg := "HS256", claims := claims,
                   sig := { method := "HS256", key := jwtSecret, alg := "HS256",
                            claims := claims } } := lib.decode_encode _
      rw [hdec] at hd
      cases hd
      subst htok
      exact key _ _ h _ hok
  · intro h1 h2 h3 ⟨userID, hu⟩
    have hparse := (Parse_signed lib now claims).1 h1 h2 h3
    rw [ValidateAccessToken_of_ok lib now _ _ _ hparse, hu, h]
    rfl

end data

namespace data

open biz

/-- C33: for every user, refreshing with the refresh token that `GenerateAccessToken`
issued, while that token is valid, succeeds, and the access token of the new pair is
rejected by `ValidateAccessToken` at every time; while the new access token is itself
unexpired the error is the missing `username` claim, because the new token carries only
`user_id`, `exp` and `iat`. -/
theorem refreshed_access_token_rejected (lib : jwt.Library) (clock clock2 : Nat → Int)
    (now : Int) (user : User) (hissued : clock 3 ≤ now) (hbefore : now < clock 2 + 604800) :
    ∃ tok tok2, GenerateAccessToken lib clock user = (some tok, none) ∧
      RefreshAccessToken lib now clock2 tok.RefreshToken = (some tok2, none) ∧
      (∃ t, lib.decode tok2.AccessToken = some t ∧
        t.claims = [("user_id", .atom (.str user.UserID)),
                    ("exp", .atom (.num (clock2 0 + 3600))),
                    ("iat", .atom (.num (clock2 1)))]) ∧
      (∀ later, ∃ err, ValidateAccessToken lib later tok2.AccessToken = (none, some err)) ∧
      (∀ later, clock2 1 ≤ later → later < clock2 0 + 3600 →
        ValidateAccessToken lib later tok2.AccessToken
          = (none, some "invalid username in token")) := by
  obtain ⟨tok, hgen, _, href, _⟩ := GenerateAccessToken_access lib clock user
  have hexp : jwt.verifyExp lib
      [("user_id", .atom (.str user.UserID)), ("exp", .atom (.num (clock 2 + 604800))),
       ("iat", .atom (.num (clock 3)))] now = true := by
    simp [jwt.verifyExp, Go.Map.get?, hbefore]
  have hiat : jwt.verifyIat
      [("user_id", .atom (.str user.UserID)), ("exp", .atom (.num (clock 2 + 604800))),
       ("iat", .atom (.num (clock 3)))] now = true := by
    simp [jwt.verifyIat, Go.Map.get?, hissued]
  have hnbf : jwt.verifyNbf
      [("user_id", .atom (.str user.UserID)), ("exp", .atom (.num (clock 2 + 604800))),
       ("iat", .atom (.num (clock 3)))] now = true := by
    simp [jwt.verifyNbf, Go.Map.get?]
  have hparse := (Parse_signed lib now _).1 hexp hiat hnbf
  have href2 := RefreshAccessToken_of_ok lib now clock2 _ _ _ hparse
  have huid : jwt.asString (Go.Map.get?
      ([("user_id", .atom (.str user.UserID)), ("exp", .atom (.num (clock 2 + 604800))),
       ("iat", .atom (.num (clock 3)))] : jwt.MapClaims) "user_id") = some user.UserID := by
    simp [Go.Map.get?, jwt.asString]
  rw [huid] at href2
  have hno : Go.Map.get?
      ([("user_id", .atom (.str user.UserID)), ("exp", .atom (.num (clock2 0 + 3600))),
        ("iat", .atom (.num (clock2 1)))] : jwt.MapClaims) "username" = none := by
    simp [Go.Map.get?]
  rw [← href] at href2
  refine ⟨tok, _, hgen, href2, ⟨_, lib.decode_encode _, rfl⟩, ?_, ?_⟩
  · intro later
    exact (ValidateAccessToken_without_username lib later _ hno).1
  · intro later h1 h2
    refine (ValidateAccessToken_without_username lib later _ hno).2 ?_ ?_ ?_ ⟨user.UserID, ?_⟩
    · simp [jwt.verifyExp, Go.Map.get?, h2]
    · simp [jwt.verifyIat, Go.Map.get?, h1]
    · simp [jwt.verifyNbf, Go.Map.get?]
    · simp [Go.Map.get?]

/-- Witness for C33: the admin's refresh token, issued at 1700000000, is exchanged a day
later; the new access token is rejected a minute after that. -/
theorem refreshed_access_token_rejected_witness :
    ∃ tok tok2, GenerateAccessToken (jwt.textLibrary false) (fun _ => 1700000000) adminUser
        = (some tok, none) ∧
      RefreshAccessToken (jwt.textLibrary false) 1700086400 (fun _ => 1700086400)
        tok.RefreshToken = (some tok2, none) ∧
      ValidateAccessToken (jwt.textLibrary false) 1700086460 tok2.AccessToken
        = (none, some "invalid username in token") := by
  obtain ⟨tok, tok2, h1, h2, _, _, h5⟩ :=
    refreshed_access_token_rejected (jwt.textLibrary false) (fun _ => 1700000000)
      (fun _ => 1700086400) 1700086400 adminUser (by decide) (by decide)
  exact ⟨tok, tok2, h1, h2, h5 1700086460 (by decide) (by decide)⟩

/-- C34: for every user, `RefreshAccessToken` given the unexpired access token that
`GenerateAccessToken` issued, in place of the refresh token, succeeds and issues a new pair
for the same user id, whereas `ValidateAccessToken` rejects the refresh token that
`GenerateAccessToken` issued at every time. -/
theorem RefreshAccessToken_accepts_access_token (lib : jwt.Library)
    (clock clock2 : Nat → Int) (now : Int) (user : User)
    (hissued : clock 1 ≤ now) (hbefore : now < clock 0 + 3600) :
    ∃ tok tok2, GenerateAccessToken lib clock user = (some tok, none) ∧
      RefreshAccessToken lib now clock2 tok.AccessToken = (some tok2, none) ∧
      tok2.AccessToken = (jwt.SignedString lib "HS256"
        [("user_id", .atom (.str user.UserID)), ("exp", .atom (.num (clock2 0 + 3600))),
         ("iat", .atom (.num (clock2 1)))] jwtSecret).1 ∧
      tok2.RefreshToken = (jwt.SignedString lib "HS256"
        [("user_id", .atom (.str user.UserID)), ("exp", .atom (.num (clock2 2 + 604800))),
         ("iat", .atom (.num (clock2 3)))] jwtSecret).1 ∧
      ∀ later, ∃ err, ValidateAccessToken lib later tok.RefreshToken = (none, some err) := by
  obtain ⟨tok, hgen, hacc, href, _⟩ := GenerateAccessToken_access lib clock user
  have hexp : jwt.verifyExp lib
      [("user_id", .atom (.str user.UserID)), ("username", .atom (.str user.Username)),
       ("roles", .list (user.Roles.map jwt.Atom.str)),
       ("exp", .atom (.num (clock 0 + 3600))), ("iat", .atom (.num (clock 1)))] now = true := by
    simp [jwt.verifyExp, Go.Map.get?, hbefore]
  have hiat : jwt.verifyIat
      [("user_id", .atom (.str user.UserID)), ("username", .atom (.str user.Username)),
       ("roles", .list (user.Roles.map jwt.Atom.str)),
       ("exp", .atom (.num (clock 0 + 3600))), ("iat", .atom (.num (clock 1)))] now = true := by
    simp [jwt.verifyIat, Go.Map.get?, hissued]
  have hnbf : jwt.verifyNbf
      [("user_id", .atom (.str user.UserID)), ("username", .atom (.str user.Username)),
       ("roles", .list (user.Roles.map jwt.Atom.str)),
       ("exp", .atom (.num (clock 0 + 3600))), ("iat", .atom (.num (clock 1)))] now = true := by
    simp [jwt.verifyNbf, Go.Map.get?]
  have hparse := (Parse_signed lib now _).1 hexp hiat hnbf
  have href2 := RefreshAccessToken_of_ok lib now clock2 _ _ _ hparse
  have huid : jwt.asString (Go.Map.get?
      ([("user_id", .atom (.str user.UserID)), ("username", .atom (.str user.Username)),
        ("roles", .list (user.Roles.map jwt.Atom.str)),
        ("exp", .atom (.num (clock 0 + 3600))), ("iat", .atom (.num (clock 1)))]
        : jwt.MapClaims) "user_id") = some user.UserID := by
    simp [Go.Map.get?, jwt.asString]
  rw [huid] at href2
  have hno : Go.Map.get?
      ([("user_id", .atom (.str user.UserID)), ("exp", .atom (.num (clock 2 + 604800))),
        ("iat", .atom (.num (clock 3)))] : jwt.MapClaims) "username" = none := by
    simp [Go.Map.get?]
  rw [← hacc] at href2
  refine ⟨tok, _, hgen, href2, rfl, rfl, ?_⟩
  intro later
  rw [href]
  exact (ValidateAccessToken_without_username lib later _ hno).1

/-- Witness for C34: the admin's access token, issued at 1700000000, is accepted by
`RefreshAccessToken` a minute later, and the refresh token of the same pair is rejected by
`ValidateAccessToken`. -/
theorem RefreshAccessToken_accepts_access_token_witness :
    ∃ tok tok2, GenerateAccessToken (jwt.textLibrary false) (fun _ => 1700000000) adminUser
        = (some tok, none) ∧
      RefreshAccessToken (jwt.textLibrary false) 1700000060 (fun _ => 1700000060)
        tok.AccessToken = (some tok2, none) ∧
      ∃ err, ValidateAccessToken (jwt.textLibrary false) 1700000060 tok.RefreshToken
        = (none, some err) := by
  obtain ⟨tok, tok2, h1, h2, _, _, h5⟩ :=
    RefreshAccessToken_accepts_access_token (jwt.textLibrary false) (fun _ => 1700000000)
      (fun _ => 1700000060) 1700000060 adminUser (by decide) (by decide)
  exact ⟨tok, tok2, h1, h2, h5 1700000060⟩

end data

namespace data

open biz

/-- The narrowing of `RetrieveDocuments` as a composition of the four steps, for a list whose
length fits `int32`. -/
theorem RetrieveDocuments_steps (retrieved : List RelatedDocument)
    (query : String) (p : v1.QueryParameters) (hlen : (retrieved.length : Int) < 2147483648) :
    RetrieveDocuments retrieved query (some p) =
      (Spec.idStep p.DocumentIds
        (Spec.typeStep p.DocumentTypes
          (Spec.thresholdStep p.SimilarityThreshold
            (Spec.truncateStep p.MaxResults retrieved))), none) := by
  have h32 : Go.toInt32 (retrieved.length : Int) = retrieved.length :=
    Go.toInt32_of_range _ (by omega) hlen
  have hfun1 : (fun doc : RelatedDocument =>
      Go.Map.getBool (Go.Map.markAll [] p.DocumentTypes) doc.DocumentType)
      = (fun d => decide (d.DocumentType ∈ p.DocumentTypes)) := by
    funext d; exact Go.getBool_markAll_nil _ _
  have hfun2 : (fun doc : RelatedDocument =>
      Go.Map.getBool (Go.Map.markAll [] p.DocumentIds) doc.DocumentID)
      = (fun d => decide (d.DocumentID ∈ p.DocumentIds)) := by
    funext d; exact Go.getBool_markAll_nil _ _
  have hne : ∀ l : List String, (l.length > 0) = (l ≠ []) := by
    intro l; cases l <;> simp
  simp only [RetrieveDocuments, Spec.idStep, Spec.typeStep, Spec.thresholdStep,
    Spec.truncateStep, h32, Go.appendIf_nil_eq_filter, hfun1, hfun2, hne, gt_iff_lt]

/-- Each narrowing step returns a sublist of its input. -/
theorem narrowing_steps_sublist (p : v1.QueryParameters) (docs : List RelatedDocument) :
    List.Sublist (Spec.truncateStep p.MaxResults docs) docs ∧
    List.Sublist (Spec.thresholdStep p.SimilarityThreshold docs) docs ∧
    List.Sublist (Spec.typeStep p.DocumentTypes docs) docs ∧
    List.Sublist (Spec.idStep p.DocumentIds docs) docs := by
  refine ⟨?_, ?_, ?_, ?_⟩
  · unfold Spec.truncateStep
    split
    · exact List.take_sublist _ _
    · exact List.Sublist.refl _
  · unfold Spec.thresholdStep
    split
    · exact List.filter_sublist _
    · exact List.Sublist.refl _
  · unfold Spec.typeStep
    split
    · exact List.filter_sublist _
    · exact List.Sublist.refl _
  · unfold Spec.idStep
    split
    · exact List.filter_sublist _
    · exact List.Sublist.refl _

/-- A narrowing step that filters leaves a list unchanged when every element of the list
was already kept by the same step. -/
theorem narrowing_steps_fixed (p : v1.QueryParameters) (docs big : List RelatedDocument) :
    (List.Sublist docs (Spec.thresholdStep p.SimilarityThreshold big) →
      Spec.thresholdStep p.SimilarityThreshold docs = docs) ∧
    (List.Sublist docs (Spec.typeStep p.DocumentTypes big) →
      Spec.typeStep p.DocumentTypes docs = docs) ∧
    (List.Sublist docs (Spec.idStep p.DocumentIds big) →
      Spec.idStep p.DocumentIds docs = docs) := by
  refine ⟨?_, ?_, ?_⟩
  · unfold Spec.thresholdStep
    intro h
    split
    · rename_i hpos
      rw [if_pos hpos] at h
      exact List.filter_eq_self.2 (fun a ha => (List.mem_filter.1 (h.subset ha)).2)
    · rfl
  · unfold Spec.typeStep
    intro h
    split
    · rename_i hpos
      rw [if_pos hpos] at h
      exact List.filter_eq_self.2 (fun a ha => (List.mem_filter.1 (h.subset ha)).2)
    · rfl
  · unfold Spec.idStep
    intro h
    split
    · rename_i hpos
      rw [if_pos hpos] at h
      exact List.filter_eq_self.2 (fun a ha => (List.mem_filter.1 (h.subset ha)).2)
    · rfl

/-- C37: for every retrieved list and every parameter set (absent parameters included), the
list `RetrieveDocuments` returns is an order-preserving sublist of the retrieved list, has
at most `maxResults` documents whenever `maxResults > 0`, and narrowing it again with the
same parameters returns it unchanged. The retrieved count is taken to fit `int32`. -/
theorem RetrieveDocuments_sublist_bounded_idempotent (retrieved : List RelatedDocument)
    (query : String) (params : Option v1.QueryParameters)
    (hlen : (retrieved.length : Int) < 2147483648) :
    List.Sublist (RetrieveDocuments retrieved query params).1 retrieved ∧
    (∀ p, params = some p → p.MaxResults > 0 →
      ((RetrieveDocuments retrieved query params).1.length : Int) ≤ p.MaxResults) ∧
    RetrieveDocuments (RetrieveDocuments retrieved query params).1 query params
      = ((RetrieveDocuments retrieved query params).1, none) := by
  cases params with
  | none =>
    refine ⟨List.Sublist.refl _, ?_, rfl⟩
    intro p hp
    cases hp
  | some p =>
    rw [RetrieveDocuments_steps retrieved query p hlen]
    have s1 := (narrowing_steps_sublist p retrieved).1
    have s2 := (narrowing_steps_sublist p (Spec.truncateStep p.MaxResults retrieved)).2.1
    have s3 := (narrowing_steps_sublist p (Spec.thresholdStep p.SimilarityThreshold
      (Spec.truncateStep p.MaxResults retrieved))).2.2.1
    have s4 := (narrowing_steps_sublist p (Spec.typeStep p.DocumentTypes
      (Spec.thresholdStep p.SimilarityThreshold
        (Spec.truncateStep p.MaxResults retrieved)))).2.2.2
    have hsub := s4.trans (s3.trans (s2.trans s1))
    have hlen2 : ((Spec.idStep p.DocumentIds (Spec.typeStep p.DocumentTypes
        (Spec.thresholdStep p.SimilarityThreshold
          (Spec.truncateStep p.MaxResults retrieved)))).length : Int) < 2147483648 := by
      have := hsub.length_le
      omega
    have hbound : p.MaxResults > 0 →
        ((Spec.idStep p.DocumentIds (Spec.typeStep p.DocumentTypes
          (Spec.thresholdStep p.SimilarityThreshold
            (Spec.truncateStep p.MaxResults retrieved)))).length : Int) ≤ p.MaxResults := by
      intro hpos
      have h1 : ((Spec.truncateStep p.MaxResults retrieved).length : Int) ≤ p.MaxResults := by
        unfold Spec.truncateStep
        split
        · rw [List.length_take]
          omega
        · rename_i hn
          have hn' : ¬ (p.MaxResults < (retrieved.length : Int)) := fun h => hn ⟨hpos, h⟩
          omega
      have := (s4.trans (s3.trans s2)).length_le
      omega
    refine ⟨hsub, ?_, ?_⟩
    · intro q hq hpos
      cases hq
      exact hbound hpos
    · rw [RetrieveDocuments_steps _ query p hlen2]
      have t1 : Spec.truncateStep p.MaxResults
          (Spec.idStep p.DocumentIds (Spec.typeStep p.DocumentTypes
            (Spec.thresholdStep p.SimilarityThreshold
              (Spec.truncateStep p.MaxResults retrieved))))
          = Spec.idStep p.DocumentIds (Spec.typeStep p.DocumentTypes
            (Spec.thresholdStep p.SimilarityThreshold
              (Spec.truncateStep p.MaxResults retrieved))) := by
        generalize hD : Spec.idStep p.DocumentIds (Spec.typeStep p.DocumentTypes
            (Spec.thresholdStep p.SimilarityThreshold
              (Spec.truncateStep p.MaxResults retrieved))) = D at hbound
        unfold Spec.truncateStep
        split
        · rename_i hc
          have := hbound hc.1
          omega
        · rfl
      have t2 := (narrowing_steps_fixed p _ (Spec.truncateStep p.MaxResults retrieved)).1
        (s4.trans s3)
      have t3 := (narrowing_steps_fixed p _ (Spec.thresholdStep p.SimilarityThreshold
        (Spec.truncateStep p.MaxResults retrieved))).2.1 s4
      have t4 := (narrowing_steps_fixed p _ (Spec.typeStep p.DocumentTypes
        (Spec.thresholdStep p.SimilarityThreshold
          (Spec.truncateStep p.MaxResults retrieved)))).2.2 (List.Sublist.refl _)
      rw [t1, t2, t3, t4]

/-- Witness for C37: the two mock documents narrowed with `maxResults = 1`. -/
theorem RetrieveDocuments_sublist_bounded_idempotent_witness :
    List.Sublist
      (RetrieveDocuments mockRetrieved "machine learning" (some oneAboveThreshold)).1
      mockRetrieved ∧
    ((RetrieveDocuments mockRetrieved "machine learning"
        (some oneAboveThreshold)).1.length : Int) ≤ oneAboveThreshold.MaxResults ∧
    RetrieveDocuments
        (RetrieveDocuments mockRetrieved "machine learning" (some oneAboveThreshold)).1
        "machine learning" (some oneAboveThreshold)
      = ((RetrieveDocuments mockRetrieved "machine learning" (some oneAboveThreshold)).1,
         none) :=
  have h := RetrieveDocuments_sublist_bounded_idempotent mockRetrieved "machine learning"
    (some oneAboveThreshold) (by decide)
  ⟨h.1, h.2.1 oneAboveThreshold rfl (by decide), h.2.2⟩

end data

namespace data

open biz commonv1

/-- Enough windows of a positive size, laid end to end, give the list back. -/
theorem pageWindows_flatten {α : Type} (pageSize : Nat) :
    ∀ (n : Nat) (docs : List α), docs.length ≤ n * pageSize →
      (Spec.pageWindows docs pageSize n).flatten = docs := by
  intro n
  induction n with
  | zero =>
    intro docs h
    have h0 : docs.length = 0 := by omega
    rw [List.length_eq_zero] at h0
    subst h0
    rfl
  | succ n ih =>
    intro docs h
    have hlen : (docs.drop pageSize).length ≤ n * pageSize := by
      rw [List.length_drop]
      have : (n + 1) * pageSize = n * pageSize + pageSize := by ring
      omega
    have hrec := ih (docs.drop pageSize) hlen
    unfold Spec.pageWindows at hrec ⊢
    rw [List.range_succ_eq_map, List.map_cons, List.map_map, List.flatten_cons]
    have hfun : ((fun i => List.take pageSize (List.drop (i * pageSize) docs)) ∘ Nat.succ)
        = (fun i => List.take pageSize (List.drop (i * pageSize) (List.drop pageSize docs))) := by
      funext i
      simp only [Function.comp, List.drop_drop]
      have : Nat.succ i * pageSize = pageSize + i * pageSize := by
        rw [Nat.succ_mul]; omega
      rw [this]
    rw [hfun, hrec]
    simp

/-- The bounds that make `listTotalPages` the number of pages: the pages cover the list and
the last page is not empty. -/
theorem listTotalPages_bounds (docs : List Document) (pageSize : Int)
    (hlen : (docs.length : Int) < 2147483648) (hs : 1 ≤ pageSize)
    (hs32 : pageSize < 2147483648) :
    0 ≤ listTotalPages docs pageSize ∧
    (docs.length : Int) ≤ listTotalPages docs pageSize * pageSize ∧
    (listTotalPages docs pageSize - 1) * pageSize < docs.length := by
  have h := (listTotalPages_eq_ceil docs pageSize hlen hs hs32).2
  have hpsq : (0 : ℚ) < (pageSize : ℚ) := by exact_mod_cast (by omega : (0 : Int) < pageSize)
  have h2 := (Int.ceil_eq_iff.1 h.symm)
  have hb : (docs.length : Int) ≤ listTotalPages docs pageSize * pageSize := by
    have := h2.2
    rw [div_le_iff₀ hpsq] at this
    exact_mod_cast this
  have hc : (listTotalPages docs pageSize - 1) * pageSize < docs.length := by
    have := h2.1
    rw [lt_div_iff₀ hpsq] at this
    exact_mod_cast this
  refine ⟨?_, hb, hc⟩
  by_contra hneg
  have hneg' : listTotalPages docs pageSize - 1 ≤ -2 := by omega
  have : (listTotalPages docs pageSize - 1) * pageSize ≤ (-2) * pageSize :=
    Int.mul_le_mul_of_nonneg_right hneg' (by omega)
  have h3 : listTotalPages docs pageSize * pageSize ≤ (-1) * pageSize :=
    Int.mul_le_mul_of_nonneg_right (by omega) (by omega)
  omega

/-- C35 (failing input): over the two stored documents with page size 2 there is one page,
`TotalPages * pageSize = 2` fits `int32` and page 1073741825 is beyond the last page, yet
for that request `(page-1)*pageSize` wraps to `-2147483648`, neither clamp fires on the
negative window `[-2147483648, -2147483646)`, and the slice expression panics instead of
returning an empty page. -/
theorem ListDocuments_page_beyond_total_panics :
    listTotalPages (listFiltered (mockDocuments 0 0 0 0) []) 2 = 1 ∧
    listTotalPages (listFiltered (mockDocuments 0 0 0 0) []) 2 * 2 < 2147483648 ∧
    listTotalPages (listFiltered (mockDocuments 0 0 0 0) []) 2 < 1073741825 ∧
    listWindow (mockDocuments 0 0 0 0) 1073741825 2 = (-2147483648, -2147483646) ∧
    ListDocuments (mockDocuments 0 0 0 0) (some { Page := 1073741825, PageSize := 2 }) []
      = none := by
  decide

/-- Where the window arithmetic does not wrap, the pages partition the filtered list: for a
page size `p >= 1` with `TotalPages * p` fitting `int32`, the calls
for the pages `1, ..., TotalPages` all return, their results laid end to end are the
filtered list, every page but the last holds exactly `p` documents, and every page beyond
`TotalPages` whose `page * p` still fits `int32` is returned empty and without error. The
filtered list's length is taken to fit `int32`. -/
theorem ListDocuments_pages_partition (stored : List Document) (filters : List Filter)
    (pageSize : Int) (hs : 1 ≤ pageSize) (hs32 : pageSize < 2147483648)
    (hlen : ((listFiltered stored filters).length : Int) < 2147483648)
    (hmul : listTotalPages (listFiltered stored filters) pageSize * pageSize < 2147483648) :
    ∃ pages : List (List Document),
      (pages.length : Int) = listTotalPages (listFiltered stored filters) pageSize ∧
      (∀ (i : Nat) (docs : List Document), pages[i]? = some docs →
        ∃ resp,
          ListDocuments stored (some { Page := (i : Int) + 1, PageSize := pageSize }) filters
            = some (docs, resp, none) ∧
          resp.TotalPages = listTotalPages (listFiltered stored filters) pageSize) ∧
      pages.flatten = listFiltered stored filters ∧
      (∀ (i : Nat) (docs : List Document), pages[i]? = some docs → i + 1 < pages.length →
        (docs.length : Int) = pageSize) ∧
      (∀ page : Int, listTotalPages (listFiltered stored filters) pageSize < page →
        page * pageSize < 2147483648 →
        ∃ resp,
          ListDocuments stored (some { Page := page, PageSize := pageSize }) filters
            = some ([], resp, none)) := by
  obtain ⟨hT0, hT1, hT2⟩ := listTotalPages_bounds (listFiltered stored filters) pageSize hlen
    hs hs32
  generalize hL : listFiltered stored filters = L at *
  generalize hT : listTotalPages L pageSize = T at *
  have hcall : ∀ page : Int, 1 ≤ page → page * pageSize < 2147483648 →
      ListDocuments stored (some { Page := page, PageSize := pageSize }) filters
        = some ((L.drop ((page - 1) * pageSize).toNat).take pageSize.toNat,
            { Page := page, PageSize := pageSize, Total := listTotal L, TotalPages := T },
            none) := by
    intro page hp hm
    have hep : Spec.effectivePage (some { Page := page, PageSize := pageSize }) = page := by
      have h' : ¬ page ≤ 0 := by omega
      simp [Spec.effectivePage, h']
    have hes : Spec.effectivePageSize (some { Page := page, PageSize := pageSize })
        = pageSize := by
      have h' : ¬ pageSize ≤ 0 := by omega
      simp [Spec.effectivePageSize, h']
    have h := ListDocuments_of_no_overflow stored (some { Page := page, PageSize := pageSize })
      filters (by rw [hep, hes]; exact hm) (by rw [hL]; exact hlen)
    rw [hep, hes, hL, hT] at h
    exact h
  have hpn : 0 < pageSize.toNat := by omega
  have hcast : ((pageSize.toNat : Nat) : Int) = pageSize := by omega
  refine ⟨Spec.pageWindows L pageSize.toNat T.toNat, ?_, ?_, ?_, ?_, ?_⟩
  · simp only [Spec.pageWindows, List.length_map, List.length_range]
    omega
  · intro i docs hi
    have hlt : i < T.toNat := by
      have := (List.getElem?_eq_some_iff.1 hi).1
      simpa [Spec.pageWindows] using this
    have hval : docs = (L.drop (i * pageSize.toNat)).take pageSize.toNat := by
      have h2 : (Spec.pageWindows L pageSize.toNat T.toNat)[i]?
          = some ((L.drop (i * pageSize.toNat)).take pageSize.toNat) := by
        simp [Spec.pageWindows, List.getElem?_map, List.getElem?_range hlt]
      rw [h2] at hi
      exact (Option.some.inj hi).symm
    have hle : ((i : Int) + 1) * pageSize ≤ T * pageSize :=
      Int.mul_le_mul_of_nonneg_right (by omega) (by omega)
    have h := hcall ((i : Int) + 1) (by omega) (by omega)
    have hidx : (((i : Int) + 1 - 1) * pageSize).toNat = i * pageSize.toNat := by
      have : ((i : Int) + 1 - 1) * pageSize = ((i * pageSize.toNat : Nat) : Int) := by
        push_cast
        rw [hcast]
        ring
      rw [this]
      exact Int.toNat_natCast _
    rw [hidx] at h
    exact ⟨_, by rw [h, hval], rfl⟩
  · apply pageWindows_flatten
    have : ((L.length : Nat) : Int) ≤ ((T.toNat * pageSize.toNat : Nat) : Int) := by
      push_cast
      rw [hcast, Int.toNat_of_nonneg hT0]
      exact hT1
    exact_mod_cast this
  · intro i docs hi hnext
    have hlt : i + 1 < T.toNat := by
      simpa [Spec.pageWindows] using hnext
    have hlt0 : i < T.toNat := by omega
    have h2 : (Spec.pageWindows L pageSize.toNat T.toNat)[i]?
        = some ((L.drop (i * pageSize.toNat)).take pageSize.toNat) := by
      simp [Spec.pageWindows, List.getElem?_map, List.getElem?_range hlt0]
    rw [h2] at hi
    have hval := (Option.some.inj hi).symm
    have hle : ((i : Int) + 1) * pageSize ≤ (T - 1) * pageSize :=
      Int.mul_le_mul_of_nonneg_right (by omega) (by omega)
    have hfit : (i + 1) * pageSize.toNat ≤ L.length := by
      have : (((i + 1) * pageSize.toNat : Nat) : Int) ≤ L.length := by
        push_cast
        rw [hcast]
        omega
      exact_mod_cast this
    have hexp : (i + 1) * pageSize.toNat = i * pageSize.toNat + pageSize.toNat := by ring
    rw [hval, List.length_take, List.length_drop]
    omega
  · intro page hbeyond hm
    have h := hcall page (by omega) hm
    have hge : T * pageSize ≤ (page - 1) * pageSize :=
      Int.mul_le_mul_of_nonneg_right (by omega) (by omega)
    have hdrop : L.drop ((page - 1) * pageSize).toNat = [] :=
      List.drop_eq_nil_of_le (by omega)
    rw [hdrop, List.take_nil] at h
    exact ⟨_, h⟩

/-- An instance of the partition: the two stored documents in pages of size 1 are two pages of
one document each, and page 3 is empty. -/
theorem ListDocuments_pages_partition_witness :
    ∃ pages : List (List Document),
      (pages.length : Int) = 2 ∧
      pages.flatten = mockDocuments 0 0 0 0 ∧
      (∃ resp, ListDocuments (mockDocuments 0 0 0 0) (some { Page := 3, PageSize := 1 }) []
        = some ([], resp, none)) := by
  obtain ⟨pages, h1, _, h3, _, h5⟩ :=
    ListDocuments_pages_partition (mockDocuments 0 0 0 0) [] 1 (by decide) (by decide)
      (by decide) (by decide)
  exact ⟨pages, h1, h3, h5 3 (by decide) (by decide)⟩

end data

namespace Go

/-- The digits counted by `bitLength` bracket the number. -/
theorem bitLength_bounds : ∀ (fuel a : Nat), a ≤ fuel → 0 < a →
    0 < bitLength fuel a ∧ 2 ^ (bitLength fuel a - 1) ≤ a ∧ a < 2 ^ bitLength fuel a := by
  intro fuel
  induction fuel with
  | zero => intro a h1 h2; omega
  | succ k ih =>
    intro a hle hpos
    have hne : a ≠ 0 := by omega
    rw [bitLength, if_neg hne]
    by_cases h2 : a / 2 = 0
    · have ha : a = 1 := by omega
      subst ha
      have hz : bitLength k (1 / 2) = 0 := by
        cases k with
        | zero => rfl
        | succ j => simp [bitLength]
      rw [hz]
      simp
    · have hpos2 : 0 < a / 2 := by omega
      obtain ⟨hb0, hb1, hb2⟩ := ih (a / 2) (by omega) hpos2
      refine ⟨by omega, ?_, ?_⟩
      · have : bitLength k (a / 2) + 1 - 1 = (bitLength k (a / 2) - 1) + 1 := by omega
        rw [this, pow_succ]
        omega
      · rw [pow_succ]
        omega

/-- Rounding to the nearest integer, ties to even, is monotone. -/
theorem NearestEven.mono {t u : ℚ} {R S : Int} (hR : NearestEven t R) (hS : NearestEven u S)
    (h : t ≤ u) : R ≤ S := by
  by_contra hlt
  have hle : S + 1 ≤ R := by omega
  have hq : (S : ℚ) + 1 ≤ (R : ℚ) := by exact_mod_cast hle
  obtain ⟨r1, _, r3, _⟩ := hR
  obtain ⟨_, s2, _, s4⟩ := hS
  have e1 : t = (R : ℚ) - 1 / 2 := by linarith
  have e2 : u = (S : ℚ) + 1 / 2 := by linarith
  have e3 : (R : ℚ) = (S : ℚ) + 1 := by linarith
  have e4 : R = S + 1 := by exact_mod_cast e3
  have hRe := r3 e1
  have hSe := s4 e2
  rw [e4] at hRe
  exact (Int.even_add_one.1 hRe) hSe

/-- An integer is its own rounding. -/
theorem NearestEven.of_int (k : Int) : NearestEven (k : ℚ) k := by
  refine ⟨by linarith, by linarith, ?_, ?_⟩
  · intro h; exfalso; linarith
  · intro h; exfalso; linarith

/-- The number `roundMantissa` returns is `a * 2 ^ e / 2 ^ q` rounded to the nearest integer,
ties to even. -/
theorem roundMantissa_nearest (a : Nat) (e q : Int) :
    NearestEven ((a : ℚ) * (2 : ℚ) ^ e * (2 : ℚ) ^ (-q)) (roundMantissa a e q : Int) := by
  have h2 : (2 : ℚ) ≠ 0 := by norm_num
  unfold roundMantissa
  by_cases hqe : q ≤ e
  · rw [if_pos hqe]
    have hnat : (((e - q).toNat : Nat) : Int) = e - q := Int.toNat_of_nonneg (by omega)
    have hp : (2 : ℚ) ^ (e - q).toNat = (2 : ℚ) ^ (e - q) := by
      rw [← hnat, zpow_natCast, hnat]
    have hval : (a : ℚ) * (2 : ℚ) ^ e * (2 : ℚ) ^ (-q)
        = (((a * 2 ^ (e - q).toNat : Nat) : Int) : ℚ) := by
      push_cast
      rw [hp, mul_assoc, ← zpow_add₀ h2]
      congr 2
    rw [hval]
    exact NearestEven.of_int _
  · rw [if_neg hqe]
    have hs1 : 1 ≤ (q - e).toNat := by omega
    generalize hs : (q - e).toNat = s at *
    have hnat : ((s : Nat) : Int) = q - e := by rw [← hs]; exact Int.toNat_of_nonneg (by omega)
    obtain ⟨s', rfl⟩ : ∃ s', s = s' + 1 := ⟨s - 1, by omega⟩
    have hpow : (2 : Nat) ^ (s' + 1) = 2 * 2 ^ s' := by rw [pow_succ]; ring
    simp only [Nat.add_sub_cancel]
    generalize hh : (2 : Nat) ^ s' = h at *
    have hhpos : 0 < h := by rw [← hh]; exact pow_pos (by norm_num) _
    rw [hpow]
    have hdm := Nat.div_add_mod a (2 * h)
    have hmod : a % (2 * h) < 2 * h := Nat.mod_lt _ (by omega)
    generalize hk : a / (2 * h) = kept at *
    generalize hd : a % (2 * h) = dropped at *
    have hq2 : (2 : ℚ) ^ e * (2 : ℚ) ^ (-q) = 1 / (2 * (h : ℚ)) := by
      rw [← zpow_add₀ h2]
      have : e + -q = -((s' + 1 : Nat) : Int) := by omega
      rw [this, zpow_neg, zpow_natCast, pow_succ, ← hh]
      push_cast
      rw [one_div]
      congr 1
      ring
    have hhq : (0 : ℚ) < (h : ℚ) := by exact_mod_cast hhpos
    have haq : (a : ℚ) = 2 * (h : ℚ) * (kept : ℚ) + (dropped : ℚ) := by
      have : ((2 * h * kept + dropped : Nat) : ℚ) = (a : ℚ) := by rw [hdm]
      rw [← this]
      push_cast
      ring
    have ht : (a : ℚ) * (2 : ℚ) ^ e * (2 : ℚ) ^ (-q)
        = (kept : ℚ) + (dropped : ℚ) / (2 * (h : ℚ)) := by
      rw [mul_assoc, hq2, haq]
      field_simp
      ring
    rw [ht]
    have hdq : (dropped : ℚ) < 2 * (h : ℚ) := by exact_mod_cast hmod
    have hfrac : ∀ c : ℚ, (dropped : ℚ) / (2 * (h : ℚ)) = c ↔ (dropped : ℚ) = c * (2 * (h : ℚ)) := by
      intro c
      rw [div_eq_iff (by positivity)]
    have hfle : ∀ c : ℚ, (dropped : ℚ) / (2 * (h : ℚ)) ≤ c ↔ (dropped : ℚ) ≤ c * (2 * (h : ℚ)) := by
      intro c
      rw [div_le_iff₀ (by positivity)]
    have hfge : ∀ c : ℚ, c ≤ (dropped : ℚ) / (2 * (h : ℚ)) ↔ c * (2 * (h : ℚ)) ≤ (dropped : ℚ) := by
      intro c
      rw [le_div_iff₀ (by positivity)]
    by_cases hup : dropped > h ∨ (dropped = h ∧ kept % 2 = 1)
    · rw [if_pos hup]
      have hge : h ≤ dropped := by omega
      have hgeq : (h : ℚ) ≤ (dropped : ℚ) := by exact_mod_cast hge
      refine ⟨?_, ?_, ?_, ?_⟩
      · push_cast
        have := (hfge (1 / 2)).2 (by linarith)
        linarith
      · push_cast
        have := (hfle 1).2 (by linarith)
        linarith
      · intro heq
        push_cast at heq
        have h1 : (dropped : ℚ) / (2 * (h : ℚ)) = 1 / 2 := by linarith
        have h2' := (hfrac (1 / 2)).1 h1
        have h3 : (dropped : ℚ) = (h : ℚ) := by linarith
        have h4 : dropped = h := by exact_mod_cast h3
        have hodd : kept % 2 = 1 := by
          rcases hup with hgt | ⟨_, ho⟩
          · omega
          · exact ho
        have : ((kept + 1 : Nat) : Int) % 2 = 0 := by omega
        exact Int.even_iff.2 this
      · intro heq
        push_cast at heq
        exfalso
        have h1 : (dropped : ℚ) / (2 * (h : ℚ)) = 3 / 2 := by linarith
        have h2' := (hfrac (3 / 2)).1 h1
        linarith
    · rw [if_neg hup]
      have hle : dropped ≤ h := by omega
      have hleq : (dropped : ℚ) ≤ (h : ℚ) := by exact_mod_cast hle
      have hd0 : (0 : ℚ) ≤ (dropped : ℚ) := by positivity
      refine ⟨?_, ?_, ?_, ?_⟩
      · have := (hfge 0).2 (by linarith)
        push_cast
        linarith
      · have := (hfle (1 / 2)).2 (by linarith)
        push_cast
        linarith
      · intro heq
        exfalso
        push_cast at heq
        have h1 : (dropped : ℚ) / (2 * (h : ℚ)) = -(1 / 2) := by linarith
        have h2' := (hfrac (-(1 / 2))).1 h1
        linarith
      · intro heq
        push_cast at heq
        have h1 : (dropped : ℚ) / (2 * (h : ℚ)) = 1 / 2 := by linarith
        have h2' := (hfrac (1 / 2)).1 h1
        have h3 : (dropped : ℚ) = (h : ℚ) := by linarith
        have h4 : dropped = h := by exact_mod_cast h3
        have hev : kept % 2 = 0 := by
          by_contra hne
          exact hup (Or.inr ⟨h4, by omega⟩)
        have : ((kept : Nat) : Int) % 2 = 0 := by omega
        exact Int.even_iff.2 this

end Go

namespace Go

/-- What `Float32.round` does with a positive number `a * 2 ^ e`: with `E` the exponent just
above the number and `q` the exponent of the last kept bit, the mantissa `R` is the number
divided by `2 ^ q` and rounded to the nearest integer, ties to even; it has at most 24 bits,
exactly 24 unless `q` is the smallest exponent, and the result is infinite when the last
exponent exceeds 104, and has the value `R * 2 ^ q` otherwise. -/
theorem round_pos_spec (a : Nat) (ha : 0 < a) (e : Int) :
    ∃ (E q last : Int) (R : Nat),
      (2 : ℚ) ^ (E - 1) ≤ (a : ℚ) * (2 : ℚ) ^ e ∧ (a : ℚ) * (2 : ℚ) ^ e < (2 : ℚ) ^ E ∧
      q = max (E - 24) (-149) ∧
      NearestEven ((a : ℚ) * (2 : ℚ) ^ e * (2 : ℚ) ^ (-q)) (R : Int) ∧
      R ≤ 2 ^ 24 ∧ (-149 < q → 2 ^ 23 ≤ R) ∧
      last = (if R = 2 ^ 24 then q + 1 else q) ∧
      (Float32.round (a : Int) e).isNaN = false ∧
      Float32.key (Float32.round (a : Int) e) =
        if last > 104 then ⊤
        else ((((R : ℚ) * (2 : ℚ) ^ q : ℚ) : WithTop ℚ) : WithBot (WithTop ℚ)) := by
  have h2 : (2 : ℚ) ≠ 0 := by norm_num
  have h2pos : (0 : ℚ) < 2 := by norm_num
  obtain ⟨hL0, hL1, hL2⟩ := bitLength_bounds a a (le_refl a) ha
  generalize hL : bitLength a a = L at *
  have hx1 : (2 : ℚ) ^ ((L : Int) + e - 1) ≤ (a : ℚ) * (2 : ℚ) ^ e := by
    have h1 : ((2 ^ (L - 1) : Nat) : ℚ) ≤ (a : ℚ) := by exact_mod_cast hL1
    have h3 : (2 : ℚ) ^ ((L : Int) + e - 1) = ((2 ^ (L - 1) : Nat) : ℚ) * (2 : ℚ) ^ e := by
      push_cast
      rw [← zpow_natCast, ← zpow_add₀ h2]
      congr 1
      omega
    rw [h3]
    exact mul_le_mul_of_nonneg_right h1 (le_of_lt (zpow_pos h2pos _))
  have hx2 : (a : ℚ) * (2 : ℚ) ^ e < (2 : ℚ) ^ ((L : Int) + e) := by
    have h1 : (a : ℚ) < ((2 ^ L : Nat) : ℚ) := by exact_mod_cast hL2
    have h3 : (2 : ℚ) ^ ((L : Int) + e) = ((2 ^ L : Nat) : ℚ) * (2 : ℚ) ^ e := by
      push_cast
      rw [← zpow_natCast, ← zpow_add₀ h2]
    rw [h3]
    exact mul_lt_mul_of_pos_right h1 (zpow_pos h2pos _)
  generalize hq : max ((L : Int) + e - 24) (-149) = q
  have hqge : (L : Int) + e - 24 ≤ q := by rw [← hq]; exact le_max_left _ _
  have hqge2 : -149 ≤ q := by rw [← hq]; exact le_max_right _ _
  have hnear := roundMantissa_nearest a e q
  generalize hR : roundMantissa a e q = R at *
  have hqpos : (0 : ℚ) < (2 : ℚ) ^ (-q) := zpow_pos h2pos _
  have hR24 : R ≤ 2 ^ 24 := by
    have ht : (a : ℚ) * (2 : ℚ) ^ e * (2 : ℚ) ^ (-q) ≤ (((2 ^ 24 : Nat) : Int) : ℚ) := by
      have h1 : (a : ℚ) * (2 : ℚ) ^ e * (2 : ℚ) ^ (-q)
          ≤ (2 : ℚ) ^ ((L : Int) + e) * (2 : ℚ) ^ (-q) :=
        mul_le_mul_of_nonneg_right (le_of_lt hx2) (le_of_lt hqpos)
      have h3 : (2 : ℚ) ^ ((L : Int) + e) * (2 : ℚ) ^ (-q) ≤ (2 : ℚ) ^ (24 : Int) := by
        rw [← zpow_add₀ h2]
        exact zpow_le_zpow_right₀ (by norm_num) (by omega)
      have h4 : (((2 ^ 24 : Nat) : Int) : ℚ) = (2 : ℚ) ^ (24 : Int) := by norm_num
      rw [h4]
      exact le_trans h1 h3
    have := NearestEven.mono hnear (NearestEven.of_int _) ht
    exact_mod_cast this
  have hR23 : -149 < q → 2 ^ 23 ≤ R := by
    intro hq149
    have hqeq : q = (L : Int) + e - 24 := by
      rw [← hq] at hq149 ⊢
      rcases max_cases ((L : Int) + e - 24) (-149) with ⟨h1, _⟩ | ⟨h1, _⟩
      · exact h1
      · rw [h1] at hq149; omega
    have ht : (((2 ^ 23 : Nat) : Int) : ℚ) ≤ (a : ℚ) * (2 : ℚ) ^ e * (2 : ℚ) ^ (-q) := by
      have h1 : (2 : ℚ) ^ ((L : Int) + e - 1) * (2 : ℚ) ^ (-q)
          ≤ (a : ℚ) * (2 : ℚ) ^ e * (2 : ℚ) ^ (-q) :=
        mul_le_mul_of_nonneg_right hx1 (le_of_lt hqpos)
      have h3 : (2 : ℚ) ^ ((L : Int) + e - 1) * (2 : ℚ) ^ (-q) = (2 : ℚ) ^ (23 : Int) := by
        rw [← zpow_add₀ h2]
        congr 1
        omega
      have h4 : (((2 ^ 23 : Nat) : Int) : ℚ) = (2 : ℚ) ^ (23 : Int) := by norm_num
      rw [h4, ← h3]
      exact h1
    have := NearestEven.mono (NearestEven.of_int _) hnear ht
    exact_mod_cast this
  have hqE : q = max ((L : Int) + e - 24) (-149) := hq.symm
  refine ⟨(L : Int) + e, q, if R = 2 ^ 24 then q + 1 else q, R, hx1, hx2, hqE, hnear, hR24,
    hR23, rfl, ?_, ?_⟩
  · have hne : ((a : Nat) : Int) ≠ 0 := by omega
    have hnat : ((a : Nat) : Int).natAbs = a := Int.natAbs_ofNat a
    have hnn : ¬ ((a : Nat) : Int) < 0 := by omega
    have hq' : max ((L : Int) - 24 + e) (-149) = q := by
      rw [← hq]; congr 1; omega
    simp only [Float32.round, hne, if_false, hnat, hL, hq', hR, hnn]
    split_ifs <;> rfl
  · have hne : ((a : Nat) : Int) ≠ 0 := by omega
    have hnat : ((a : Nat) : Int).natAbs = a := Int.natAbs_ofNat a
    have hnn : ¬ ((a : Nat) : Int) < 0 := by omega
    have hq' : max ((L : Int) - 24 + e) (-149) = q := by
      rw [← hq]; congr 1; omega
    simp only [Float32.round, hne, if_false, hnat, hL, hq', hR, hnn, decide_False]
    by_cases h24 : R = 2 ^ 24
    · have hge : R ≥ 2 ^ 24 := by omega
      simp only [h24, ge_iff_le, le_refl, if_true]
      by_cases hlast : q + 1 > 104
      · simp only [hlast, if_true, Float32.key]
        rfl
      · simp only [hlast, if_false, Float32.key]
        congr 2
        have : (2 : ℚ) ^ (q + 1) = (2 : ℚ) ^ q * 2 := by
          rw [zpow_add₀ h2, zpow_one]
        rw [this]
        norm_num
        ring
    · have hlt : ¬ R ≥ 2 ^ 24 := by omega
      simp only [hlt, h24, if_false]
      by_cases hlast : q > 104
      · simp only [hlast, if_true, Float32.key]
        rfl
      · simp only [hlast, if_false, Float32.key]
        norm_num

/-- Rounding to `float32` is monotone on the positive numbers. -/
theorem round_mono_pos (a b : Nat) (e f : Int) (ha : 0 < a) (hb : 0 < b)
    (h : (a : ℚ) * (2 : ℚ) ^ e ≤ (b : ℚ) * (2 : ℚ) ^ f) :
    Float32.key (Float32.round (a : Int) e) ≤ Float32.key (Float32.round (b : Int) f) := by
  have h2 : (2 : ℚ) ≠ 0 := by norm_num
  have h2pos : (0 : ℚ) < 2 := by norm_num
  obtain ⟨E, q, last, R, x1, x2, hq, hn, r24, r23, hlast, _, hkey⟩ := round_pos_spec a ha e
  obtain ⟨F, r, last2, S, y1, y2, hr, hn2, s24, s23, hlast2, _, hkey2⟩ := round_pos_spec b hb f
  have hEF : E ≤ F := by
    have : (2 : ℚ) ^ (E - 1) < (2 : ℚ) ^ F := lt_of_le_of_lt (le_trans x1 h) y2
    have := (zpow_lt_zpow_iff_right₀ (by norm_num : (1 : ℚ) < 2)).1 this
    omega
  have hqr : q ≤ r := by
    rw [hq, hr]
    exact max_le_max (by omega) (le_refl _)
  have hboth : last ≤ last2 ∧ (R : ℚ) * (2 : ℚ) ^ q ≤ (S : ℚ) * (2 : ℚ) ^ r := by
    rcases lt_or_eq_of_le hqr with hlt | heq
    · constructor
      · rw [hlast, hlast2]
        split <;> split <;> omega
      · have hS := s23 (by rw [hq] at hlt; have := le_max_right (E - 24) (-149); omega)
        have h1 : (R : ℚ) * (2 : ℚ) ^ q ≤ (2 : ℚ) ^ (24 : Int) * (2 : ℚ) ^ q := by
          have : (R : ℚ) ≤ ((2 ^ 24 : Nat) : ℚ) := by exact_mod_cast r24
          have h4 : ((2 ^ 24 : Nat) : ℚ) = (2 : ℚ) ^ (24 : Int) := by norm_num
          rw [← h4]
          exact mul_le_mul_of_nonneg_right this (le_of_lt (zpow_pos h2pos _))
        have h3 : (2 : ℚ) ^ (23 : Int) * (2 : ℚ) ^ r ≤ (S : ℚ) * (2 : ℚ) ^ r := by
          have : ((2 ^ 23 : Nat) : ℚ) ≤ (S : ℚ) := by exact_mod_cast hS
          have h4 : ((2 ^ 23 : Nat) : ℚ) = (2 : ℚ) ^ (23 : Int) := by norm_num
          rw [← h4]
          exact mul_le_mul_of_nonneg_right this (le_of_lt (zpow_pos h2pos _))
        have h5 : (2 : ℚ) ^ (24 : Int) * (2 : ℚ) ^ q ≤ (2 : ℚ) ^ (23 : Int) * (2 : ℚ) ^ r := by
          rw [← zpow_add₀ h2, ← zpow_add₀ h2]
          exact zpow_le_zpow_right₀ (by norm_num) (by omega)
        exact le_trans h1 (le_trans h5 h3)
    · subst heq
      have ht : (a : ℚ) * (2 : ℚ) ^ e * (2 : ℚ) ^ (-q) ≤ (b : ℚ) * (2 : ℚ) ^ f * (2 : ℚ) ^ (-q) :=
        mul_le_mul_of_nonneg_right h (le_of_lt (zpow_pos h2pos _))
      have hRS : (R : Int) ≤ (S : Int) := NearestEven.mono hn hn2 ht
      have hRS' : R ≤ S := by exact_mod_cast hRS
      constructor
      · rw [hlast, hlast2]
        split <;> split <;> omega
      · have : (R : ℚ) ≤ (S : ℚ) := by exact_mod_cast hRS'
        exact mul_le_mul_of_nonneg_right this (le_of_lt (zpow_pos h2pos _))
  rw [hkey, hkey2]
  by_cases hl2 : last2 > 104
  · rw [if_pos hl2]
    exact le_top
  · have hl1 : ¬ last > 104 := by omega
    rw [if_neg hl2, if_neg hl1]
    exact WithBot.coe_le_coe.2 (WithTop.coe_le_coe.2 hboth.2)

end Go

namespace Go

/-- The comparison `a >= b` of two values that are not NaN is the order of their places on
the extended rational line. -/
theorem Float32.ge_iff_key (a b : Float32) (ha : a.isNaN = false) (hb : b.isNaN = false) :
    Float32.ge a b = true ↔ Float32.key b ≤ Float32.key a := by
  have hlt := Float32.lt_iff_key a b ha hb
  have hge : Float32.ge a b = true ↔ ¬ (Float32.lt a b = true) := by
    cases a with
    | nan => simp [Float32.isNaN] at ha
    | inf s =>
      cases b with
      | nan => simp [Float32.isNaN] at hb
      | inf t => cases s <;> cases t <;> simp [Float32.ge, Float32.lt, Float32.cmp]
      | fin n f => cases s <;> simp [Float32.ge, Float32.lt, Float32.cmp]
    | fin m e =>
      cases b with
      | nan => simp [Float32.isNaN] at hb
      | inf t => cases t <;> simp [Float32.ge, Float32.lt, Float32.cmp]
      | fin n f =>
        simp only [Float32.ge, Float32.lt, Float32.cmp]
        rcases hcmp : compare (m * 2 ^ (e - min e f).toNat) (n * 2 ^ (f - min e f).toNat)
          with _ | _ | _ <;> simp
  rw [hge, hlt, not_lt]

/-- Two values that compare equal have the same place on the extended rational line. -/
theorem Float32.key_eq_of_cmp_eq (a b : Float32) (h : Float32.cmp a b = some .eq) :
    Float32.key a = Float32.key b ∧ a.isNaN = false ∧ b.isNaN = false := by
  cases a with
  | nan => simp [Float32.cmp] at h
  | inf s =>
    cases b with
    | nan => simp [Float32.cmp] at h
    | inf t => cases s <;> cases t <;> simp [Float32.cmp, Float32.key, Float32.isNaN] at h ⊢
    | fin n f => cases s <;> simp [Float32.cmp] at h
  | fin m e =>
    cases b with
    | nan => simp [Float32.cmp] at h
    | inf t => cases t <;> simp [Float32.cmp] at h
    | fin n f =>
      simp only [Float32.cmp, Option.some.injEq] at h
      have hz := compare_eq_iff_eq.1 h
      have hq := (scaled_eq_iff m e n f).1 hz
      simp only [Float32.key, Float32.isNaN, hq, and_self]

/-- Rounding a non-negative number to `float32` gives a non-negative value that is not NaN,
and rounding is monotone on the non-negative numbers. -/
theorem round_mono_nonneg (m n e f : Int) (hm : 0 ≤ m)
    (h : (m : ℚ) * (2 : ℚ) ^ e ≤ (n : ℚ) * (2 : ℚ) ^ f) :
    (Float32.round m e).isNaN = false ∧ (Float32.round n f).isNaN = false ∧
    Float32.key Float32.zero ≤ Float32.key (Float32.round m e) ∧
    Float32.key (Float32.round m e) ≤ Float32.key (Float32.round n f) := by
  have h2pos : (0 : ℚ) < 2 := by norm_num
  have hzero : Float32.key Float32.zero
      = ((((0 : ℚ) : ℚ) : WithTop ℚ) : WithBot (WithTop ℚ)) := by
    simp [Float32.key, Float32.zero]
  have hpos : ∀ (a : Nat) (g : Int), 0 < a →
      (Float32.round (a : Int) g).isNaN = false ∧
      Float32.key Float32.zero ≤ Float32.key (Float32.round (a : Int) g) := by
    intro a g ha
    obtain ⟨E, q, last, R, _, _, _, _, _, _, _, hnan, hkey⟩ := round_pos_spec a ha g
    refine ⟨hnan, ?_⟩
    rw [hkey, hzero]
    split
    · exact le_top
    · apply WithBot.coe_le_coe.2
      apply WithTop.coe_le_coe.2
      have : (0 : ℚ) ≤ (R : ℚ) := by positivity
      exact mul_nonneg this (le_of_lt (zpow_pos h2pos _))
  have hr0 : ∀ g : Int, Float32.round 0 g = Float32.zero := by
    intro g
    simp [Float32.round, Float32.zero]
  have hn0 : 0 ≤ n := by
    by_contra hneg
    have hneg' : n < 0 := by omega
    have h1 : (n : ℚ) < 0 := by exact_mod_cast hneg'
    have h3 : (n : ℚ) * (2 : ℚ) ^ f < 0 := mul_neg_of_neg_of_pos h1 (zpow_pos h2pos _)
    have h4 : (0 : ℚ) ≤ (m : ℚ) * (2 : ℚ) ^ e :=
      mul_nonneg (by exact_mod_cast hm) (le_of_lt (zpow_pos h2pos _))
    linarith
  rcases eq_or_lt_of_le hm with hm0 | hmpos
  · subst hm0
    rw [hr0]
    rcases eq_or_lt_of_le hn0 with hn00 | hnpos
    · subst hn00
      rw [hr0]
      exact ⟨rfl, rfl, le_refl _, le_refl _⟩
    · obtain ⟨b, rfl⟩ : ∃ b : Nat, n = (b : Int) := ⟨n.toNat, by omega⟩
      have hb : 0 < b := by omega
      obtain ⟨p1, p2⟩ := hpos b f hb
      exact ⟨rfl, p1, le_refl _, p2⟩
  · obtain ⟨a, rfl⟩ : ∃ a : Nat, m = (a : Int) := ⟨m.toNat, by omega⟩
    have ha : 0 < a := by omega
    have hnpos : 0 < n := by
      rcases eq_or_lt_of_le hn0 with hn00 | hnpos
      · exfalso
        subst hn00
        have h1 : (0 : ℚ) < (a : ℚ) := by exact_mod_cast ha
        have h3 : (0 : ℚ) < (a : ℚ) * (2 : ℚ) ^ e := mul_pos h1 (zpow_pos h2pos _)
        simp at h
        linarith
      · exact hnpos
    obtain ⟨b, rfl⟩ : ∃ b : Nat, n = (b : Int) := ⟨n.toNat, by omega⟩
    have hb : 0 < b := by omega
    obtain ⟨p1, p2⟩ := hpos a e ha
    obtain ⟨p3, _⟩ := hpos b f hb
    refine ⟨p1, p3, p2, ?_⟩
    apply round_mono_pos a b e f ha hb
    exact_mod_cast h

/-- The place of a finite non-negative value on the extended rational line. -/
theorem Float32.finite_nonneg_cases (x : Float32) (hf : x.isFinite = true)
    (h0 : Float32.ge x Float32.zero = true) :
    ∃ m e : Int, x = .fin m e ∧ 0 ≤ m := by
  cases x with
  | nan => simp [Float32.isFinite] at hf
  | inf s => simp [Float32.isFinite] at hf
  | fin m e =>
    refine ⟨m, e, rfl, ?_⟩
    have hk := (Float32.ge_iff_key (.fin m e) Float32.zero rfl rfl).1 h0
    simp only [Float32.key, Float32.zero, WithBot.coe_le_coe, WithTop.coe_le_coe] at hk
    have h2pos : (0 : ℚ) < (2 : ℚ) ^ e := zpow_pos (by norm_num) _
    have : (0 : ℚ) ≤ (m : ℚ) := by
      by_contra hneg
      have : (m : ℚ) * (2 : ℚ) ^ e < 0 := mul_neg_of_neg_of_pos (not_le.1 hneg) h2pos
      simp at hk
      linarith
    exact_mod_cast this

/-- The `float32` product of finite non-negative values is not NaN, is non-negative, and is
monotone in both factors. -/
theorem ieee_mul_mono (s t g k : Float32)
    (hs : s.isFinite = true) (ht : t.isFinite = true) (hg : g.isFinite = true)
    (hk : k.isFinite = true)
    (hs0 : Float32.ge s Float32.zero = true) (hg0 : Float32.ge g Float32.zero = true)
    (hst : Float32.ge t s = true) (hgk : Float32.ge k g = true) :
    (ieeeArith.mul s g).isNaN = false ∧ (ieeeArith.mul t k).isNaN = false ∧
    Float32.key Float32.zero ≤ Float32.key (ieeeArith.mul s g) ∧
    Float32.key (ieeeArith.mul s g) ≤ Float32.key (ieeeArith.mul t k) := by
  obtain ⟨m, e, rfl, hm⟩ := Float32.finite_nonneg_cases s hs hs0
  obtain ⟨n, f, rfl, hn⟩ := Float32.finite_nonneg_cases g hg hg0
  cases t with
  | nan => simp [Float32.isFinite] at ht
  | inf _ => simp [Float32.isFinite] at ht
  | fin m2 e2 =>
    cases k with
    | nan => simp [Float32.isFinite] at hk
    | inf _ => simp [Float32.isFinite] at hk
    | fin n2 f2 =>
      have h1 := (Float32.ge_iff_key (.fin m2 e2) (.fin m e) rfl rfl).1 hst
      have h2 := (Float32.ge_iff_key (.fin n2 f2) (.fin n f) rfl rfl).1 hgk
      simp only [Float32.key, WithBot.coe_le_coe, WithTop.coe_le_coe] at h1 h2
      have h2pos : (0 : ℚ) < 2 := by norm_num
      have hmq : (0 : ℚ) ≤ (m : ℚ) * (2 : ℚ) ^ e :=
        mul_nonneg (by exact_mod_cast hm) (le_of_lt (zpow_pos h2pos _))
      have hnq : (0 : ℚ) ≤ (n : ℚ) * (2 : ℚ) ^ f :=
        mul_nonneg (by exact_mod_cast hn) (le_of_lt (zpow_pos h2pos _))
      have hprod : ((m * n : Int) : ℚ) * (2 : ℚ) ^ (e + f)
          ≤ ((m2 * n2 : Int) : ℚ) * (2 : ℚ) ^ (e2 + f2) := by
        push_cast
        rw [zpow_add₀ (by norm_num : (2 : ℚ) ≠ 0), zpow_add₀ (by norm_num : (2 : ℚ) ≠ 0)]
        have : (m : ℚ) * (n : ℚ) * ((2 : ℚ) ^ e * (2 : ℚ) ^ f)
            = ((m : ℚ) * (2 : ℚ) ^ e) * ((n : ℚ) * (2 : ℚ) ^ f) := by ring
        rw [this]
        have : (m2 : ℚ) * (n2 : ℚ) * ((2 : ℚ) ^ e2 * (2 : ℚ) ^ f2)
            = ((m2 : ℚ) * (2 : ℚ) ^ e2) * ((n2 : ℚ) * (2 : ℚ) ^ f2) := by ring
        rw [this]
        exact mul_le_mul h1 h2 hnq (le_trans hmq h1)
      exact round_mono_nonneg (m * n) (m2 * n2) (e + f) (e2 + f2) (mul_nonneg hm hn) hprod

/-- The `float32` product of a finite non-negative `float32` value and a factor between 0
and 1 does not exceed the value. -/
theorem ieee_mul_le (s g : Float32)
    (hs : s.isFinite = true) (hg : g.isFinite = true) (hrep : s.representable = true)
    (hs0 : Float32.ge s Float32.zero = true) (hg0 : Float32.ge g Float32.zero = true)
    (hg1 : Float32.ge Float32.one g = true) :
    Float32.key (ieeeArith.mul s g) ≤ Float32.key s := by
  obtain ⟨m, e, rfl, hm⟩ := Float32.finite_nonneg_cases s hs hs0
  obtain ⟨n, f, rfl, hn⟩ := Float32.finite_nonneg_cases g hg hg0
  have h2 := (Float32.ge_iff_key Float32.one (.fin n f) rfl rfl).1 hg1
  simp only [Float32.key, Float32.one, WithBot.coe_le_coe, WithTop.coe_le_coe] at h2
  have h2pos : (0 : ℚ) < 2 := by norm_num
  have hmq : (0 : ℚ) ≤ (m : ℚ) * (2 : ℚ) ^ e :=
    mul_nonneg (by exact_mod_cast hm) (le_of_lt (zpow_pos h2pos _))
  have hprod : ((m * n : Int) : ℚ) * (2 : ℚ) ^ (e + f) ≤ (m : ℚ) * (2 : ℚ) ^ e := by
    push_cast
    rw [zpow_add₀ (by norm_num : (2 : ℚ) ≠ 0)]
    have : (m : ℚ) * (n : ℚ) * ((2 : ℚ) ^ e * (2 : ℚ) ^ f)
        = ((m : ℚ) * (2 : ℚ) ^ e) * ((n : ℚ) * (2 : ℚ) ^ f) := by ring
    rw [this]
    have h3 : (n : ℚ) * (2 : ℚ) ^ f ≤ 1 := by simpa using h2
    exact mul_le_of_le_one_right hmq h3
  have hmono := (round_mono_nonneg (m * n) m (e + f) e (mul_nonneg hm hn) hprod).2.2.2
  have hrep' : Float32.cmp (Float32.round m e) (.fin m e) = some .eq := by
    simp only [Float32.representable] at hrep
    split at hrep
    · assumption
    · exact absurd hrep (by simp)
  have hkeq := (Float32.key_eq_of_cmp_eq _ _ hrep').1
  rw [hkeq] at hmono
  exact hmono

end Go

namespace Go

set_option maxRecDepth 100000 in
/-- The decay factors of the indices 0 to 100 are finite and lie between 0 and 1. -/
theorem decayFactor_range :
    ∀ i, i < 101 →
      (decayFactor ieeeArith i).isFinite = true ∧
      Float32.ge (decayFactor ieeeArith i) Float32.zero = true ∧
      Float32.ge Float32.one (decayFactor ieeeArith i) = true := by
  decide

set_option maxRecDepth 100000 in
/-- From index 0 to index 100 the decay factor never grows from one index to the next. -/
theorem decayFactor_step :
    ∀ i, i < 100 →
      Float32.ge (decayFactor ieeeArith i) (decayFactor ieeeArith (i + 1)) = true := by
  decide

/-- A finite value is not NaN. -/
theorem Float32.isNaN_of_isFinite (x : Float32) (h : x.isFinite = true) : x.isNaN = false := by
  cases x <;> simp [Float32.isFinite, Float32.isNaN] at h ⊢

/-- Up to index 100 a later decay factor is never larger than an earlier one. -/
theorem decayFactor_antitone (i j : Nat) (hij : i ≤ j) (hj : j < 101) :
    Float32.key (decayFactor ieeeArith j) ≤ Float32.key (decayFactor ieeeArith i) := by
  induction j with
  | zero =>
    have : i = 0 := by omega
    subst this
    exact le_refl _
  | succ k ih =>
    rcases Nat.eq_or_lt_of_le hij with heq | hlt
    · subst heq
      exact le_refl _
    · have h1 := ih (by omega) (by omega)
      have h2 := decayFactor_step k (by omega)
      have h3 := (Float32.ge_iff_key _ _
        (Float32.isNaN_of_isFinite _ (decayFactor_range k (by omega)).1)
        (Float32.isNaN_of_isFinite _ (decayFactor_range (k + 1) (by omega)).1)).1 h2
      exact le_trans h3 h1

end Go

namespace data

open biz

set_option maxRecDepth 1000000 in
/-- C36 (counterexample): 101 documents whose scores are all `+Inf`, a non-negative value,
stay in their order, and the last one, at rank 100 where the factor is
`1.0 - float32(100)*0.01 = 0`, leaves with the score `Inf * 0 = NaN`, which is not
non-negative. -/
theorem RerankDocuments_infinite_score_counterexample :
    (∀ p ∈ List.range 101,
      Go.Float32.ge (heapOfScores (List.replicate 101 (.inf false)) p).RelevanceScore
        Go.Float32.zero = true) ∧
    Go.decayFactor Go.ieeeArith 100 = .fin 0 0 ∧
    ((RerankDocuments Go.ieeeArith (heapOfScores (List.replicate 101 (.inf false)))
        "machine learning" (List.range 101)).2.1 100).RelevanceScore = .nan ∧
    Go.Float32.ge
      ((RerankDocuments Go.ieeeArith (heapOfScores (List.replicate 101 (.inf false)))
        "machine learning" (List.range 101)).2.1 100).RelevanceScore
      Go.Float32.zero = false := by
  decide

set_option maxRecDepth 1000000 in
/-- C36 (amended): for every input slice of at most 101 distinct documents whose scores are
finite non-negative `float32` values, the scores `RerankDocuments` leaves behind are
non-negative, none exceeds the input score of the same document, and along the returned
slice they never increase; and for 102 documents with score 1 the factor of rank 101 is
negative and the last document leaves with a negative score. -/
theorem RerankDocuments_scores_shrink (heap : Go.Ptr → RelatedDocument) (query : String)
    (documents : List Go.Ptr) (hd : documents.Nodup) (hlen : documents.length ≤ 101)
    (hfin : ∀ p ∈ documents, (heap p).RelevanceScore.isFinite = true ∧
      (heap p).RelevanceScore.representable = true ∧
      Go.Float32.ge (heap p).RelevanceScore Go.Float32.zero = true) :
    (∀ p ∈ (RerankDocuments Go.ieeeArith heap query documents).1,
      Go.Float32.ge
        ((RerankDocuments Go.ieeeArith heap query documents).2.1 p).RelevanceScore
        Go.Float32.zero = true ∧
      Go.Float32.ge (heap p).RelevanceScore
        ((RerankDocuments Go.ieeeArith heap query documents).2.1 p).RelevanceScore = true) ∧
    (RerankDocuments Go.ieeeArith heap query documents).1.Pairwise (fun p q =>
      Go.Float32.ge
        ((RerankDocuments Go.ieeeArith heap query documents).2.1 p).RelevanceScore
        ((RerankDocuments Go.ieeeArith heap query documents).2.1 q).RelevanceScore = true) ∧
    (Go.Float32.lt (Go.decayFactor Go.ieeeArith 101) Go.Float32.zero = true ∧
     Go.Float32.lt
      ((RerankDocuments Go.ieeeArith (heapOfScores (List.replicate 102 (.fin 1 0)))
        "machine learning" (List.range 102)).2.1 101).RelevanceScore
      Go.Float32.zero = true) := by
  let less : Go.Ptr → Go.Ptr → Bool :=
    fun x y => Go.Float32.lt (heap x).RelevanceScore (heap y).RelevanceScore
  let keyP : Go.Ptr → WithBot (WithTop ℚ) := fun p => Go.Float32.key (heap p).RelevanceScore
  have hout : (RerankDocuments Go.ieeeArith heap query documents).1
      = bubbleSort less documents := rfl
  have hheap : (RerankDocuments Go.ieeeArith heap query documents).2.1
      = decayLoop Go.ieeeArith 0 (bubbleSort less documents) heap := rfl
  have hperm : (bubbleSort less documents).Perm documents := bubbleSort_perm less documents
  have hnd : (bubbleSort less documents).Nodup := hperm.nodup_iff.2 hd
  have hlen2 : (bubbleSort less documents).length ≤ 101 := by
    rw [hperm.length_eq]; exact hlen
  have hnan : ∀ p ∈ documents, (heap p).RelevanceScore.isNaN = false :=
    fun p hp => Go.Float32.isNaN_of_isFinite _ (hfin p hp).1
  have hagree : ∀ x ∈ documents, ∀ y ∈ documents,
      less x y = decide (keyP x < keyP y) := by
    intro x hx y hy
    have h := Go.Float32.lt_iff_key (heap x).RelevanceScore (heap y).RelevanceScore
      (hnan x hx) (hnan y hy)
    by_cases hk : keyP x < keyP y
    · simp only [hk, decide_True]
      exact h.2 hk
    · simp only [hk, decide_False]
      by_contra hne
      exact hk (h.1 (by simpa using hne))
  have hsorted : (bubbleSort less documents).Pairwise (fun a b => keyP b ≤ keyP a) := by
    have h := bubbleSort_sorted keyP documents
    have hc : bubbleSort less documents
        = bubbleSort (fun a b => decide (keyP a < keyP b)) documents :=
      bubbleLoop_congr less _ _ _ _ documents hagree
    rw [hc]
    exact h
  have hscore : ∀ (i : Nat) (p : Go.Ptr), (bubbleSort less documents)[i]? = some p →
      (decayLoop Go.ieeeArith 0 (bubbleSort less documents) heap p).RelevanceScore
        = Go.ieeeArith.mul (heap p).RelevanceScore (Go.decayFactor Go.ieeeArith i) := by
    intro i p hi
    have h := decayLoop_at_rank Go.ieeeArith _ 0 heap hnd i p hi
    rw [h]
    simp only [Go.decayFactor, Nat.zero_add]
  have hidx : ∀ (i : Nat) (p : Go.Ptr), (bubbleSort less documents)[i]? = some p →
      i < 101 ∧ p ∈ documents := by
    intro i p hi
    have h1 := (List.getElem?_eq_some_iff.1 hi).1
    exact ⟨by omega, hperm.mem_iff.1 (List.mem_iff_getElem?.2 ⟨i, hi⟩)⟩
  rw [hout, hheap]
  refine ⟨?_, ?_, by decide⟩
  · intro p hp
    obtain ⟨i, hi⟩ := List.mem_iff_getElem?.1 hp
    obtain ⟨hi101, hpd⟩ := hidx i p hi
    obtain ⟨f1, f2, f3⟩ := hfin p hpd
    obtain ⟨g1, g2, g3⟩ := Go.decayFactor_range i hi101
    rw [hscore i p hi]
    have hge_self : Go.Float32.ge (heap p).RelevanceScore (heap p).RelevanceScore = true :=
      (Go.Float32.ge_iff_key _ _ (hnan p hpd) (hnan p hpd)).2 (le_refl _)
    have hgg : Go.Float32.ge (Go.decayFactor Go.ieeeArith i) (Go.decayFactor Go.ieeeArith i)
        = true :=
      (Go.Float32.ge_iff_key _ _ (Go.Float32.isNaN_of_isFinite _ g1)
        (Go.Float32.isNaN_of_isFinite _ g1)).2 (le_refl _)
    obtain ⟨m1, _, m3, _⟩ := Go.ieee_mul_mono _ _ _ _ f1 f1 g1 g1 f3 g2 hge_self hgg
    refine ⟨(Go.Float32.ge_iff_key _ Go.Float32.zero m1 rfl).2 m3, ?_⟩
    exact (Go.Float32.ge_iff_key _ _ (hnan p hpd) m1).2 (Go.ieee_mul_le _ _ f1 g1 f2 f3 g2 g3)
  · rw [List.pairwise_iff_getElem]
    intro i j hi hj hij
    have hgi : (bubbleSort less documents)[i]? = some (bubbleSort less documents)[i] :=
      List.getElem?_eq_getElem hi
    have hgj : (bubbleSort less documents)[j]? = some (bubbleSort less documents)[j] :=
      List.getElem?_eq_getElem hj
    obtain ⟨hi101, hpi⟩ := hidx i _ hgi
    obtain ⟨hj101, hpj⟩ := hidx j _ hgj
    rw [hscore i _ hgi, hscore j _ hgj]
    obtain ⟨a1, _, a3⟩ := hfin _ hpi
    obtain ⟨b1, _, b3⟩ := hfin _ hpj
    obtain ⟨g1, g2, _⟩ := Go.decayFactor_range i hi101
    obtain ⟨k1, k2, _⟩ := Go.decayFactor_range j hj101
    have hs : keyP (bubbleSort less documents)[j] ≤ keyP (bubbleSort less documents)[i] :=
      (List.pairwise_iff_getElem.1 hsorted) i j hi hj hij
    have hs' := (Go.Float32.ge_iff_key _ _ (hnan _ hpi) (hnan _ hpj)).2 hs
    have hf := (Go.Float32.ge_iff_key _ _ (Go.Float32.isNaN_of_isFinite _ g1)
      (Go.Float32.isNaN_of_isFinite _ k1)).2
      (Go.decayFactor_antitone i j (le_of_lt hij) hj101)
    obtain ⟨m1, m2, _, m4⟩ := Go.ieee_mul_mono _ _ _ _ b1 a1 k1 g1 b3 k2 hs' hf
    exact (Go.Float32.ge_iff_key _ _ m2 m1).2 m4

/-- With the same document twice in the slice its score is rescaled twice, and the scores
read along the returned slice can increase: for `[p, q, p]` with equal scores the first
position shows `0.98` of the score and the second `0.99`. -/
theorem RerankDocuments_aliased_scores_increase :
    (RerankDocuments Go.ieeeArith (heapOfScores [.fin 1 0, .fin 1 0])
        "machine learning" [0, 1, 0]).1 = [0, 1, 0] ∧
    Go.Float32.lt
      ((RerankDocuments Go.ieeeArith (heapOfScores [.fin 1 0, .fin 1 0])
        "machine learning" [0, 1, 0]).2.1 0).RelevanceScore
      ((RerankDocuments Go.ieeeArith (heapOfScores [.fin 1 0, .fin 1 0])
        "machine learning" [0, 1, 0]).2.1 1).RelevanceScore = true := by
  decide

/-- Witness for C36 (amended): the scores 1, 3, 2 come back as 3, 2 * 0.99, 1 * 0.98, each
non-negative and no larger than before. -/
theorem RerankDocuments_scores_shrink_witness :
    (∀ p ∈ (RerankDocuments Go.ieeeArith (heapOfScores [.fin 1 0, .fin 3 0, .fin 2 0])
        "machine learning" [0, 1, 2]).1,
      Go.Float32.ge
        ((RerankDocuments Go.ieeeArith (heapOfScores [.fin 1 0, .fin 3 0, .fin 2 0])
          "machine learning" [0, 1, 2]).2.1 p).RelevanceScore
        Go.Float32.zero = true ∧
      Go.Float32.ge (heapOfScores [.fin 1 0, .fin 3 0, .fin 2 0] p).RelevanceScore
        ((RerankDocuments Go.ieeeArith (heapOfScores [.fin 1 0, .fin 3 0, .fin 2 0])
          "machine learning" [0, 1, 2]).2.1 p).RelevanceScore = true) ∧
    (RerankDocuments Go.ieeeArith (heapOfScores [.fin 1 0, .fin 3 0, .fin 2 0])
        "machine learning" [0, 1, 2]).1.Pairwise (fun p q =>
      Go.Float32.ge
        ((RerankDocuments Go.ieeeArith (heapOfScores [.fin 1 0, .fin 3 0, .fin 2 0])
          "machine learning" [0, 1, 2]).2.1 p).RelevanceScore
        ((RerankDocuments Go.ieeeArith (heapOfScores [.fin 1 0, .fin 3 0, .fin 2 0])
          "machine learning" [0, 1, 2]).2.1 q).RelevanceScore = true) :=
  have h := RerankDocuments_scores_shrink (heapOfScores [.fin 1 0, .fin 3 0, .fin 2 0])
    "machine learning" [0, 1, 2] (by decide) (by decide) (by decide)
  ⟨h.1, h.2.1⟩

end data
